import Mathlib

/-!
Verification of the Ilinden HLS proxy against its natural-language
specification.

This file shallowly embeds the parts of the Go source that the checked
claims are about:

* `pkg/hls` — playlist data model, parser and serializer
* `internal/playlist` — master/media playlist URL rewriting
* `internal/cache/memory.go` — sharded LRU+TTL memory cache
* `internal/jwt` — JWT claim caching

Modelling conventions:

* Go `uint32`/`uint64` become `Nat` with explicit reduction `% 2^32` /
  `% 2^64` where overflow can occur; Go `int`/`int64` become `Int`.
* Go `float64` fields (target duration, segment duration) are modelled as
  exact rationals `Rat`.  The claims proved about them only involve decimal
  literals far from any IEEE rounding boundary, where the rational and the
  IEEE reading agree.
* Go `time.Time` and `time.Duration` become `Int` nanoseconds; functions
  that call `time.Now()` take the current instant as an explicit argument.
* Goroutines do not occur on the verified paths except the fire-and-forget
  delete in `MemoryCache.Get`, which is modelled as an immediate delete.
* Go `map` iteration order is unspecified; maps whose iteration order is
  observable (media groups, stream attributes) are modelled as association
  lists in first-insertion order, a deterministic refinement of Go's
  behaviour.
* Functions from the Go standard library (`strconv`, `net/url`,
  `strings`) are modelled alongside, restricted to the inputs the
  repository feeds them (ASCII text, decimal numerals without exponents);
  each model notes its restriction.
-/

namespace Ilinden

/-! ## Small Go-standard-library models: integers and strings -/

/-- Go `int` division truncates toward zero (`Int.div` in Lean). -/
def goDiv (a b : Int) : Int := Int.tdiv a b

/-- 2^32, the modulus of Go `uint32` arithmetic. -/
def u32Mod : Nat := 4294967296

/-- 2^64, the modulus of Go `uint64` arithmetic. -/
def u64Mod : Nat := 18446744073709551616

/-- The byte value of a character.  The repository hashes and escapes
UTF-8 bytes; this model works per `Char`, which coincides with Go for
ASCII text (all inputs in the claims are ASCII). -/
def charByte (c : Char) : Nat := c.toNat % 256

/-- Go `strings.HasPrefix` (list model of `String.startsWith`). -/
def startsWithGo (s p : String) : Bool := p.data.isPrefixOf s.data

/-- Go `strings.HasSuffix` (list model of `String.endsWith`). -/
def endsWithGo (s p : String) : Bool := p.data.isSuffixOf s.data

/-- Go `strings.TrimSuffix`. -/
def trimSuffix (s suf : String) : String :=
  if suf ≠ "" ∧ endsWithGo s suf then ⟨s.data.take (s.data.length - suf.data.length)⟩
  else s

/-- Characters Go `strings.TrimSpace` removes (ASCII subset). -/
def isSpaceChar (c : Char) : Bool :=
  c = ' ' ∨ c = '\t' ∨ c = '\n' ∨ c = '\r' ∨ c = '\x0b' ∨ c = '\x0c'

/-- Go `strings.TrimSpace` (ASCII model). -/
def trimSpace (s : String) : String :=
  ⟨(s.data.dropWhile isSpaceChar).reverse.dropWhile isSpaceChar |>.reverse⟩

/-- Join strings with a separator (`strings.Join`). -/
def joinWith (sep : String) : List String → String
  | [] => ""
  | [x] => x
  | x :: rest => x ++ sep ++ joinWith sep rest

/-- Cut a character list at the first occurrence of `c`: the part before
and, when found, the part after. -/
def cutAtChar (c : Char) (l : List Char) : List Char × Option (List Char) :=
  let before := l.takeWhile (fun x => x ≠ c)
  match l.drop before.length with
  | [] => (before, none)
  | _ :: after => (before, some after)

/-- Split a character list on a separator character (`strings.Split` on
a one-character separator). -/
def splitOnCharAux (c : Char) : List Char → List Char → List (List Char)
  | [], acc => [acc.reverse]
  | x :: rest, acc =>
    if x = c then acc.reverse :: splitOnCharAux c rest []
    else splitOnCharAux c rest (x :: acc)

def splitOnChar (c : Char) (l : List Char) : List (List Char) :=
  splitOnCharAux c l []

/-- `strings.Split` on a one-character separator, at the string level. -/
def splitOnCharS (c : Char) (s : String) : List String :=
  (splitOnChar c s.data).map (fun l => (⟨l⟩ : String))

/-! ### `strconv` models -/

def isDigitChar (c : Char) : Bool := '0' ≤ c ∧ c ≤ '9'

def digitsToNat (l : List Char) : Nat :=
  l.foldl (fun acc c => acc * 10 + (c.toNat - '0'.toNat)) 0

/-- Go `strconv.ParseUint(s, 10, 64)`: decimal digits only, no sign,
errors on empty input and on overflow past `2^64 - 1`. -/
def parseUint64 (s : String) : Option Nat :=
  let l := s.data
  if l ≠ [] ∧ l.all isDigitChar ∧ digitsToNat l < u64Mod then
    some (digitsToNat l)
  else none

/-- Go `strconv.Atoi`: optional sign then decimal digits.
(The 64-bit overflow bound is irrelevant at the sizes in the claims.) -/
def atoi (s : String) : Option Int :=
  match s.data with
  | '-' :: rest =>
      if rest ≠ [] ∧ rest.all isDigitChar then some (-(digitsToNat rest : Int)) else none
  | '+' :: rest =>
      if rest ≠ [] ∧ rest.all isDigitChar then some (digitsToNat rest : Int) else none
  | l =>
      if l ≠ [] ∧ l.all isDigitChar then some (digitsToNat l : Int) else none

/-- Go `strconv.ParseFloat(s, 64)`, modelled exactly over `Rat` for plain
decimal notation `[+|-] digits [. digits]` / `[+|-] . digits` (no
exponent, hex, or infinities — none occur in HLS playlists).  The value
`ip.frac` is the exact rational `(ip·10^len + frac) / 10^len`. -/
def parseFloatQ (s : String) : Option Rat :=
  let core : List Char → Option Rat := fun l =>
    match l.span isDigitChar with
    | (intPart, rest) =>
      match rest with
      | [] =>
          if intPart ≠ [] then some ((digitsToNat intPart : Int) : Rat) else none
      | '.' :: frac =>
          if frac.all isDigitChar ∧ (intPart ≠ [] ∨ frac ≠ []) then
            some (mkRat
              ((digitsToNat intPart * 10 ^ frac.length + digitsToNat frac : Nat) : Int)
              (10 ^ frac.length))
          else none
      | _ => none
  match s.data with
  | '-' :: rest => (core rest).map (fun q => mkRat (-q.num) q.den)
  | '+' :: rest => core rest
  | l => core l

/-- Round `n / d` (with `d` positive) to the nearest integer, ties to
even — the rounding Go applies to the decimal expansion in `%.3f`.
Stated on numerator and denominator in integer arithmetic. -/
def roundHalfEvenND (n d : Int) : Int :=
  let f := Int.fdiv n d
  let r := n - f * d
  if 2 * r < d then f
  else if 2 * r > d then f + 1
  else if f % 2 = 0 then f else f + 1

/-- Left-pad a numeral with zeros to the given width. -/
def padZeros (s : String) (w : Nat) : String :=
  ⟨List.replicate (w - s.length) '0'⟩ ++ s

/-- Go `fmt.Sprintf("%.3f", d)` on the rational model: three digits after
the decimal point, rounding `q·1000` to the nearest integer. -/
def fmtF3 (q : Rat) : String :=
  let m := roundHalfEvenND (q.num * 1000) (q.den : Int)
  let sign := if m < 0 then "-" else ""
  let a := m.natAbs
  sign ++ toString (a / 1000) ++ "." ++ padZeros (toString (a % 1000)) 3

/-- Go `int(f)` conversion from the rational model: truncation toward 0. -/
def qTruncInt (q : Rat) : Int := goDiv q.num (q.den : Int)

/-! ## `internal/cache/memory.go` — sharded LRU+TTL memory cache -/

/-- `cacheItem` (internal/cache/memory.go): a cached value with optional
expiry.  `value` is kept generic as in Go's `interface{}`. -/
structure CacheItem (α : Type) where
  key : String
  value : α
  expiry : Int
  hasExpiry : Bool
  deriving Repr, DecidableEq

/-- `memoryShard`: the recency list (front = most recently used) together
with the shard capacity.  The Go struct keeps a `map` and an `itemCount`
that mirror the list; the model keeps the list and derives both. -/
structure MemoryShard (α : Type) where
  lru : List (CacheItem α)
  maxSize : Int
  deriving Repr, DecidableEq

/-- `MemoryOptions`. -/
structure MemoryOptions where
  maxSize : Int
  shardSize : Int
  deriving Repr, DecidableEq

/-- `MemoryCache`: the shard array and the mask. -/
structure MemoryCache (α : Type) where
  shards : List (MemoryShard α)
  shardMask : Nat
  deriving Repr, DecidableEq

/-- `nextPowerOfTwo` (memory.go): uint32 bit-smearing trick. -/
def nextPowerOfTwo (x : Nat) : Nat :=
  if x % u32Mod = 0 then 1
  else
    let x := (x % u32Mod) - 1
    let x := x ||| (x >>> 1)
    let x := x ||| (x >>> 2)
    let x := x ||| (x >>> 4)
    let x := x ||| (x >>> 8)
    let x := x ||| (x >>> 16)
    (x + 1) % u32Mod

/-- `fnv32` (memory.go): for each byte, the hash is multiplied by the
prime and then XORed with the byte — the FNV-1 order. -/
def fnv32Loop (hash : Nat) : List Char → Nat
  | [] => hash
  | c :: rest => fnv32Loop (((hash * 16777619) % u32Mod) ^^^ charByte c) rest

def fnv32 (key : String) : Nat := fnv32Loop 2166136261 key.data

/-- The effective total capacity (`opts.MaxSize` defaulted). -/
def effectiveMaxSize (opts : MemoryOptions) : Int :=
  if opts.maxSize ≤ 0 then 10000 else opts.maxSize

/-- The number of shards `NewMemoryWithOptions` builds. -/
def numShardsOf (opts : MemoryOptions) : Nat :=
  nextPowerOfTwo ((if opts.shardSize ≤ 0 then 16 else opts.shardSize).toNat % u32Mod)

/-- The per-shard capacity: `MaxSize / shardCount`, or 100 when that
quotient is not positive. -/
def itemsPerShardOf (opts : MemoryOptions) : Int :=
  let q := goDiv (effectiveMaxSize opts) ((numShardsOf opts : Nat) : Int)
  if q ≤ 0 then 100 else q

/-- `NewMemoryWithOptions` (memory.go). -/
def newMemoryWithOptions (α : Type) (opts : MemoryOptions) : MemoryCache α :=
  { shards := List.replicate (numShardsOf opts)
      { lru := [], maxSize := itemsPerShardOf opts },
    shardMask := numShardsOf opts - 1 }

/-- `MemoryCache.getShard` routing: FNV hash of the key masked by
`shardMask`. -/
def shardIndex (c : MemoryCache α) (key : String) : Nat :=
  fnv32 key &&& c.shardMask

/-- `evictIfNeeded` (memory.go): pop the back of the recency list while
the count exceeds the shard capacity.  `fuel` (the list length at entry)
bounds the iteration count; the loop always stops earlier, either at the
capacity or on the empty list. -/
def evictIfNeededGo : Nat → List (CacheItem α) → Int → List (CacheItem α)
  | 0, l, _ => l
  | fuel + 1, l, maxSize =>
    if (l.length : Int) > maxSize then
      match l with
      | [] => []
      | _ :: _ => evictIfNeededGo fuel l.dropLast maxSize
    else l

def evictIfNeeded (l : List (CacheItem α)) (maxSize : Int) : List (CacheItem α) :=
  evictIfNeededGo l.length l maxSize

/-- Find a key's item in a shard's recency list (the Go `items` map). -/
def shardFind (sh : MemoryShard α) (key : String) : Option (CacheItem α) :=
  sh.lru.find? (fun it => it.key = key)

/-- Remove a key from a recency list (`removeElement`). -/
def lruErase (l : List (CacheItem α)) (key : String) : List (CacheItem α) :=
  l.filter (fun it => it.key ≠ key)

/-- Replace the shard at an index. -/
def setShard (c : MemoryCache α) (i : Nat) (sh : MemoryShard α) : MemoryCache α :=
  { c with shards := c.shards.set i sh }

/-- `MemoryCache.Set` (memory.go).  `now` is the sampled `time.Now()`;
`ttl` is in nanoseconds.  Expiry is recorded only when `ttl > 0`. -/
def cacheSet (c : MemoryCache α) (key : String) (value : α) (ttl : Int)
    (now : Int) : MemoryCache α :=
  let i := shardIndex c key
  match c.shards[i]? with
  | none => c
  | some sh =>
    let item : CacheItem α :=
      if ttl > 0 then
        { key := key, value := value, expiry := now + ttl, hasExpiry := true }
      else
        { key := key, value := value, expiry := 0, hasExpiry := false }
    match shardFind sh key with
    | some _ =>
        -- update the node in place and move it to the front
        setShard c i { sh with lru := item :: lruErase sh.lru key }
    | none =>
        -- push a new node to the front, then evict from the tail
        setShard c i { sh with lru := evictIfNeeded (item :: sh.lru) sh.maxSize }

/-- `MemoryCache.Delete` (memory.go). -/
def cacheDelete (c : MemoryCache α) (key : String) : MemoryCache α :=
  let i := shardIndex c key
  match c.shards[i]? with
  | none => c
  | some sh => setShard c i { sh with lru := lruErase sh.lru key }

/-- `MemoryCache.Get` (memory.go).  Returns the value (if any) and the
updated cache.  An expired hit is a miss whose deferred `go c.Delete(key)`
is applied immediately; a live hit moves the node to the front. -/
def cacheGet (c : MemoryCache α) (key : String) (now : Int) :
    Option α × MemoryCache α :=
  let i := shardIndex c key
  match c.shards[i]? with
  | none => (none, c)
  | some sh =>
    match shardFind sh key with
    | none => (none, c)
    | some item =>
      if item.hasExpiry ∧ now > item.expiry then
        (none, cacheDelete c key)
      else
        (some item.value, setShard c i { sh with lru := item :: lruErase sh.lru key })

/-- `MemoryCache.Size`: sum of the per-shard item counts. -/
def cacheSize (c : MemoryCache α) : Nat :=
  (c.shards.map (fun sh => sh.lru.length)).sum

/-- Look a key up without the side effects of `Get` (the state of the
shard map entry for the key). -/
def cacheLookup (c : MemoryCache α) (key : String) : Option (CacheItem α) :=
  match c.shards[shardIndex c key]? with
  | none => none
  | some sh => shardFind sh key

/-! ## `pkg/jwtheader` and `internal/jwt` — claim caching -/

/-- `JWTClaims` (pkg/jwtheader/verify.go), scalar registered claims.
(`aud` and the custom-claim map play no part in the cached-TTL claims.) -/
structure JWTClaims where
  issuer : String
  subject : String
  expirationTime : Int
  notBefore : Int
  issuedAt : Int
  jwtID : String
  deriving Repr, DecidableEq

/-- One nanosecond-denominated second (`time.Second`). -/
def second : Int := 1000000000

/-- The validator's TTL ceiling: `NewValidator` hardcodes
`cacheTTL: 5 * time.Minute`. -/
def validatorCacheTTL : Int := 5 * 60 * second

/-- The expiration step of `jwtheader.ParseAndVerify`: with an `exp`
claim present, the token is rejected exactly when `now > exp`
(seconds). -/
def expCheckPasses (claims : JWTClaims) (nowSec : Int) : Bool :=
  ¬(claims.expirationTime > 0 ∧ nowSec > claims.expirationTime)

/-- `Claims.RemainingValidity` (internal/jwt/claims.go): seconds left,
clamped at zero. -/
def remainingValidity (claims : JWTClaims) (nowSec : Int) : Int :=
  if claims.expirationTime = 0 then 0
  else if claims.expirationTime - nowSec < 0 then 0
  else claims.expirationTime - nowSec

/-- The TTL computation of `Validator.addToCache`
(internal/jwt/validator.go): start from the ceiling; when the token
carries a positive `exp` and has positive remaining validity, lower the
TTL to `(remaining − 30) · second` if that is smaller. -/
def addToCacheTTL (cacheTTL : Int) (claims : JWTClaims) (nowSec : Int) : Int :=
  let ttl := cacheTTL
  if claims.expirationTime > 0 then
    let remaining := remainingValidity claims nowSec
    if remaining > 0 then
      let expTTL := (remaining - 30) * second
      if expTTL < ttl then expTTL else ttl
    else ttl
  else ttl

/-- `Validator.addToCache`: memoize the claims under `jwt:token:<raw>`
with the computed TTL.  `nowSec` is the wall clock in seconds (used for
the TTL), `nowNs` the same instant in nanoseconds (used by the cache). -/
def addToCache (c : MemoryCache JWTClaims) (token : String)
    (claims : JWTClaims) (nowSec nowNs : Int) : MemoryCache JWTClaims :=
  cacheSet c ("jwt:token:" ++ token) claims
    (addToCacheTTL validatorCacheTTL claims nowSec) nowNs

/-! ## `pkg/hls/tags.go` — tag and attribute constants -/

def tagExtM3U : String := "#EXTM3U"
def tagVersion : String := "#EXT-X-VERSION"
def tagStreamInf : String := "#EXT-X-STREAM-INF"
def tagMediaSequence : String := "#EXT-X-MEDIA-SEQUENCE"
def tagMediaGroup : String := "#EXT-X-MEDIA"
def tagIFrameStreamInf : String := "#EXT-X-I-FRAME-STREAM-INF"
def tagSessionData : String := "#EXT-X-SESSION-DATA"
def tagIndependentSegments : String := "#EXT-X-INDEPENDENT-SEGMENTS"
def tagTargetDuration : String := "#EXT-X-TARGETDURATION"
def tagInf : String := "#EXTINF"
def tagByteRange : String := "#EXT-X-BYTERANGE"
def tagDiscontinuity : String := "#EXT-X-DISCONTINUITY"
def tagKey : String := "#EXT-X-KEY"
def tagMap : String := "#EXT-X-MAP"
def tagProgramDateTime : String := "#EXT-X-PROGRAM-DATE-TIME"
def tagEndList : String := "#EXT-X-ENDLIST"
def tagDiscontinuitySequence : String := "#EXT-X-DISCONTINUITY-SEQUENCE"
def tagAllowCache : String := "#EXT-X-ALLOW-CACHE"
def tagPlaylistType : String := "#EXT-X-PLAYLIST-TYPE"
def tagIFramesOnly : String := "#EXT-X-I-FRAMES-ONLY"

/-! ## `pkg/hls` — playlist data model -/

inductive PlaylistType where
  | unknown
  | master
  | media
  deriving Repr, DecidableEq

/-- `Tag`: a parsed tag line.  `attributes` is the parsed attribute map
(an association list in first-occurrence order, standing in for the Go
map), populated only for the attribute-bearing tags. -/
structure Tag where
  name : String
  value : String
  attributes : List (String × String)
  rawLine : String
  deriving Repr, DecidableEq

structure Variant where
  uri : String
  bandwidth : Nat
  averageBandwidth : Nat
  codecs : String
  resolution : String
  frameRate : Rat
  hdcpLevel : String
  audioGroup : String
  videoGroup : String
  subtitlesGroup : String
  closedCaptionsGroup : String
  rawAttributes : String
  deriving Repr, DecidableEq

structure MediaGroup where
  type : String
  groupID : String
  name : String
  uri : String
  language : String
  assocLanguage : String
  default : Bool
  autoselect : Bool
  forced : Bool
  instreamID : String
  characteristics : String
  channels : String
  rawAttributes : String
  deriving Repr, DecidableEq

structure IFrameStream where
  uri : String
  bandwidth : Nat
  averageBandwidth : Nat
  codecs : String
  resolution : String
  hdcpLevel : String
  videoGroup : String
  rawAttributes : String
  deriving Repr, DecidableEq

structure SessionData where
  dataID : String
  value : String
  uri : String
  language : String
  rawAttributes : String
  deriving Repr, DecidableEq

/-- `Key`: a segment encryption key descriptor. -/
structure Key where
  method : String
  uri : String
  iv : String
  keyFormat : String
  keyFormatVersions : String
  rawAttributes : String
  deriving Repr, DecidableEq

/-- `Map`: a segment initialization map descriptor. -/
structure SegMap where
  uri : String
  byteRange : String
  rawAttributes : String
  deriving Repr, DecidableEq

structure Segment where
  uri : String
  duration : Rat
  title : String
  byteRange : String
  discontinuity : Bool
  programDateTime : String
  key : Option Key
  segMap : Option SegMap
  deriving Repr, DecidableEq

/-- `MasterPlaylist`.  `mediaGroups` models Go's `map[string][]MediaGroup`
as an association list keyed by group type, in first-insertion order. -/
structure MasterPlaylist where
  variants : List Variant
  mediaGroups : List (String × List MediaGroup)
  iFrameStreams : List IFrameStream
  sessionData : List SessionData
  hasIndependentSegments : Bool
  deriving Repr, DecidableEq

structure MediaPlaylist where
  targetDuration : Rat
  mediaSequence : Nat
  segments : List Segment
  endList : Bool
  discontinuitySeq : Nat
  allowCache : Bool
  playlistType : String
  iFramesOnly : Bool
  hasIndependentSegments : Bool
  deriving Repr, DecidableEq

structure Playlist where
  type : PlaylistType
  version : Int
  tags : List Tag
  master : MasterPlaylist
  media : MediaPlaylist
  originalHeader : String
  rawLines : List String
  deriving Repr, DecidableEq

/-- `NewPlaylist` (zero values throughout, version defaulted to 1). -/
def newPlaylist : Playlist :=
  { type := .unknown
    version := 1
    tags := []
    master := { variants := [], mediaGroups := [], iFrameStreams := [],
                sessionData := [], hasIndependentSegments := false }
    media := { targetDuration := 0, mediaSequence := 0, segments := [],
               endList := false, discontinuitySeq := 0, allowCache := false,
               playlistType := "", iFramesOnly := false,
               hasIndependentSegments := false }
    originalHeader := ""
    rawLines := [] }

/-! ## `pkg/hls` parser (the `hls.Parser` in the repository) -/

/-- Characters of the attribute-name class `[A-Z-]` in `parseAttributes`'s
regular expression. -/
def isAttrKeyChar (c : Char) : Bool := ('A' ≤ c ∧ c ≤ 'Z') ∨ c = '-'

/-- One leftmost match attempt of `([A-Z-]+)=("[^"]*"|[^",]+)` at the
head of `l`.  Returns the key, the value capture (quotes included), and
the remaining input. -/
def attrMatchAt (l : List Char) : Option ((String × String) × List Char) :=
  let keyChars := l.takeWhile isAttrKeyChar
  if keyChars = [] then none
  else
    match l.drop keyChars.length with
    | '=' :: afterEq =>
      match afterEq with
      | '"' :: afterQuote =>
          -- first alternative: a double-quoted run without inner quotes
          let content := afterQuote.takeWhile (fun c => c ≠ '"')
          match afterQuote.drop content.length with
          | '"' :: afterVal =>
              some ((⟨keyChars⟩, ⟨'"' :: (content ++ ['"'])⟩), afterVal)
          | _ => none
      | _ =>
          -- second alternative: a non-empty run without commas or quotes
          let content := afterEq.takeWhile (fun c => c ≠ ',' ∧ c ≠ '"')
          if content = [] then none
          else some ((⟨keyChars⟩, ⟨content⟩), afterEq.drop content.length)
    | _ => none

/-- `FindAllStringSubmatch`: scan left to right, taking non-overlapping
matches and advancing one character where no match starts.  `fuel` is the
input length; every step consumes at least one character. -/
def attrScan (fuel : Nat) (l : List Char) : List (String × String) :=
  match fuel with
  | 0 => []
  | fuel + 1 =>
    match l with
    | [] => []
    | c :: rest =>
      match attrMatchAt (c :: rest) with
      | some (kv, after) => kv :: attrScan fuel after
      | none => attrScan fuel rest

/-- Set a key in an association list standing in for a Go map: replace in
place when present, append when absent. -/
def assocSet (m : List (String × String)) (k v : String) : List (String × String) :=
  if m.any (fun p => p.1 = k) then
    m.map (fun p => if p.1 = k then (k, v) else p)
  else m ++ [(k, v)]

/-- Association-list lookup (Go map read). -/
def assocGet (m : List (String × String)) (k : String) : Option String :=
  (m.find? (fun p => p.1 = k)).map (·.2)

/-- `parseAttributes` (hls parser): run the regular expression over the
value, strip surrounding quotes, and build the attribute map. -/
def parseAttributes (s : String) : List (String × String) :=
  (attrScan s.data.length s.data).foldl
    (fun m kv =>
      let value := kv.2
      let value :=
        if startsWithGo value "\"" ∧ endsWithGo value "\"" then
          (value.drop 1).dropRight 1
        else value
      assocSet m kv.1 value)
    []

/-- Parse errors (`ErrPlaylistHeader` and the `fmt.Errorf` failures of
the tag processors). -/
inductive ParseErr where
  | header
  | invalidVersion
  | invalidTargetDuration
  | invalidMediaSequence
  | invalidDiscontinuitySequence
  | missingAttr (name : String)
  | invalidAttr (name : String)
  | missingTypeAttr
  | missingGroupIDAttr
  | missingURIAttr
  | missingDataIDAttr
  | segmentURIWithoutInf
  | invalidInfDuration
  deriving Repr, DecidableEq

/-- `parseTag`: split a tag line at the first colon; tokenize attributes
for the attribute-bearing tags. -/
def parseTag (line : String) : Tag :=
  match line.data.findIdx? (fun c => c = ':') with
  | none => { name := line, value := "", attributes := [], rawLine := line }
  | some colonIndex =>
    let name : String := ⟨line.data.take colonIndex⟩
    let value : String := ⟨line.data.drop (colonIndex + 1)⟩
    let attrs :=
      if name = tagStreamInf ∨ name = tagMediaGroup ∨ name = tagIFrameStreamInf ∨
         name = tagKey ∨ name = tagMap ∨ name = tagSessionData then
        parseAttributes value
      else []
    { name := name, value := value, attributes := attrs, rawLine := line }

/-- `parseAttributeUint`. -/
def parseAttributeUint (attrs : List (String × String)) (name : String) :
    Except ParseErr Nat :=
  match assocGet attrs name with
  | none => .error (.missingAttr name)
  | some valStr =>
    match parseUint64 valStr with
    | none => .error (.invalidAttr name)
    | some v => .ok v

/-- `parseInfValue`: duration before the first comma, title after. -/
def parseInfValue (s : String) : Except ParseErr (Rat × String) :=
  let idx := s.data.findIdx? (fun c => c = ',')
  let durStr : String := match idx with
    | none => s
    | some i => ⟨s.data.take i⟩
  let title : String := match idx with
    | none => ""
    | some i => ⟨s.data.drop (i + 1)⟩
  match parseFloatQ durStr with
  | none => .error .invalidInfDuration
  | some d => .ok (d, title)

/-- The known string-valued attributes `AddVariant` requotes. -/
def isQuotedVariantAttr (k : String) : Bool :=
  k = "CODECS" ∨ k = "RESOLUTION" ∨ k = "AUDIO" ∨ k = "VIDEO" ∨
  k = "SUBTITLES" ∨ k = "CLOSED-CAPTIONS" ∨ k = "HDCP-LEVEL"

/-- `Playlist.AddVariant` (pkg/hls): build a `Variant` from the attribute
map, rebuilding `RawAttributes` with `BANDWIDTH` first and the remaining
attributes following (in the association list's order, a deterministic
stand-in for Go's map iteration). -/
def addVariant (p : Playlist) (uri : String) (bandwidth : Nat)
    (attrs : List (String × String)) : Playlist :=
  let avgBw := match assocGet attrs "AVERAGE-BANDWIDTH" with
    | some s => (parseUint64 s).getD 0
    | none => 0
  let fr := match assocGet attrs "FRAME-RATE" with
    | some s => (parseFloatQ s).getD 0
    | none => 0
  let v : Variant :=
    { uri := uri
      bandwidth := bandwidth
      averageBandwidth := avgBw
      codecs := (assocGet attrs "CODECS").getD ""
      resolution := (assocGet attrs "RESOLUTION").getD ""
      frameRate := fr
      hdcpLevel := (assocGet attrs "HDCP-LEVEL").getD ""
      audioGroup := (assocGet attrs "AUDIO").getD ""
      videoGroup := (assocGet attrs "VIDEO").getD ""
      subtitlesGroup := (assocGet attrs "SUBTITLES").getD ""
      closedCaptionsGroup := (assocGet attrs "CLOSED-CAPTIONS").getD ""
      rawAttributes :=
        joinWith ","
          (("BANDWIDTH=" ++ toString bandwidth) ::
            ((attrs.filter (fun kv => kv.1 ≠ "BANDWIDTH")).map (fun kv =>
              if isQuotedVariantAttr kv.1 then
                kv.1 ++ "=\"" ++ kv.2 ++ "\""
              else kv.1 ++ "=" ++ kv.2))) }
  { p with
    master := { p.master with variants := p.master.variants ++ [v] }
    type := .master }

/-- `Playlist.AddSegment`. -/
def addSegment (p : Playlist) (uri : String) (duration : Rat) (title : String) :
    Playlist :=
  let s : Segment :=
    { uri := uri, duration := duration, title := title, byteRange := "",
      discontinuity := false, programDateTime := "", key := none, segMap := none }
  { p with
    media := { p.media with segments := p.media.segments ++ [s] }
    type := .media }

/-- `Parser.processMediaGroup`. -/
def processMediaGroup (p : Playlist) (tag : Tag) : Except ParseErr Playlist := do
  let some typeVal := assocGet tag.attributes "TYPE" | .error .missingTypeAttr
  let some groupID := assocGet tag.attributes "GROUP-ID" | .error .missingGroupIDAttr
  let group : MediaGroup :=
    { type := typeVal
      groupID := groupID
      name := (assocGet tag.attributes "NAME").getD ""
      uri := (assocGet tag.attributes "URI").getD ""
      language := (assocGet tag.attributes "LANGUAGE").getD ""
      assocLanguage := (assocGet tag.attributes "ASSOC-LANGUAGE").getD ""
      default := assocGet tag.attributes "DEFAULT" == some "YES"
      autoselect := assocGet tag.attributes "AUTOSELECT" == some "YES"
      forced := assocGet tag.attributes "FORCED" == some "YES"
      instreamID := (assocGet tag.attributes "INSTREAM-ID").getD ""
      characteristics := (assocGet tag.attributes "CHARACTERISTICS").getD ""
      channels := (assocGet tag.attributes "CHANNELS").getD ""
      rawAttributes := tag.value }
  let groups :=
    if p.master.mediaGroups.any (fun kv => kv.1 = typeVal) then
      p.master.mediaGroups.map (fun kv =>
        if kv.1 = typeVal then (kv.1, kv.2 ++ [group]) else kv)
    else p.master.mediaGroups ++ [(typeVal, [group])]
  .ok { p with master := { p.master with mediaGroups := groups } }

/-- `Parser.processIFrameStream`. -/
def processIFrameStream (p : Playlist) (tag : Tag) : Except ParseErr Playlist := do
  let some uri := assocGet tag.attributes "URI" | .error .missingURIAttr
  let bandwidth ← parseAttributeUint tag.attributes "BANDWIDTH"
  let avgBw := match assocGet tag.attributes "AVERAGE-BANDWIDTH" with
    | some s => (parseUint64 s).getD 0
    | none => 0
  let iframe : IFrameStream :=
    { uri := uri
      bandwidth := bandwidth
      averageBandwidth := avgBw
      codecs := (assocGet tag.attributes "CODECS").getD ""
      resolution := (assocGet tag.attributes "RESOLUTION").getD ""
      hdcpLevel := (assocGet tag.attributes "HDCP-LEVEL").getD ""
      videoGroup := (assocGet tag.attributes "VIDEO").getD ""
      rawAttributes := tag.value }
  .ok { p with master :=
    { p.master with iFrameStreams := p.master.iFrameStreams ++ [iframe] } }

/-- `Parser.processSessionData`. -/
def processSessionData (p : Playlist) (tag : Tag) : Except ParseErr Playlist := do
  let some dataID := assocGet tag.attributes "DATA-ID" | .error .missingDataIDAttr
  let sessData : SessionData :=
    { dataID := dataID
      value := (assocGet tag.attributes "VALUE").getD ""
      uri := (assocGet tag.attributes "URI").getD ""
      language := (assocGet tag.attributes "LANGUAGE").getD ""
      rawAttributes := tag.value }
  .ok { p with master :=
    { p.master with sessionData := p.master.sessionData ++ [sessData] } }

/-- `Parser.processTag`: the standalone-tag switch.  Every successfully
processed tag is appended to the stored tag list. -/
def processTag (p : Playlist) (tag : Tag) : Except ParseErr Playlist := do
  let p ←
    if tag.name = tagVersion then
      match atoi tag.value with
      | none => .error .invalidVersion
      | some ver => .ok { p with version := ver }
    else if tag.name = tagTargetDuration then
      match parseFloatQ tag.value with
      | none => .error .invalidTargetDuration
      | some dur => .ok { p with
          media := { p.media with targetDuration := dur }, type := .media }
    else if tag.name = tagMediaSequence then
      match parseUint64 tag.value with
      | none => .error .invalidMediaSequence
      | some seq => .ok { p with
          media := { p.media with mediaSequence := seq }, type := .media }
    else if tag.name = tagDiscontinuitySequence then
      match parseUint64 tag.value with
      | none => .error .invalidDiscontinuitySequence
      | some seq => .ok { p with
          media := { p.media with discontinuitySeq := seq }, type := .media }
    else if tag.name = tagEndList then
      .ok { p with media := { p.media with endList := true }, type := .media }
    else if tag.name = tagAllowCache then
      .ok { p with
        media := { p.media with allowCache := tag.value ≠ "NO" }, type := .media }
    else if tag.name = tagPlaylistType then
      .ok { p with
        media := { p.media with playlistType := tag.value }, type := .media }
    else if tag.name = tagIFramesOnly then
      .ok { p with media := { p.media with iFramesOnly := true }, type := .media }
    else if tag.name = tagIndependentSegments then
      if p.type = .master ∨ p.type = .unknown then
        .ok { p with master := { p.master with hasIndependentSegments := true } }
      else
        .ok { p with media := { p.media with hasIndependentSegments := true } }
    else if tag.name = tagMediaGroup then
      (processMediaGroup p tag).map (fun p => { p with type := .master })
    else if tag.name = tagIFrameStreamInf then
      (processIFrameStream p tag).map (fun p => { p with type := .master })
    else if tag.name = tagSessionData then
      (processSessionData p tag).map (fun p => { p with type := .master })
    else if tag.name = tagStreamInf then
      .ok { p with type := .master }
    else if tag.name = tagInf then
      .ok { p with type := .media }
    else if tag.name = tagDiscontinuity ∨ tag.name = tagKey ∨
            tag.name = tagByteRange ∨ tag.name = tagProgramDateTime ∨
            tag.name = tagMap then
      .ok { p with type := .media }
    else
      .ok p
  .ok { p with tags := p.tags ++ [tag] }

/-- `Parser.processVariantURI`. -/
def processVariantURI (p : Playlist) (tag : Tag) (uri : String) :
    Except ParseErr Playlist := do
  let bandwidth ← parseAttributeUint tag.attributes "BANDWIDTH"
  .ok (addVariant p uri bandwidth tag.attributes)

/-- `Parser.processSegmentURI`: the URI must follow an `EXTINF` tag. -/
def processSegmentURI (p : Playlist) (lastTag : Option Tag) (uri : String) :
    Except ParseErr Playlist := do
  match lastTag with
  | none => .error .segmentURIWithoutInf
  | some tag =>
    if tag.name ≠ tagInf then .error .segmentURIWithoutInf
    else do
      let (duration, title) ← parseInfValue tag.value
      .ok (addSegment p uri duration title)

/-- The line loop of `Parser.Parse`.  `lineNum` counts every scanned line
(blank lines included); the `#EXTM3U` check fires only at `lineNum = 1`. -/
def parseLoop : List String → Playlist → Option Tag → Nat → Except ParseErr Playlist
  | [], p, _, _ =>
      -- final classification
      if p.master.variants ≠ [] then .ok { p with type := .master }
      else if p.media.segments ≠ [] then .ok { p with type := .media }
      else .ok p
  | line :: rest, p, lastTag, lineNum =>
      let lineNum := lineNum + 1
      let p := { p with rawLines := p.rawLines ++ [line] }
      if trimSpace line = "" then
        parseLoop rest p lastTag lineNum
      else if lineNum = 1 then
        if line ≠ tagExtM3U then .error .header
        else parseLoop rest { p with originalHeader := line } lastTag lineNum
      else if startsWithGo line "#" then
        match processTag p (parseTag line) with
        | .error e => .error e
        | .ok p => parseLoop rest p (some (parseTag line)) lineNum
      else
        match lastTag with
        | some t =>
          if t.name = tagStreamInf then
            match processVariantURI p t line with
            | .error e => .error e
            | .ok p => parseLoop rest p none lineNum
          else
            match processSegmentURI p lastTag line with
            | .error e => .error e
            | .ok p => parseLoop rest p none lineNum
        | none =>
          match processSegmentURI p lastTag line with
          | .error e => .error e
          | .ok p => parseLoop rest p none lineNum

/-- `Parser.Parse` on a list of scanned lines. -/
def parse (lines : List String) : Except ParseErr Playlist :=
  parseLoop lines newPlaylist none 0

/-! ## `Playlist.String` — the serializer (pkg/hls) -/

/-- `Tag.String`. -/
def tagToString (t : Tag) : String :=
  if t.value ≠ "" then t.name ++ ":" ++ t.value else t.name

/-- The lines the serializer emits for one segment (`KEY`, `MAP`,
`PROGRAM-DATE-TIME`, `DISCONTINUITY`, `BYTERANGE`, `EXTINF`, URI). -/
def segmentOutLines (s : Segment) : List String :=
  (match s.key with
    | some k => [tagKey ++ ":" ++ k.rawAttributes]
    | none => []) ++
  (match s.segMap with
    | some m => [tagMap ++ ":" ++ m.rawAttributes]
    | none => []) ++
  (if s.programDateTime ≠ "" then [tagProgramDateTime ++ ":" ++ s.programDateTime] else []) ++
  (if s.discontinuity then [tagDiscontinuity] else []) ++
  (if s.byteRange ≠ "" then [tagByteRange ++ ":" ++ s.byteRange] else []) ++
  (if s.title ≠ "" then [tagInf ++ ":" ++ fmtF3 s.duration ++ "," ++ s.title]
   else [tagInf ++ ":" ++ fmtF3 s.duration]) ++
  [s.uri]

/-- `Playlist.String` emitted as a list of lines (the Go method writes
each of these followed by a newline). -/
def playlistOutLines (p : Playlist) : List String :=
  [tagExtM3U, tagVersion ++ ":" ++ toString p.version] ++
  (p.tags.filter (fun t => t.name ≠ tagExtM3U ∧ t.name ≠ tagVersion)).map tagToString ++
  (if p.type = .master then
    (if p.master.hasIndependentSegments then [tagIndependentSegments] else []) ++
    (p.master.mediaGroups.flatMap (fun kv =>
      kv.2.map (fun g => tagMediaGroup ++ ":" ++ g.rawAttributes))) ++
    (p.master.sessionData.map (fun d => tagSessionData ++ ":" ++ d.rawAttributes)) ++
    (p.master.variants.flatMap (fun v =>
      [tagStreamInf ++ ":" ++ v.rawAttributes, v.uri])) ++
    (p.master.iFrameStreams.map (fun f => tagIFrameStreamInf ++ ":" ++ f.rawAttributes))
   else if p.type = .media then
    (if p.media.hasIndependentSegments then [tagIndependentSegments] else []) ++
    [tagTargetDuration ++ ":" ++ toString (qTruncInt p.media.targetDuration)] ++
    [tagMediaSequence ++ ":" ++ toString p.media.mediaSequence] ++
    (if p.media.discontinuitySeq > 0 then
      [tagDiscontinuitySequence ++ ":" ++ toString p.media.discontinuitySeq] else []) ++
    (if ¬p.media.allowCache then [tagAllowCache ++ ":NO"] else []) ++
    (if p.media.playlistType ≠ "" then
      [tagPlaylistType ++ ":" ++ p.media.playlistType] else []) ++
    (if p.media.iFramesOnly then [tagIFramesOnly] else []) ++
    (p.media.segments.flatMap segmentOutLines) ++
    (if p.media.endList then [tagEndList] else [])
   else [])

/-- `Playlist.String` as the final text. -/
def playlistString (p : Playlist) : String :=
  ((playlistOutLines p).map (fun l => l ++ "\n")).foldl (fun a b => a ++ b) ""

/-! ## `net/url` model

A model of the parts of Go's `net/url` the rewriter uses.  Escaping
works per `Char`, which agrees with Go byte-for-byte on ASCII text; the
path is stored in escaped form (Go's `Path`/`RawPath`/`EscapedPath`
distinction collapses for strings that are their own escaped form, which
covers every URI in the claims). -/

/-- `url.URL` (fields the repository touches; no userinfo). -/
structure URL where
  scheme : String
  opaquePart : String
  host : String
  path : String
  rawQuery : String
  fragment : String
  deriving Repr, DecidableEq

def emptyURL : URL :=
  { scheme := "", opaquePart := "", host := "", path := "", rawQuery := "", fragment := "" }

def isAlphaChar (c : Char) : Bool :=
  ('a' ≤ c ∧ c ≤ 'z') ∨ ('A' ≤ c ∧ c ≤ 'Z')

def isAlnumChar (c : Char) : Bool := isAlphaChar c ∨ isDigitChar c

/-- Characters allowed after the first position of a scheme. -/
def isSchemeChar (c : Char) : Bool :=
  isAlnumChar c ∨ c = '+' ∨ c = '-' ∨ c = '.'

/-- The scheme scan of `net/url`'s `getScheme`: returns
`(scheme, rest)`, with an empty scheme when the string has none, and
`none` for the `:`-first error.  The string has a scheme exactly when a
run of scheme characters starting with a letter is followed by `:`. -/
def getScheme (l : List Char) : Option (String × List Char) :=
  let run := l.takeWhile isSchemeChar
  match l.drop run.length with
  | ':' :: rest =>
    if run = [] then none
    else if isAlphaChar (run.headD ' ') then some (⟨run.map Char.toLower⟩, rest)
    else some ("", l)
  | _ => some ("", l)

/-- `url.Parse`, restricted as documented above (no userinfo splitting
beyond the last `@`, no percent-decoding of the path). -/
def urlParse (s : String) : Option URL := do
  let (beforeFrag, frag) := cutAtChar '#' s.data
  let (scheme, rest) ← getScheme beforeFrag
  let (rest, query) := cutAtChar '?' rest
  let rawQuery : String := ⟨(query.getD [])⟩
  let fragment : String := ⟨(frag.getD [])⟩
  if rest.take 2 = ['/', '/'] then
    let authority := (rest.drop 2).takeWhile (fun c => c ≠ '/')
    let path := (rest.drop 2).drop authority.length
    let host := match cutAtChar '@' authority.reverse with
      | (revHost, some _) => revHost.reverse
      | (_, none) => authority
    some { scheme := scheme, opaquePart := "", host := ⟨host⟩, path := ⟨path⟩,
           rawQuery := rawQuery, fragment := fragment }
  else if scheme ≠ "" ∧ ¬(rest.take 1 = ['/']) then
    some { scheme := scheme, opaquePart := ⟨rest⟩, host := "", path := "",
           rawQuery := rawQuery, fragment := fragment }
  else
    some { scheme := scheme, opaquePart := "", host := "", path := ⟨rest⟩,
           rawQuery := rawQuery, fragment := fragment }

/-- `URL.IsAbs`. -/
def urlIsAbs (u : URL) : Bool := u.scheme ≠ ""

/-- `URL.String` (no userinfo; path emitted as stored). -/
def urlToString (u : URL) : String :=
  let pre :=
    (if u.scheme ≠ "" then u.scheme ++ ":" else "")
  if u.opaquePart ≠ "" then
    pre ++ u.opaquePart ++
      (if u.rawQuery ≠ "" then "?" ++ u.rawQuery else "") ++
      (if u.fragment ≠ "" then "#" ++ u.fragment else "")
  else
    let auth := if u.scheme ≠ "" ∨ u.host ≠ "" then "//" ++ u.host else ""
    let slash := if u.path ≠ "" ∧ ¬startsWithGo u.path "/" ∧ u.host ≠ "" then "/" else ""
    let dotSlash :=
      if pre = "" ∧ auth = "" ∧ slash = "" ∧
         (u.path.data.takeWhile (fun c => c ≠ '/')).contains ':' then "./"
      else ""
    pre ++ auth ++ slash ++ dotSlash ++ u.path ++
      (if u.rawQuery ≠ "" then "?" ++ u.rawQuery else "") ++
      (if u.fragment ≠ "" then "#" ++ u.fragment else "")

/-- The dot-segment removal of `net/url`'s `resolvePath`. -/
def removeDotSegments (full : String) : String :=
  if full = "" then ""
  else
    let src := splitOnCharS '/' full
    let dst := src.foldl
      (fun dst elem =>
        if elem = "." then dst
        else if elem = ".." then dst.dropLast
        else dst ++ [elem]) ([] : List String)
    let dst := match src.getLast? with
      | some last => if last = "." ∨ last = ".." then dst ++ [""] else dst
      | none => dst
    let joined := joinWith "/" dst
    "/" ++ (if startsWithGo joined "/" then ⟨joined.data.drop 1⟩ else joined)

/-- `net/url`'s `resolvePath`. -/
def resolvePath (base ref : String) : String :=
  let full :=
    if ref = "" then base
    else if ¬startsWithGo ref "/" then
      let i := (base.data.reverse.takeWhile (fun c => c ≠ '/')).length
      ⟨base.data.take (base.data.length - i)⟩ ++ ref
    else ref
  removeDotSegments full

/-- `URL.ResolveReference` (no userinfo or fragment propagation beyond
the fields modelled). -/
def resolveReference (u ref : URL) : URL :=
  let url := if ref.scheme = "" then { ref with scheme := u.scheme } else ref
  if ref.scheme ≠ "" ∨ ref.host ≠ "" then
    { url with path := resolvePath ref.path "" }
  else if ref.opaquePart ≠ "" then
    { url with host := "", path := "" }
  else
    let url :=
      if ref.path = "" ∧ ref.rawQuery = "" then
        { url with rawQuery := u.rawQuery }
      else url
    { url with host := u.host, path := resolvePath u.path ref.path }

/-! ### `url.Values`: query parsing and encoding -/

/-- Characters `url.QueryEscape` leaves unescaped. -/
def isUnreservedQueryChar (c : Char) : Bool :=
  isAlnumChar c ∨ c = '-' ∨ c = '_' ∨ c = '.' ∨ c = '~'

def hexDigitUpper (n : Nat) : Char :=
  if n < 10 then Char.ofNat ('0'.toNat + n)
  else Char.ofNat ('A'.toNat + (n - 10))

def hexCharVal (c : Char) : Option Nat :=
  if '0' ≤ c ∧ c ≤ '9' then some (c.toNat - '0'.toNat)
  else if 'a' ≤ c ∧ c ≤ 'f' then some (c.toNat - 'a'.toNat + 10)
  else if 'A' ≤ c ∧ c ≤ 'F' then some (c.toNat - 'A'.toNat + 10)
  else none

/-- `url.QueryEscape` on one character. -/
def queryEscapeChar (c : Char) : List Char :=
  if isUnreservedQueryChar c then [c]
  else if c = ' ' then ['+']
  else ['%', hexDigitUpper (charByte c / 16), hexDigitUpper (charByte c % 16)]

/-- `url.QueryEscape`. -/
def queryEscape (s : String) : String :=
  ⟨s.data.flatMap queryEscapeChar⟩

/-- `url.QueryUnescape` (query mode: `+` is a space). -/
def queryUnescapeList : List Char → Option (List Char)
  | [] => some []
  | '%' :: h1 :: h2 :: rest => do
      let v1 ← hexCharVal h1
      let v2 ← hexCharVal h2
      let tail ← queryUnescapeList rest
      some (Char.ofNat (v1 * 16 + v2) :: tail)
  | '%' :: _ => none
  | '+' :: rest => (queryUnescapeList rest).map (fun t => ' ' :: t)
  | c :: rest => (queryUnescapeList rest).map (fun t => c :: t)

def queryUnescape (s : String) : Option String :=
  (queryUnescapeList s.data).map (fun l => ⟨l⟩)

/-- `url.Values` as an association list from key to its value list, in
first-insertion order (Go's map plus the deterministic sorted `Encode`). -/
def Values : Type := List (String × List String)

/-- Append one decoded pair (`v[key] = append(v[key], value)`). -/
def valuesAdd (m : List (String × List String)) (k v : String) :
    List (String × List String) :=
  if m.any (fun p => p.1 = k) then
    m.map (fun p => if p.1 = k then (p.1, p.2 ++ [v]) else p)
  else m ++ [(k, [v])]

/-- `url.Values.Set`. -/
def valuesSet (m : List (String × List String)) (k v : String) :
    List (String × List String) :=
  if m.any (fun p => p.1 = k) then
    m.map (fun p => if p.1 = k then (p.1, [v]) else p)
  else m ++ [(k, [v])]

/-- `url.Values.Get`: first value of the key, or empty. -/
def valuesGet (m : List (String × List String)) (k : String) : String :=
  match m.find? (fun p => p.1 = k) with
  | some (_, v :: _) => v
  | _ => ""

/-- `url.ParseQuery`, with the error discarded as `URL.Query` does:
segments containing `;` and undecodable pairs are skipped. -/
def parseQueryList (segs : List (List Char)) : List (String × List String) :=
  segs.foldl
    (fun m seg =>
      if seg.contains ';' then m
      else if seg = [] then m
      else
        let (k, v) := cutAtChar '=' seg
        let vStr := (v.getD [])
        match queryUnescape ⟨k⟩, queryUnescape ⟨vStr⟩ with
        | some key, some value => valuesAdd m key value
        | _, _ => m)
    []

def parseQuery (s : String) : List (String × List String) :=
  if s = "" then [] else parseQueryList (splitOnChar '&' s.data)

/-- One step of `parseQueryList` (named for the lemmas below; the body is
the fold function of `parseQueryList` verbatim). -/
def parseQueryStep (m : List (String × List String)) (seg : List Char) :
    List (String × List String) :=
  if seg.contains ';' then m
  else if seg = [] then m
  else
    let (k, v) := cutAtChar '=' seg
    let vStr := (v.getD [])
    match queryUnescape ⟨k⟩, queryUnescape ⟨vStr⟩ with
    | some key, some value => valuesAdd m key value
    | _, _ => m

/-- Bytewise string order (Go `sort.Strings`). -/
def charListLe : List Char → List Char → Bool
  | [], _ => true
  | _ :: _, [] => false
  | a :: as, b :: bs =>
    if a.toNat < b.toNat then true
    else if b.toNat < a.toNat then false
    else charListLe as bs

def stringLeGo (a b : String) : Bool := charListLe a.data b.data

def insertSortedKey (x : String × List String) :
    List (String × List String) → List (String × List String)
  | [] => [x]
  | y :: rest =>
    if stringLeGo x.1 y.1 then x :: y :: rest else y :: insertSortedKey x rest

/-- Sort an association list by key (Go `Encode` sorts the map keys). -/
def sortByKey (m : List (String × List String)) : List (String × List String) :=
  m.foldr insertSortedKey []

/-- `url.Values.Encode`. -/
def valuesEncode (m : List (String × List String)) : String :=
  joinWith "&"
    ((sortByKey m).flatMap (fun kv =>
      kv.2.map (fun v => queryEscape kv.1 ++ "=" ++ queryEscape v)))

/-! ## `internal/playlist` — the rewriter -/

/-- `ProcessorOptions` (modifier.go). -/
structure ProcessorOptions where
  tokenParamName : String
  pathParamName : String
  usePathParam : Bool
  deriving Repr, DecidableEq

/-- `DefaultProcessorOptions`. -/
def defaultProcessorOptions : ProcessorOptions :=
  { tokenParamName := "token", pathParamName := "url", usePathParam := false }

/-- Rewrite failures (modifier.go error values plus URL-parse failure). -/
inductive RewriteErr where
  | invalidPlaylist
  | notMasterPlaylist
  | notMediaPlaylist
  | emptyToken
  | emptyTokenParamName
  | badURL
  deriving Repr, DecidableEq

/-- `resolveURL` (modifier.go): parse, return as-is when absolute,
otherwise resolve against the base. -/
def resolveURL (baseURL : URL) (urlStr : String) : Option URL :=
  if urlStr = "" then none
  else
    match urlParse urlStr with
    | none => none
    | some parsed =>
      if urlIsAbs parsed then some parsed
      else some (resolveReference baseURL parsed)

/-- The URL record `generateProxyPath` (master.go) builds before its
final `String()` call: only `Path` is populated from the proxy URL, the
token goes into the query, and the resolved target is carried either in
the `pathParamName` query parameter or appended to the path. -/
def generateProxyPathURL (proxyURL : URL) (opts : ProcessorOptions)
    (targetURL : URL) (token : String) : URL :=
  let result := { emptyURL with path := proxyURL.path }
  let result :=
    if opts.tokenParamName ≠ "" ∧ token ≠ "" then
      { result with rawQuery :=
          valuesEncode (valuesSet (parseQuery result.rawQuery) opts.tokenParamName token) }
    else result
  if opts.usePathParam then
    { result with rawQuery :=
        valuesEncode (valuesSet (parseQuery result.rawQuery) opts.pathParamName
          (urlToString targetURL)) }
  else
    let newPath := trimSuffix proxyURL.path "/"
    let newPath := if ¬startsWithGo targetURL.path "/" then newPath ++ "/" else newPath
    let newPath := newPath ++ targetURL.path
    let result := { result with path := newPath }
    if targetURL.rawQuery ≠ "" then
      if result.rawQuery ≠ "" then
        { result with rawQuery := result.rawQuery ++ "&" ++ targetURL.rawQuery }
      else
        { result with rawQuery := targetURL.rawQuery }
    else result

/-- `generateProxyPath` (master.go). -/
def generateProxyPath (proxyURL : URL) (opts : ProcessorOptions)
    (targetURL : URL) (token : String) : String :=
  urlToString (generateProxyPathURL proxyURL opts targetURL token)

/-- `MasterProcessor.processVariant`. -/
def processVariant (baseURL proxyURL : URL) (opts : ProcessorOptions)
    (v : Variant) (token : String) : Except RewriteErr Variant :=
  if v.uri = "" then .ok v
  else
    match resolveURL baseURL v.uri with
    | none => .error .badURL
    | some resolved => .ok { v with uri := generateProxyPath proxyURL opts resolved token }

/-- `MasterProcessor.processIFrameStream`. -/
def processIFrameStreamRewrite (baseURL proxyURL : URL) (opts : ProcessorOptions)
    (f : IFrameStream) (token : String) : Except RewriteErr IFrameStream :=
  if f.uri = "" then .ok f
  else
    match resolveURL baseURL f.uri with
    | none => .error .badURL
    | some resolved => .ok { f with uri := generateProxyPath proxyURL opts resolved token }

/-- `MasterProcessor.processMediaGroup`. -/
def processMediaGroupRewrite (baseURL proxyURL : URL) (opts : ProcessorOptions)
    (g : MediaGroup) (token : String) : Except RewriteErr MediaGroup :=
  if g.uri = "" then .ok g
  else
    match resolveURL baseURL g.uri with
    | none => .error .badURL
    | some resolved => .ok { g with uri := generateProxyPath proxyURL opts resolved token }

/-- Traverse a list with an `Except`-valued function. -/
def exceptMap (f : β → Except ε β) : List β → Except ε (List β)
  | [] => .ok []
  | x :: rest => do
      let y ← f x
      let ys ← exceptMap f rest
      .ok (y :: ys)

/-- `MasterProcessor.Process`: rewrite every variant, I-frame stream and
media group of a master playlist. -/
def masterProcess (baseURL proxyURL : URL) (opts : ProcessorOptions)
    (p : Playlist) (token : String) : Except RewriteErr Playlist := do
  if p.type ≠ .master then .error .notMasterPlaylist
  else do
    let variants ← exceptMap (fun v => processVariant baseURL proxyURL opts v token)
      p.master.variants
    let iframes ← exceptMap (fun f => processIFrameStreamRewrite baseURL proxyURL opts f token)
      p.master.iFrameStreams
    let groups ← exceptMap (fun kv => do
        let gs ← exceptMap (fun g => processMediaGroupRewrite baseURL proxyURL opts g token) kv.2
        .ok (kv.1, gs))
      p.master.mediaGroups
    .ok { p with master := { p.master with
      variants := variants, iFrameStreams := iframes, mediaGroups := groups } }

/-- `MediaProcessor.addTokenToURL`. -/
def addTokenToURL (opts : ProcessorOptions) (targetURL : URL) (token : String) : String :=
  if token = "" ∨ opts.tokenParamName = "" then urlToString targetURL
  else
    let newQuery :=
      valuesEncode (valuesSet (parseQuery targetURL.rawQuery) opts.tokenParamName token)
    urlToString { targetURL with rawQuery := newQuery }

/-- `MediaProcessor.processKey`. -/
def processKey (baseURL : URL) (opts : ProcessorOptions) (k : Key) (token : String) :
    Except RewriteErr Key :=
  if k.uri = "" then .ok k
  else
    match resolveURL baseURL k.uri with
    | none => .error .badURL
    | some resolved => .ok { k with uri := addTokenToURL opts resolved token }

/-- `MediaProcessor.processMap`. -/
def processMap (baseURL : URL) (opts : ProcessorOptions) (m : SegMap) (token : String) :
    Except RewriteErr SegMap :=
  if m.uri = "" then .ok m
  else
    match resolveURL baseURL m.uri with
    | none => .error .badURL
    | some resolved => .ok { m with uri := addTokenToURL opts resolved token }

/-- `MediaProcessor.processSegment`: the segment URI points straight at
the origin, with the token appended; key and map URIs likewise. -/
def processSegment (baseURL : URL) (opts : ProcessorOptions) (s : Segment)
    (token : String) : Except RewriteErr Segment := do
  let s ←
    if s.uri = "" then .ok s
    else
      match resolveURL baseURL s.uri with
      | none => .error .badURL
      | some resolved => .ok { s with uri := addTokenToURL opts resolved token }
  let s ←
    match s.key with
    | none => .ok s
    | some k => (processKey baseURL opts k token).map (fun k => { s with key := some k })
  match s.segMap with
  | none => .ok s
  | some m => (processMap baseURL opts m token).map (fun m => { s with segMap := some m })

/-- `MediaProcessor.Process`. -/
def mediaProcess (baseURL : URL) (opts : ProcessorOptions) (p : Playlist)
    (token : String) : Except RewriteErr Playlist := do
  if p.type ≠ .media then .error .notMediaPlaylist
  else do
    let segments ← exceptMap (fun s => processSegment baseURL opts s token)
      p.media.segments
    .ok { p with media := { p.media with segments := segments } }

/-- `Modifier.Process` (modifier.go): validation then dispatch on the
playlist type.  (The nil-pointer guards of the Go code are inexpressible
for value arguments and always pass here.) -/
def modifierProcess (opts : ProcessorOptions) (p : Playlist) (baseURL proxyURL : URL)
    (token : String) : Except RewriteErr Playlist :=
  if token = "" then .error .emptyToken
  else if opts.tokenParamName = "" then .error .emptyTokenParamName
  else
    match p.type with
    | .master => masterProcess baseURL proxyURL opts p token
    | .media => mediaProcess baseURL opts p token
    | .unknown => .error .invalidPlaylist

/-- `Parser.ParseAndProcess` (internal/playlist/parser.go): parse,
rewrite, serialize. -/
def parseAndProcess (lines : List String) (baseURL proxyURL : URL)
    (token : String) (opts : ProcessorOptions) :
    Except (Except ParseErr RewriteErr) String := do
  match parse lines with
  | .error e => .error (.error e)
  | .ok p =>
    match modifierProcess opts p baseURL proxyURL token with
    | .error e => .error (.ok e)
    | .ok p => .ok (playlistString p)

/-! ### URI observers

The claims speak of the scheme, host, path and query "of the rewritten
URI".  The rewriter produces strings; these observers read the components
back with the `url.Parse` model. -/

def uriScheme (s : String) : String := ((urlParse s).getD emptyURL).scheme

def uriHost (s : String) : String := ((urlParse s).getD emptyURL).host

def uriPath (s : String) : String := ((urlParse s).getD emptyURL).path

def uriQuery (s : String) : List (String × List String) :=
  parseQuery ((urlParse s).getD emptyURL).rawQuery

/-- "The query contains `name=value`": `Values.Get` after parsing. -/
def uriQueryGet (s name : String) : String := valuesGet (uriQuery s) name

/-! ## Auxiliary definitions for the claim statements -/

/-- Claim-side FNV-1a, as claim C7 words it: start from 2166136261 and,
for each byte, XOR the byte into the hash and then multiply by 16777619
(32-bit). -/
def fnv1aSpec (key : String) : Nat :=
  key.data.foldl (fun h c => ((h ^^^ charByte c) * 16777619) % u32Mod) 2166136261

/-- The hash the code actually computes, per the amended claim: for each
byte, multiply by 16777619 and then XOR the byte in (FNV-1 order). -/
def fnv1Spec (key : String) : Nat :=
  key.data.foldl (fun h c => ((h * 16777619) % u32Mod) ^^^ charByte c) 2166136261

/-- A sequence of `Set` operations `(key, value, ttl, now)`. -/
def runSets (c : MemoryCache α) (ops : List (String × α × Int × Int)) :
    MemoryCache α :=
  ops.foldl (fun c q => cacheSet c q.1 q.2.1 q.2.2.1 q.2.2.2) c

/-- Cache operations for the persistence claim (C10). -/
inductive CacheOp (α : Type) where
  | set (k : String) (v : α) (ttl now : Int)
  | get (k : String) (now : Int)
  | del (k : String)

/-- Whether an operation writes the given key (a `Set` overwriting it or
a `Delete` removing it). -/
def opWrites (key : String) : CacheOp α → Bool
  | .set k _ _ _ => k = key
  | .get _ _ => false
  | .del k => k = key

def applyOp (c : MemoryCache α) : CacheOp α → MemoryCache α
  | .set k v ttl now => cacheSet c k v ttl now
  | .get k now => (cacheGet c k now).2
  | .del k => cacheDelete c k

def runOps (c : MemoryCache α) (ops : List (CacheOp α)) : MemoryCache α :=
  ops.foldl applyOp c

/-- No character `c` occurs in `s`. -/
def noChar (s : String) (c : Char) : Bool := ¬s.data.contains c

/-- All characters fit in one byte (the ASCII/Latin-1 range on which the
per-`Char` escaping model agrees with Go's per-byte escaping). -/
def byteString (s : String) : Bool := s.data.all (fun c => c.toNat < 256)

/-- Well-formedness of an absolute URL record under which `String` and
`Parse` invert each other in the model. -/
def absURLOK (u : URL) : Prop :=
  u.scheme ≠ "" ∧
  isAlphaChar (u.scheme.data.headD ' ') = true ∧
  u.scheme.data.all isSchemeChar = true ∧
  u.scheme.data.map Char.toLower = u.scheme.data ∧
  noChar u.host '/' = true ∧ noChar u.host '?' = true ∧
  noChar u.host '#' = true ∧ noChar u.host '@' = true ∧
  (u.path = "" ∨ startsWithGo u.path "/" = true) ∧
  noChar u.path '?' = true ∧ noChar u.path '#' = true ∧
  noChar u.rawQuery '#' = true ∧
  u.opaquePart = "" ∧ u.fragment = ""

instance (u : URL) : Decidable (absURLOK u) := by
  unfold absURLOK
  infer_instance

/-- Well-formedness of a host-less, scheme-less URL record (the proxy
rewrite result) under which `String` and `Parse` invert each other. -/
def relURLOK (u : URL) : Prop :=
  u.scheme = "" ∧ u.host = "" ∧ u.opaquePart = "" ∧ u.fragment = "" ∧
  (u.path = "" ∨ startsWithGo u.path "/" = true) ∧
  ¬startsWithGo u.path "//" = true ∧
  noChar u.path '?' = true ∧ noChar u.path '#' = true ∧
  noChar u.rawQuery '#' = true

instance (u : URL) : Decidable (relURLOK u) := by
  unfold relURLOK
  infer_instance

/-- Well-formedness of a query association list under which `Encode`
followed by `ParseQuery` recovers the first value of each key: every key
and value is a byte string, every value list is non-empty, and keys are
pairwise distinct. -/
def pairsOK (m : List (String × List String)) : Prop :=
  (∀ p ∈ m, byteString p.1 = true ∧ p.2 ≠ [] ∧ ∀ v ∈ p.2, byteString v = true) ∧
  List.Pairwise (fun a b => a.1 ≠ b.1) m

/-- Well-formedness of a rewrite target (the resolved origin URL) on the
master-playlist path: an absolute, `//`-free path without `?` or `#`, and
a `#`-free query. -/
def targetRelOK (r : URL) : Prop :=
  startsWithGo r.path "/" = true ∧ ¬startsWithGo r.path "//" = true ∧
  noChar r.path '?' = true ∧ noChar r.path '#' = true ∧
  noChar r.rawQuery '#' = true

instance (r : URL) : Decidable (targetRelOK r) := by
  unfold targetRelOK
  infer_instance

/-- Well-formedness of a rewrite target on the media-playlist path: a
parse-stable absolute URL whose query is a byte string. -/
def originOK (r : URL) : Prop := absURLOK r ∧ byteString r.rawQuery = true

instance (r : URL) : Decidable (originOK r) := by
  unfold originOK
  infer_instance

/-- "Rewritten to a proxy-relative URL": empty scheme and host, a path
extending the proxy path, and the `token` parameter set. -/
def proxyRelativeTo (proxyURL : URL) (s token : String) : Prop :=
  uriScheme s = "" ∧ uriHost s = "" ∧
  startsWithGo (uriPath s) proxyURL.path = true ∧
  uriQueryGet s "token" = token

instance (proxyURL : URL) (s token : String) :
    Decidable (proxyRelativeTo proxyURL s token) := by
  unfold proxyRelativeTo
  infer_instance

/-! ## Helper lemmas -/


/-! ## Round-trip well-formedness side conditions (serialize-then-reparse) -/

/-- A stored global tag that reparses benignly when the serializer re-emits
it: a colon-free `#`-tag name other than `#EXT-X-VERSION`, whose
reprocessing either leaves the tracked media-playlist fields alone or
rewrites them to the very values `p` already holds. -/
def storedTagOK (p : Playlist) (t : Tag) : Prop :=
  startsWithGo t.name "#" = true ∧
  noChar t.name ':' = true ∧
  ¬ t.name = tagVersion ∧
  (t.name = tagTargetDuration → parseFloatQ t.value = some p.media.targetDuration) ∧
  (t.name = tagMediaSequence → parseUint64 t.value = some p.media.mediaSequence) ∧
  (t.name = tagDiscontinuitySequence → parseUint64 t.value = some p.media.discontinuitySeq) ∧
  (t.name = tagEndList → p.media.endList = true) ∧
  (t.name = tagAllowCache → decide (¬ t.value = "NO") = p.media.allowCache) ∧
  (t.name = tagPlaylistType → t.value = p.media.playlistType) ∧
  (t.name = tagMediaGroup →
    (assocGet (parseAttributes t.value) "TYPE").isSome = true ∧
    (assocGet (parseAttributes t.value) "GROUP-ID").isSome = true) ∧
  (t.name = tagIFrameStreamInf →
    (assocGet (parseAttributes t.value) "URI").isSome = true ∧
    (parseAttributeUint (parseAttributes t.value) "BANDWIDTH").isOk = true) ∧
  (t.name = tagSessionData →
    (assocGet (parseAttributes t.value) "DATA-ID").isSome = true)

/-- The segment shape the parser itself produces (`AddSegment` zeroes the
key, map, byte-range, discontinuity and date-time fields), plus the side
conditions for the segment's two serialized lines to reparse to the same
segment. -/
def segmentRT (s : Segment) : Prop :=
  ¬ trimSpace s.uri = "" ∧
  startsWithGo s.uri "#" = false ∧
  parseFloatQ (fmtF3 s.duration) = some s.duration ∧
  noChar (fmtF3 s.duration) ',' = true ∧
  s.byteRange = "" ∧ s.discontinuity = false ∧ s.programDateTime = "" ∧
  s.key = none ∧ s.segMap = none

/-- Media-playlist side conditions of the amended round-trip claim. -/
def mediaRT (p : Playlist) : Prop :=
  p.master.variants = [] ∧
  parseFloatQ (toString (qTruncInt p.media.targetDuration)) = some p.media.targetDuration ∧
  parseUint64 (toString p.media.mediaSequence) = some p.media.mediaSequence ∧
  (0 < p.media.discontinuitySeq →
    parseUint64 (toString p.media.discontinuitySeq) = some p.media.discontinuitySeq) ∧
  (p.media.allowCache = true → p.tags.any (fun t => t.name = tagAllowCache) = true) ∧
  ∀ s ∈ p.media.segments, segmentRT s

/-- Master-playlist side conditions of the amended round-trip claim. -/
def masterRT (p : Playlist) : Prop :=
  p.media.segments = [] ∧ p.media.targetDuration = 0 ∧ p.media.mediaSequence = 0 ∧
  p.media.discontinuitySeq = 0 ∧ p.media.endList = false ∧
  p.media.allowCache = false ∧ p.media.playlistType = "" ∧
  (∀ kv ∈ p.master.mediaGroups, ∀ g ∈ kv.2,
    (assocGet (parseAttributes g.rawAttributes) "TYPE").isSome = true ∧
    (assocGet (parseAttributes g.rawAttributes) "GROUP-ID").isSome = true) ∧
  (∀ d ∈ p.master.sessionData,
    (assocGet (parseAttributes d.rawAttributes) "DATA-ID").isSome = true) ∧
  (∀ f ∈ p.master.iFrameStreams,
    (assocGet (parseAttributes f.rawAttributes) "URI").isSome = true ∧
    (parseAttributeUint (parseAttributes f.rawAttributes) "BANDWIDTH").isOk = true) ∧
  ∀ v ∈ p.master.variants,
    ¬ trimSpace v.uri = "" ∧
    startsWithGo v.uri "#" = false ∧
    ∃ bw, parseAttributeUint (parseAttributes v.rawAttributes) "BANDWIDTH" = Except.ok bw ∧
      (addVariant newPlaylist v.uri bw (parseAttributes v.rawAttributes)).master.variants = [v]


instance exceptDecEq {ε α : Type} [DecidableEq ε] [DecidableEq α] :
    DecidableEq (Except ε α) := fun a b =>
  match a, b with
  | .error e, .error f =>
    if h : e = f then isTrue (by rw [h]) else isFalse (fun hc => h (Except.error.inj hc))
  | .ok x, .ok y =>
    if h : x = y then isTrue (by rw [h]) else isFalse (fun hc => h (Except.ok.inj hc))
  | .error _, .ok _ => isFalse (fun hc => Except.noConfusion hc)
  | .ok _, .error _ => isFalse (fun hc => Except.noConfusion hc)

instance storedTagOKDec (p : Playlist) (t : Tag) : Decidable (storedTagOK p t) := by
  unfold storedTagOK
  infer_instance

instance segmentRTDec (s : Segment) : Decidable (segmentRT s) := by
  unfold segmentRT
  infer_instance

instance mediaRTDec (p : Playlist) : Decidable (mediaRT p) := by
  unfold mediaRT
  infer_instance

def rtWitnessPlaylist : Playlist :=
  { type := PlaylistType.media
    version := 1
    tags := [{ name := tagTargetDuration, value := "6", attributes := [], rawLine := "#EXT-X-TARGETDURATION:6" },
             { name := tagInf, value := "4.0,", attributes := [], rawLine := "#EXTINF:4.0," }]
    master := { variants := [], mediaGroups := [], iFrameStreams := [],
                sessionData := [], hasIndependentSegments := false }
    media := { targetDuration := 6, mediaSequence := 0,
               segments := [{ uri := "s.ts", duration := 4, title := "", byteRange := "",
                              discontinuity := false, programDateTime := "", key := none,
                              segMap := none }],
               endList := false, discontinuitySeq := 0, allowCache := false,
               playlistType := "", iFramesOnly := false, hasIndependentSegments := false }
    originalHeader := "#EXTM3U"
    rawLines := [] }


theorem fnv32Loop_eq_foldl (l : List Char) (h : Nat) :
    fnv32Loop h l = l.foldl (fun h c => ((h * 16777619) % u32Mod) ^^^ charByte c) h := by
  induction l generalizing h <;> simp [fnv32Loop, *]

theorem fnv32_eq_fnv1Spec (key : String) : fnv32 key = fnv1Spec key := by
  simp [fnv32, fnv1Spec, fnv32Loop_eq_foldl]

theorem setShard_ne {α : Type} (c : MemoryCache α) (i j : Nat) (sh : MemoryShard α)
    (hj : j ≠ i) : (setShard c i sh).shards[j]? = c.shards[j]? := by
  simp [setShard, List.getElem?_set_ne (Ne.symm hj)]

theorem cacheSet_shards_ne {α : Type} (c : MemoryCache α) (key : String) (v : α)
    (ttl now : Int) (j : Nat) (hj : j ≠ shardIndex c key) :
    (cacheSet c key v ttl now).shards[j]? = c.shards[j]? := by
  simp only [cacheSet]
  cases h1 : c.shards[shardIndex c key]? with
  | none => rfl
  | some sh =>
    cases h2 : shardFind sh key <;>
      simp only [h2] <;> exact setShard_ne _ _ _ _ hj

theorem cacheDelete_shards_ne {α : Type} (c : MemoryCache α) (key : String)
    (j : Nat) (hj : j ≠ shardIndex c key) :
    (cacheDelete c key).shards[j]? = c.shards[j]? := by
  simp only [cacheDelete]
  cases h1 : c.shards[shardIndex c key]? with
  | none => rfl
  | some sh => simp [setShard_ne _ _ _ _ hj]

theorem cacheGet_shards_ne {α : Type} (c : MemoryCache α) (key : String)
    (now : Int) (j : Nat) (hj : j ≠ shardIndex c key) :
    (cacheGet c key now).2.shards[j]? = c.shards[j]? := by
  simp only [cacheGet]
  cases h1 : c.shards[shardIndex c key]? with
  | none => rfl
  | some sh =>
    cases h2 : shardFind sh key with
    | none => simp only [h2]
    | some item =>
      simp only [h2]
      by_cases h3 : item.hasExpiry = true ∧ now > item.expiry
      · simp only [if_pos h3]
        exact cacheDelete_shards_ne c key j hj
      · simp only [if_neg h3]
        exact setShard_ne _ _ _ _ hj

theorem evictIfNeededGo_length_le {α : Type} (m : Int) (hm : 0 ≤ m) :
    ∀ (fuel : Nat) (l : List (CacheItem α)), l.length ≤ fuel →
      (((evictIfNeededGo fuel l m).length : Int) ≤ m) := by
  intro fuel
  induction fuel with
  | zero =>
    intro l hl
    have : l = [] := List.eq_nil_of_length_eq_zero (Nat.le_zero.mp hl)
    subst this
    simpa [evictIfNeededGo]
  | succ n ih =>
    intro l hl
    simp only [evictIfNeededGo]
    split
    · next h =>
      match l, h with
      | [], h => simpa [evictIfNeededGo]
      | a :: rest, h =>
        apply ih
        have h1 : (a :: rest).dropLast.length = rest.length := by simp
        rw [h1]
        have h2 : rest.length + 1 ≤ n + 1 := by simpa using hl
        omega
    · next h => omega

theorem evictIfNeeded_length_le {α : Type} (m : Int) (hm : 0 ≤ m)
    (l : List (CacheItem α)) : ((evictIfNeeded l m).length : Int) ≤ m :=
  evictIfNeededGo_length_le m hm l.length l (Nat.le_refl _)

theorem mem_shards_of_getElem? {α : Type} {c : MemoryCache α} {i : Nat}
    {sh : MemoryShard α} (h : c.shards[i]? = some sh) : sh ∈ c.shards :=
  List.getElem?_mem h

theorem lruErase_length_lt {α : Type} (l : List (CacheItem α)) (k : String)
    (it : CacheItem α) (h : l.find? (fun x => x.key = k) = some it) :
    (lruErase l k).length < l.length := by
  rw [lruErase, List.length_filter_lt_length_iff_exists]
  refine ⟨it, List.mem_of_find?_eq_some h, ?_⟩
  have := List.find?_some h
  simpa using this

theorem cacheSet_shard_bound {α : Type} (c : MemoryCache α) (k : String) (v : α)
    (ttl now : Int) (cap : Int) (hcap : 0 ≤ cap)
    (hc : ∀ sh ∈ c.shards, (sh.lru.length : Int) ≤ cap ∧ sh.maxSize = cap) :
    ∀ sh ∈ (cacheSet c k v ttl now).shards,
      (sh.lru.length : Int) ≤ cap ∧ sh.maxSize = cap := by
  intro sh' hmem
  simp only [cacheSet] at hmem
  split at hmem
  · exact hc sh' hmem
  · rename_i sh h1
    have hsh := hc sh (mem_shards_of_getElem? h1)
    split at hmem
    · rename_i it h2
      simp only [setShard] at hmem
      rcases List.mem_or_eq_of_mem_set hmem with h | h
      · exact hc sh' h
      · subst h
        refine ⟨?_, hsh.2⟩
        have hlt := lruErase_length_lt sh.lru k it h2
        have := hsh.1
        simp only [List.length_cons]
        push_cast
        push_cast at this
        omega
    · rename_i h2
      simp only [setShard] at hmem
      rcases List.mem_or_eq_of_mem_set hmem with h | h
      · exact hc sh' h
      · subst h
        refine ⟨?_, hsh.2⟩
        rw [hsh.2]
        exact evictIfNeeded_length_le cap hcap _

theorem shards_sum_le {α : Type} (cap : Int) :
    ∀ (ss : List (MemoryShard α)), (∀ sh ∈ ss, (sh.lru.length : Int) ≤ cap) →
      (((ss.map (fun sh => sh.lru.length)).sum : Int) ≤ (ss.length : Int) * cap) := by
  intro ss
  induction ss with
  | nil => simp
  | cons a rest ih =>
    intro h
    have ha := h a (by simp)
    have hrest := ih (fun sh hm => h sh (by simp [hm]))
    simp only [List.map_cons, List.sum_cons, List.length_cons]
    push_cast
    push_cast at hrest
    nlinarith [hrest, ha]

theorem itemsPerShardOf_nonneg (opts : MemoryOptions) : 0 ≤ itemsPerShardOf opts := by
  rw [itemsPerShardOf]
  split <;> omega

theorem runSets_preserves_bound {α : Type} (cap : Int) (hcap : 0 ≤ cap)
    (ops : List (String × α × Int × Int)) :
    ∀ (c : MemoryCache α),
      (∀ sh ∈ c.shards, (sh.lru.length : Int) ≤ cap ∧ sh.maxSize = cap) →
      ∀ sh ∈ (runSets c ops).shards,
        (sh.lru.length : Int) ≤ cap ∧ sh.maxSize = cap := by
  induction ops with
  | nil => intro c hc; exact hc
  | cons op rest ih =>
    intro c hc
    exact ih _ (cacheSet_shard_bound c op.1 op.2.1 op.2.2.1 op.2.2.2 cap hcap hc)

theorem newMemory_shard_bound {α : Type} (opts : MemoryOptions) :
    ∀ sh ∈ (newMemoryWithOptions α opts).shards,
      (sh.lru.length : Int) ≤ itemsPerShardOf opts ∧
        sh.maxSize = itemsPerShardOf opts := by
  intro sh hm
  rw [newMemoryWithOptions] at hm
  simp only at hm
  have := List.eq_of_mem_replicate hm
  subst this
  simp [itemsPerShardOf_nonneg opts]

theorem runSets_shards_length {α : Type} (ops : List (String × α × Int × Int)) :
    ∀ (c : MemoryCache α), (runSets c ops).shards.length = c.shards.length := by
  induction ops with
  | nil => intro c; rfl
  | cons op rest ih =>
    intro c
    have step : (cacheSet c op.1 op.2.1 op.2.2.1 op.2.2.2).shards.length =
        c.shards.length := by
      simp only [cacheSet]
      split
      · rfl
      · split <;> simp [setShard]
    calc (runSets c (op :: rest)).shards.length
        = (runSets (cacheSet c op.1 op.2.1 op.2.2.1 op.2.2.2) rest).shards.length := rfl
      _ = c.shards.length := by rw [ih, step]


/-! ### Lemmas for the no-expiry persistence claim (C10) -/

theorem evictIfNeededGo_isPrefix {α : Type} :
    ∀ (fuel : Nat) (l : List (CacheItem α)) (m : Int),
      evictIfNeededGo fuel l m <+: l := by
  intro fuel
  induction fuel with
  | zero => intro l m; simp [evictIfNeededGo]
  | succ n ih =>
    intro l m
    simp only [evictIfNeededGo]
    split
    · match l with
      | [] => simp
      | a :: rest => exact (ih _ m).trans (List.dropLast_prefix _)
    · simp

theorem evictIfNeeded_isPrefix {α : Type} (l : List (CacheItem α)) (m : Int) :
    evictIfNeeded l m <+: l :=
  evictIfNeededGo_isPrefix l.length l m

theorem find?_of_isPrefix {α : Type} {p : α → Bool} {l' l : List α}
    (h : l' <+: l) : l'.find? p = none ∨ l'.find? p = l.find? p := by
  obtain ⟨t, rfl⟩ := h
  rw [List.find?_append]
  cases hf : l'.find? p with
  | none => simp
  | some a => simp [hf]

theorem find?_filter_of_imp {α : Type} (p q : α → Bool) (l : List α)
    (h : ∀ x, p x = true → q x = true) :
    (l.filter q).find? p = l.find? p := by
  induction l with
  | nil => rfl
  | cons a t ih =>
    by_cases hq : q a = true
    · rw [List.filter_cons_of_pos hq]
      by_cases hp : p a = true
      · rw [List.find?_cons_of_pos _ hp, List.find?_cons_of_pos _ hp]
      · rw [List.find?_cons_of_neg _ hp, List.find?_cons_of_neg _ hp, ih]
    · have hp : ¬p a = true := fun hpa => hq (h a hpa)
      rw [List.filter_cons_of_neg (by simpa using hq), List.find?_cons_of_neg _ hp, ih]

theorem find?_lruErase_ne {α : Type} (l : List (CacheItem α)) (k k' : String)
    (hkk : k ≠ k') :
    (lruErase l k').find? (fun it => it.key = k) = l.find? (fun it => it.key = k) := by
  rw [lruErase]
  apply find?_filter_of_imp
  intro x hx
  have hxk : x.key = k := by simpa using hx
  simp [hxk]
  exact hkk

theorem cacheLookup_setShard {α : Type} (c : MemoryCache α) (j : Nat)
    (sh sh2 : MemoryShard α) (hj : c.shards[j]? = some sh) (k : String) :
    cacheLookup (setShard c j sh2) k =
      if shardIndex c k = j then shardFind sh2 k else cacheLookup c k := by
  have hlt : j < c.shards.length := (List.getElem?_eq_some.mp hj).1
  by_cases hik : shardIndex c k = j
  · have hidx : shardIndex (setShard c j sh2) k = j := by
      simp [shardIndex, setShard] at hik ⊢
      exact hik
    simp only [cacheLookup, hidx, hik, if_true]
    simp [setShard, List.getElem?_set_eq hlt]
  · have hidx : shardIndex (setShard c j sh2) k = shardIndex c k := by
      simp [shardIndex, setShard]
    simp only [cacheLookup, hidx, hik, if_false]
    rw [setShard]
    simp only []
    rw [List.getElem?_set_ne (fun h => hik (h.symm))]

theorem find?_cons_erase_ne {α : Type} (newIt : CacheItem α)
    (l : List (CacheItem α)) (k k' : String) (hk : ¬newIt.key = k) (hkk : k ≠ k') :
    (newIt :: lruErase l k').find? (fun it => it.key = k) =
      l.find? (fun it => it.key = k) := by
  rw [List.find?_cons_of_neg _ (by simpa using hk), find?_lruErase_ne l k k' hkk]

theorem find?_evict_cons {α : Type} (it0 newIt : CacheItem α)
    (l : List (CacheItem α)) (m : Int) (k : String) (hnew : ¬newIt.key = k)
    (h : l.find? (fun it => it.key = k) = none ∨
         l.find? (fun it => it.key = k) = some it0) :
    (evictIfNeeded (newIt :: l) m).find? (fun it => it.key = k) = none ∨
    (evictIfNeeded (newIt :: l) m).find? (fun it => it.key = k) = some it0 := by
  have hpre := evictIfNeeded_isPrefix (newIt :: l) m
  rcases @find?_of_isPrefix _ (fun it => decide (it.key = k)) _ _ hpre with h1 | h1
  · exact Or.inl h1
  · rw [h1, List.find?_cons_of_neg _ (by simpa using hnew)]
    exact h

theorem cacheSet_mask {α : Type} (c : MemoryCache α) (k : String) (v : α)
    (ttl now : Int) : (cacheSet c k v ttl now).shardMask = c.shardMask := by
  simp only [cacheSet]
  split
  · rfl
  · split <;> rfl

theorem cacheDelete_mask {α : Type} (c : MemoryCache α) (k : String) :
    (cacheDelete c k).shardMask = c.shardMask := by
  simp only [cacheDelete]
  split <;> rfl

theorem cacheGet_mask {α : Type} (c : MemoryCache α) (k : String) (now : Int) :
    (cacheGet c k now).2.shardMask = c.shardMask := by
  simp only [cacheGet]
  split
  · rfl
  · split
    · rfl
    · split
      · exact cacheDelete_mask c k
      · rfl

theorem shardIndex_of_mask_eq {α β : Type} (c : MemoryCache α) (c2 : MemoryCache β)
    (k : String) (h : c2.shardMask = c.shardMask) : shardIndex c2 k = shardIndex c k := by
  simp [shardIndex, h]

theorem cacheSet_preserves_key {α : Type} (c : MemoryCache α) (k k' : String)
    (v' : α) (ttl now : Int) (it0 : CacheItem α)
    (hkk : k ≠ k')
    (h : cacheLookup c k = none ∨ cacheLookup c k = some it0) :
    cacheLookup (cacheSet c k' v' ttl now) k = none ∨
    cacheLookup (cacheSet c k' v' ttl now) k = some it0 := by
  cases h1 : c.shards[shardIndex c k']? with
  | none =>
    simp only [cacheSet, h1]
    exact h
  | some sh =>
    have hnew : ¬((if ttl > 0 then
        ({ key := k', value := v', expiry := now + ttl, hasExpiry := true } : CacheItem α)
        else { key := k', value := v', expiry := 0, hasExpiry := false }).key = k) := by
      split <;> simpa using fun hc => hkk hc.symm
    cases h2 : shardFind sh k' with
    | some it =>
      simp only [cacheSet, h1, h2]
      rw [cacheLookup_setShard c _ sh _ h1 k]
      by_cases hij : shardIndex c k = shardIndex c k'
      · rw [if_pos hij]
        have hcl : cacheLookup c k = shardFind sh k := by
          simp only [cacheLookup, hij, h1]
        rw [hcl] at h
        simp only [shardFind] at h ⊢
        rw [find?_cons_erase_ne _ _ k k' hnew hkk]
        exact h
      · rw [if_neg hij]
        exact h
    | none =>
      simp only [cacheSet, h1, h2]
      rw [cacheLookup_setShard c _ sh _ h1 k]
      by_cases hij : shardIndex c k = shardIndex c k'
      · rw [if_pos hij]
        have hcl : cacheLookup c k = shardFind sh k := by
          simp only [cacheLookup, hij, h1]
        rw [hcl] at h
        simp only [shardFind] at h ⊢
        exact find?_evict_cons it0 _ sh.lru sh.maxSize k hnew h
      · rw [if_neg hij]
        exact h

theorem cacheDelete_preserves_key {α : Type} (c : MemoryCache α) (k k' : String)
    (it0 : CacheItem α) (hkk : k ≠ k')
    (h : cacheLookup c k = none ∨ cacheLookup c k = some it0) :
    cacheLookup (cacheDelete c k') k = none ∨
    cacheLookup (cacheDelete c k') k = some it0 := by
  cases h1 : c.shards[shardIndex c k']? with
  | none =>
    simp only [cacheDelete, h1]
    exact h
  | some sh =>
    simp only [cacheDelete, h1]
    rw [cacheLookup_setShard c _ sh _ h1 k]
    by_cases hij : shardIndex c k = shardIndex c k'
    · rw [if_pos hij]
      have hcl : cacheLookup c k = shardFind sh k := by
        simp only [cacheLookup, hij, h1]
      rw [hcl] at h
      simp only [shardFind] at h ⊢
      rw [find?_lruErase_ne sh.lru k k' hkk]
      exact h
    · rw [if_neg hij]
      exact h

theorem cacheGet_preserves_key {α : Type} (c : MemoryCache α) (k k' : String)
    (now : Int) (it0 : CacheItem α) (hit0 : it0.key = k)
    (hexp0 : it0.hasExpiry = false)
    (h : cacheLookup c k = none ∨ cacheLookup c k = some it0) :
    cacheLookup (cacheGet c k' now).2 k = none ∨
    cacheLookup (cacheGet c k' now).2 k = some it0 := by
  cases h1 : c.shards[shardIndex c k']? with
  | none =>
    simp only [cacheGet, h1]
    exact h
  | some sh =>
    cases h2 : shardFind sh k' with
    | none =>
      simp only [cacheGet, h1, h2]
      exact h
    | some item =>
      simp only [cacheGet, h1, h2]
      have hitem : item.key = k' := by
        simpa using List.find?_some h2
      by_cases hkk : k = k'
      · -- the key being read is the tracked key itself
        have hcl : cacheLookup c k = shardFind sh k := by
          simp only [cacheLookup, hkk, h1]
        have hsome : item = it0 := by
          rcases h with hnone | hsome
          · rw [hcl, hkk] at hnone
            rw [hnone] at h2
            exact Option.noConfusion h2
          · rw [hcl, hkk] at hsome
            rw [hsome] at h2
            exact (Option.some.inj h2).symm
        have hcond : ¬(item.hasExpiry = true ∧ now > item.expiry) := by
          rw [hsome, hexp0]
          simp
        rw [if_neg hcond]
        rw [cacheLookup_setShard c _ sh _ h1 k]
        rw [if_pos (by rw [hkk])]
        right
        simp only [shardFind]
        rw [List.find?_cons_of_pos _ (by simp [hsome, hit0])]
        rw [hsome]
      · split
        · exact cacheDelete_preserves_key c k k' it0 hkk h
        · rw [cacheLookup_setShard c _ sh _ h1 k]
          by_cases hij : shardIndex c k = shardIndex c k'
          · rw [if_pos hij]
            have hcl : cacheLookup c k = shardFind sh k := by
              simp only [cacheLookup, hij, h1]
            rw [hcl] at h
            have hnk : ¬item.key = k := by
              rw [hitem]
              exact fun hc => hkk hc.symm
            simp only [shardFind] at h ⊢
            rw [find?_cons_erase_ne _ _ k k' hnk hkk]
            exact h
          · rw [if_neg hij]
            exact h

theorem applyOp_preserves_key {α : Type} (c : MemoryCache α) (op : CacheOp α)
    (k : String) (it0 : CacheItem α) (hit0 : it0.key = k)
    (hexp0 : it0.hasExpiry = false) (hop : opWrites k op = false)
    (h : cacheLookup c k = none ∨ cacheLookup c k = some it0) :
    cacheLookup (applyOp c op) k = none ∨
    cacheLookup (applyOp c op) k = some it0 := by
  cases op with
  | set k' v' ttl now =>
    have hkk : k ≠ k' := by
      simp only [opWrites] at hop
      exact fun hc => by simp [hc] at hop
    exact cacheSet_preserves_key c k k' v' ttl now it0 hkk h
  | get k' now =>
    exact cacheGet_preserves_key c k k' now it0 hit0 hexp0 h
  | del k' =>
    have hkk : k ≠ k' := by
      simp only [opWrites] at hop
      exact fun hc => by simp [hc] at hop
    exact cacheDelete_preserves_key c k k' it0 hkk h

theorem runOps_preserves_key {α : Type} (k : String) (it0 : CacheItem α)
    (hit0 : it0.key = k) (hexp0 : it0.hasExpiry = false) :
    ∀ (ops : List (CacheOp α)) (c : MemoryCache α),
      (∀ op ∈ ops, opWrites k op = false) →
      (cacheLookup c k = none ∨ cacheLookup c k = some it0) →
      (cacheLookup (runOps c ops) k = none ∨
       cacheLookup (runOps c ops) k = some it0) := by
  intro ops
  induction ops with
  | nil => intro c _ h; exact h
  | cons op rest ih =>
    intro c hops h
    exact ih (applyOp c op)
      (fun o ho => hops o (List.mem_cons_of_mem op ho))
      (applyOp_preserves_key c op k it0 hit0 hexp0
        (hops op (List.mem_cons_self op rest)) h)

theorem cacheSet_establishes {α : Type} (c : MemoryCache α) (k : String) (v : α)
    (ttl now : Int) (httl : ttl ≤ 0) :
    cacheLookup (cacheSet c k v ttl now) k = none ∨
    cacheLookup (cacheSet c k v ttl now) k =
      some { key := k, value := v, expiry := 0, hasExpiry := false } := by
  have hitem : (if ttl > 0 then
      ({ key := k, value := v, expiry := now + ttl, hasExpiry := true } : CacheItem α)
      else { key := k, value := v, expiry := 0, hasExpiry := false }) =
      { key := k, value := v, expiry := 0, hasExpiry := false } := by
    rw [if_neg (by omega)]
  cases h1 : c.shards[shardIndex c k]? with
  | none =>
    simp only [cacheSet, h1]
    left
    simp only [cacheLookup, h1]
  | some sh =>
    cases h2 : shardFind sh k with
    | some it =>
      simp only [cacheSet, h1, h2, hitem]
      rw [cacheLookup_setShard c _ sh _ h1 k]
      rw [if_pos rfl]
      right
      simp only [shardFind]
      rw [List.find?_cons_of_pos _ (by simp)]
    | none =>
      simp only [cacheSet, h1, h2, hitem]
      rw [cacheLookup_setShard c _ sh _ h1 k]
      rw [if_pos rfl]
      have hpre := evictIfNeeded_isPrefix
        (({ key := k, value := v, expiry := 0, hasExpiry := false } : CacheItem α) :: sh.lru)
        sh.maxSize
      rcases List.prefix_cons_iff.mp hpre with hnil | ⟨t, hcons, hpc⟩
      · left
        simp [shardFind, hnil]
      · right
        simp only [shardFind, hcons]
        rw [List.find?_cons_of_pos _ (by simp)]

theorem cacheGet_of_lookup_value {α : Type} (c : MemoryCache α) (k : String)
    (v : α)
    (h : cacheLookup c k = some { key := k, value := v, expiry := 0, hasExpiry := false })
    (now : Int) : (cacheGet c k now).1 = some v := by
  simp only [cacheLookup] at h
  split at h
  · exact Option.noConfusion h
  · rename_i sh heq
    simp [cacheGet, heq, h]

/-! ### Query-escaping lemmas (for the rewrite claims C1 and C2) -/

/-- A character within one byte (where the per-`Char` escaping model
agrees with Go's per-byte escaping). -/
theorem hexCharVal_hexDigitUpper (n : Nat) (h : n < 16) :
    hexCharVal (hexDigitUpper n) = some n := by
  revert n
  decide

theorem mem_queryEscapeChar (c x : Char) (hx : x ∈ queryEscapeChar c) :
    isUnreservedQueryChar x = true ∨ x = '+' ∨ x = '%' ∨
      ∃ n, n < 16 ∧ x = hexDigitUpper n := by
  rw [queryEscapeChar] at hx
  split at hx
  · next h =>
    rcases List.mem_singleton.mp hx with rfl
    exact Or.inl h
  · split at hx
    · rcases List.mem_singleton.mp hx with rfl
      exact Or.inr (Or.inl rfl)
    · simp only [List.mem_cons, List.not_mem_nil, or_false] at hx
      rcases hx with rfl | rfl | rfl
      · exact Or.inr (Or.inr (Or.inl rfl))
      · exact Or.inr (Or.inr (Or.inr ⟨charByte c / 16, by
          have := Nat.mod_lt c.toNat (show 0 < 256 by decide)
          constructor
          · rw [charByte]
            omega
          · rfl⟩))
      · exact Or.inr (Or.inr (Or.inr ⟨charByte c % 16, by
          constructor
          · exact Nat.mod_lt _ (by decide)
          · rfl⟩))

theorem mem_queryEscape (s : String) (x : Char) (hx : x ∈ (queryEscape s).data) :
    isUnreservedQueryChar x = true ∨ x = '+' ∨ x = '%' ∨
      ∃ n, n < 16 ∧ x = hexDigitUpper n := by
  rw [queryEscape] at hx
  simp only [List.mem_flatMap] at hx
  obtain ⟨c, _, hc⟩ := hx
  exact mem_queryEscapeChar c x hc

theorem queryEscape_no_amp (s : String) : ¬(queryEscape s).data.contains '&' = true := by
  intro h
  rcases mem_queryEscape s '&' (by simpa using h) with h1 | h1 | h1 | ⟨n, hn, h1⟩
  · exact absurd h1 (by decide)
  · exact absurd h1 (by decide)
  · exact absurd h1 (by decide)
  · revert h1
    revert hn
    revert n
    decide

theorem queryEscape_no_semi (s : String) : ¬(queryEscape s).data.contains ';' = true := by
  intro h
  rcases mem_queryEscape s ';' (by simpa using h) with h1 | h1 | h1 | ⟨n, hn, h1⟩
  · exact absurd h1 (by decide)
  · exact absurd h1 (by decide)
  · exact absurd h1 (by decide)
  · revert h1
    revert hn
    revert n
    decide

theorem queryEscape_no_eq (s : String) : ¬(queryEscape s).data.contains '=' = true := by
  intro h
  rcases mem_queryEscape s '=' (by simpa using h) with h1 | h1 | h1 | ⟨n, hn, h1⟩
  · exact absurd h1 (by decide)
  · exact absurd h1 (by decide)
  · exact absurd h1 (by decide)
  · revert h1
    revert hn
    revert n
    decide

theorem queryEscape_no_hash (s : String) : ¬(queryEscape s).data.contains '#' = true := by
  intro h
  rcases mem_queryEscape s '#' (by simpa using h) with h1 | h1 | h1 | ⟨n, hn, h1⟩
  · exact absurd h1 (by decide)
  · exact absurd h1 (by decide)
  · exact absurd h1 (by decide)
  · revert h1
    revert hn
    revert n
    decide

theorem queryUnescapeList_cons_of_ne (c : Char) (h1 : c ≠ '%') (h2 : c ≠ '+')
    (rest : List Char) :
    queryUnescapeList (c :: rest) = (queryUnescapeList rest).map (fun t => c :: t) := by
  rw [queryUnescapeList.eq_def]
  split
  · next heq => exact absurd heq (List.cons_ne_nil c rest)
  · next heq => exact absurd (List.cons.inj heq).1 h1
  · next heq => exact absurd (List.cons.inj heq).1 h1
  · next heq => exact absurd (List.cons.inj heq).1 h2
  · next x r heq =>
    obtain ⟨rfl, rfl⟩ := List.cons.inj heq
    rfl

theorem queryUnescapeList_escapeChar (c : Char) (hb : c.toNat < 256)
    (rest : List Char) :
    queryUnescapeList (queryEscapeChar c ++ rest) =
      (queryUnescapeList rest).map (fun t => c :: t) := by
  rw [queryEscapeChar]
  split
  · next h =>
    have h1 : c ≠ '%' := fun hc => by rw [hc] at h; exact absurd h (by decide)
    have h2 : c ≠ '+' := fun hc => by rw [hc] at h; exact absurd h (by decide)
    rw [List.singleton_append]
    exact queryUnescapeList_cons_of_ne c h1 h2 rest
  · split
    · next hsp =>
      rw [hsp, List.singleton_append]
      rw [queryUnescapeList]
    · rw [List.cons_append, List.cons_append, List.cons_append, List.nil_append]
      rw [queryUnescapeList]
      rw [hexCharVal_hexDigitUpper (charByte c / 16) (by rw [charByte]; omega),
        hexCharVal_hexDigitUpper (charByte c % 16) (Nat.mod_lt _ (by decide))]
      have hb2 : charByte c / 16 * 16 + charByte c % 16 = c.toNat := by
        rw [charByte, Nat.mod_eq_of_lt hb]
        omega
      cases hq : queryUnescapeList rest <;> simp [hq, hb2, Char.ofNat_toNat]

theorem queryUnescapeList_flatMap_escape (l : List Char)
    (hb : ∀ c ∈ l, c.toNat < 256) :
    queryUnescapeList (l.flatMap queryEscapeChar) = some l := by
  induction l with
  | nil => rfl
  | cons c rest ih =>
    rw [List.flatMap_cons,
      queryUnescapeList_escapeChar c (hb c (List.mem_cons_self c rest)),
      ih (fun x hx => hb x (List.mem_cons_of_mem c hx))]
    rfl

theorem queryUnescape_queryEscape (s : String) (hb : byteString s = true) :
    queryUnescape (queryEscape s) = some s := by
  rw [byteString] at hb
  simp only [List.all_eq_true, decide_eq_true_eq] at hb
  rw [queryUnescape, queryEscape]
  show (queryUnescapeList (s.data.flatMap queryEscapeChar)).map _ = _
  rw [queryUnescapeList_flatMap_escape s.data hb]
  rfl

/-! ### String-cutting lemmas -/

theorem takeWhile_all_append {α : Type} (p : α → Bool) (a b : List α)
    (h : ∀ x ∈ a, p x = true) :
    (a ++ b).takeWhile p = a ++ b.takeWhile p := by
  induction a with
  | nil => simp
  | cons x rest ih =>
    have hx := h x (List.mem_cons_self x rest)
    simp [List.takeWhile_cons, hx, ih (fun y hy => h y (List.mem_cons_of_mem x hy))]

theorem not_mem_of_contains_false {l : List Char} {c : Char}
    (h : l.contains c = false) : ¬ c ∈ l := by
  intro hm
  have hc : l.contains c = true := by simpa using hm
  rw [h] at hc
  cases hc

theorem contains_false_of_forall {l : List Char} {c : Char}
    (h : ∀ x ∈ l, x ≠ c) : l.contains c = false := by
  cases hc : l.contains c
  · rfl
  · exact absurd rfl (h c (by simpa using hc))

theorem cutAtChar_not_contains (c : Char) (l : List Char)
    (h : l.contains c = false) : cutAtChar c l = (l, none) := by
  have hall : ∀ x ∈ l, (!decide (x = c)) = true := by
    intro x hx
    simp only [Bool.not_eq_true', decide_eq_false_iff_not]
    intro hxc
    subst hxc
    exact not_mem_of_contains_false h hx
  have htw : List.takeWhile (fun x => !decide (x = c)) l = l := by
    simpa using takeWhile_all_append (fun x => !decide (x = c)) l [] hall
  simp [cutAtChar, htw, List.drop_length]

theorem cutAtChar_append (c : Char) (a b : List Char) (h : a.contains c = false) :
    cutAtChar c (a ++ c :: b) = (a, some b) := by
  have hall : ∀ x ∈ a, (!decide (x = c)) = true := by
    intro x hx
    simp only [Bool.not_eq_true', decide_eq_false_iff_not]
    intro hxc
    subst hxc
    exact not_mem_of_contains_false h hx
  have htw : List.takeWhile (fun x => !decide (x = c)) (a ++ c :: b) = a := by
    rw [takeWhile_all_append (fun x => !decide (x = c)) a (c :: b) hall]
    simp [List.takeWhile_cons]
  simp [cutAtChar, htw, List.drop_left]

theorem splitOnCharAux_not_contains (c : Char) :
    ∀ (l acc : List Char), l.contains c = false →
      splitOnCharAux c l acc = [acc.reverse ++ l] := by
  intro l
  induction l with
  | nil => intro acc h; simp [splitOnCharAux]
  | cons x rest ih =>
    intro acc h
    have hx : ¬x = c := by
      intro hxc
      subst hxc
      exact not_mem_of_contains_false h (List.mem_cons_self x rest)
    have hrest : rest.contains c = false :=
      contains_false_of_forall (fun y hy hyc => by
        subst hyc
        exact not_mem_of_contains_false h (List.mem_cons_of_mem x hy))
    simp [splitOnCharAux, hx, ih (x :: acc) hrest]

theorem splitOnCharAux_append (c : Char) :
    ∀ (a : List Char) (b acc : List Char), a.contains c = false →
      splitOnCharAux c (a ++ c :: b) acc =
        (acc.reverse ++ a) :: splitOnCharAux c b [] := by
  intro a
  induction a with
  | nil => intro b acc h; simp [splitOnCharAux]
  | cons x rest ih =>
    intro b acc h
    have hx : ¬x = c := by
      intro hxc
      subst hxc
      exact not_mem_of_contains_false h (List.mem_cons_self x rest)
    have hrest : rest.contains c = false :=
      contains_false_of_forall (fun y hy hyc => by
        subst hyc
        exact not_mem_of_contains_false h (List.mem_cons_of_mem x hy))
    simp [splitOnCharAux, hx, ih b (x :: acc) hrest]

theorem splitOnChar_no_sep (c : Char) (l : List Char) (h : l.contains c = false) :
    splitOnChar c l = [l] := by
  simpa [splitOnChar] using splitOnCharAux_not_contains c l [] h

theorem splitOnChar_sep (c : Char) (a b : List Char) (h : a.contains c = false) :
    splitOnChar c (a ++ c :: b) = a :: splitOnChar c b := by
  simpa [splitOnChar] using splitOnCharAux_append c a b [] h

theorem splitOnChar_joinWith_amp :
    ∀ (parts : List String) (x : String),
      (∀ p ∈ x :: parts, p.data.contains '&' = false) →
      splitOnChar '&' (joinWith "&" (x :: parts)).data = (x :: parts).map String.data := by
  intro parts
  induction parts with
  | nil =>
    intro x h
    simp [joinWith, splitOnChar_no_sep '&' x.data (h x (List.mem_cons_self x []))]
  | cons y rest ih =>
    intro x h
    have hx := h x (List.mem_cons_self x (y :: rest))
    have hdata : (joinWith "&" (x :: y :: rest)).data
        = x.data ++ '&' :: (joinWith "&" (y :: rest)).data := by
      show (x ++ "&" ++ joinWith "&" (y :: rest)).data = _
      simp [String.data_append]
    rw [hdata, splitOnChar_sep '&' x.data _ hx,
      ih y (fun p hp => h p (List.mem_cons_of_mem x hp))]
    simp

/-! ### `url.Values` lemmas -/

theorem find?_map_fst_preserving (m : List (String × List String)) (k : String)
    (g : String × List String → String × List String)
    (hg : ∀ p, (g p).1 = p.1) :
    (m.map g).find? (fun p => p.1 = k) =
      (m.find? (fun p => p.1 = k)).map g := by
  induction m with
  | nil => rfl
  | cons p rest ih =>
    by_cases hpk : p.1 = k
    · rw [List.map_cons, List.find?_cons_of_pos _ (by simp [hg p, hpk]),
        List.find?_cons_of_pos _ (by simp [hpk])]
      rfl
    · rw [List.map_cons, List.find?_cons_of_neg _ (by simp [hg p, hpk]),
        List.find?_cons_of_neg _ (by simp [hpk]), ih]

theorem find?_eq_none_of_any_false {l : List (String × List String)} {k : String}
    (h : l.any (fun p => p.1 = k) = false) :
    l.find? (fun p => p.1 = k) = none :=
  List.find?_eq_none.mpr (fun x hx => by
    have := List.any_eq_false.mp h x hx
    simpa using this)

theorem find?_key_of_any_true {l : List (String × List String)} {k : String}
    (h : l.any (fun p => p.1 = k) = true) :
    ∃ vs0, l.find? (fun p => p.1 = k) = some (k, vs0) := by
  obtain ⟨x, hx, hpx⟩ := List.any_eq_true.mp h
  cases hf : l.find? (fun p => p.1 = k) with
  | none =>
    have := List.find?_eq_none.mp hf x hx
    exact absurd hpx this
  | some y =>
    obtain ⟨y1, y2⟩ := y
    have hy := List.find?_some hf
    have hk : y1 = k := by simpa using hy
    subst hk
    exact ⟨y2, rfl⟩

theorem find?_valuesAdd_head (m : List (String × List String)) (k v : String)
    (vs : List String) (k' v' : String)
    (h : m.find? (fun p => p.1 = k) = some (k, v :: vs)) :
    ∃ vs2, (valuesAdd m k' v').find? (fun p => p.1 = k) = some (k, v :: vs2) := by
  rw [valuesAdd]
  split
  · rw [find?_map_fst_preserving m k _
      (fun p => by by_cases hc : p.1 = k' <;> simp [hc]), h]
    by_cases hk : k = k'
    · exact ⟨vs ++ [v'], by simp [hk]⟩
    · exact ⟨vs, by simp [hk]⟩
  · exact ⟨vs, by rw [List.find?_append, h]; rfl⟩

theorem find?_valuesAdd_none_ne (m : List (String × List String)) (k k' v' : String)
    (hne : k' ≠ k) (h : m.find? (fun p => p.1 = k) = none) :
    (valuesAdd m k' v').find? (fun p => p.1 = k) = none := by
  rw [valuesAdd]
  split
  · rw [find?_map_fst_preserving m k _
      (fun p => by by_cases hc : p.1 = k' <;> simp [hc]), h]
    rfl
  · rw [List.find?_append, h]
    simp [hne]

theorem find?_valuesAdd_none_self (m : List (String × List String)) (k v' : String)
    (h : m.find? (fun p => p.1 = k) = none) :
    (valuesAdd m k v').find? (fun p => p.1 = k) = some (k, [v']) := by
  have hany : m.any (fun p => p.1 = k) = false := by
    cases hc : m.any (fun p => p.1 = k)
    · rfl
    · obtain ⟨vs0, hf⟩ := find?_key_of_any_true hc
      rw [h] at hf
      cases hf
  rw [valuesAdd, if_neg (by simp [hany])]
  rw [List.find?_append, h]
  simp

theorem find?_valuesSet_self (m : List (String × List String)) (k v : String) :
    (valuesSet m k v).find? (fun p => p.1 = k) = some (k, [v]) := by
  rw [valuesSet]
  split
  · next hany =>
    obtain ⟨vs0, hf⟩ := find?_key_of_any_true hany
    rw [find?_map_fst_preserving m k _
      (fun p => by by_cases hc : p.1 = k <;> simp [hc]), hf]
    simp
  · next hany =>
    have hnone : m.find? (fun p => p.1 = k) =
        none := by
      cases hc : m.any (fun p => p.1 = k)
      · exact find?_eq_none_of_any_false hc
      · exact absurd hc hany
    rw [List.find?_append, hnone]
    simp

theorem parseQueryList_eq_foldl (segs : List (List Char)) :
    parseQueryList segs = segs.foldl parseQueryStep [] := rfl

theorem parseQueryStep_eq (m : List (String × List String)) (seg : List Char) :
    parseQueryStep m seg = m ∨
      ∃ key value, parseQueryStep m seg = valuesAdd m key value ∧
        queryUnescape ⟨(cutAtChar '=' seg).1⟩ = some key ∧
        queryUnescape ⟨(cutAtChar '=' seg).2.getD []⟩ = some value := by
  by_cases hsemi : seg.contains ';' = true
  · left
    rw [parseQueryStep, if_pos hsemi]
  · by_cases hnil : seg = []
    · left
      rw [parseQueryStep, if_neg hsemi, if_pos hnil]
    · rcases hcut : cutAtChar '=' seg with ⟨kpart, vpart⟩
      have hstep : parseQueryStep m seg =
          match queryUnescape ⟨kpart⟩, queryUnescape ⟨vpart.getD []⟩ with
          | some key, some value => valuesAdd m key value
          | _, _ => m := by
        rw [parseQueryStep, if_neg hsemi, if_neg hnil, hcut]
      cases h1 : queryUnescape ⟨kpart⟩ with
      | none =>
        left
        cases h2 : queryUnescape ⟨vpart.getD []⟩ <;> rw [hstep, h1, h2]
      | some key =>
        cases h2 : queryUnescape ⟨vpart.getD []⟩ with
        | none =>
          left
          rw [hstep, h1, h2]
        | some value =>
          right
          exact ⟨key, value, by rw [hstep, h1, h2], rfl, rfl⟩

theorem foldl_parseQueryStep_head :
    ∀ (segs : List (List Char)) (m : List (String × List String)) (k v : String)
      (vs : List String),
      m.find? (fun p => p.1 = k) = some (k, v :: vs) →
      ∃ vs2, (segs.foldl parseQueryStep m).find? (fun p => p.1 = k) =
        some (k, v :: vs2) := by
  intro segs
  induction segs with
  | nil =>
    intro m k v vs h
    exact ⟨vs, h⟩
  | cons seg rest ih =>
    intro m k v vs h
    rw [List.foldl_cons]
    rcases parseQueryStep_eq m seg with heq | ⟨key, value, heq, _, _⟩
    · rw [heq]
      exact ih m k v vs h
    · rw [heq]
      obtain ⟨vs2, h2⟩ := find?_valuesAdd_head m k v vs key value h
      exact ih _ k v vs2 h2

theorem parseQueryStep_escaped (m : List (String × List String)) (k v : String)
    (hk : byteString k = true) (hv : byteString v = true) :
    parseQueryStep m ((queryEscape k).data ++ '=' :: (queryEscape v).data) =
      valuesAdd m k v := by
  have hsemi : ((queryEscape k).data ++ '=' :: (queryEscape v).data).contains ';'
      = false := by
    apply contains_false_of_forall
    intro x hx hxc
    subst hxc
    rcases List.mem_append.mp hx with h1 | h1
    · exact queryEscape_no_semi k (by simpa using h1)
    · rcases List.mem_cons.mp h1 with h2 | h2
      · cases h2
      · exact queryEscape_no_semi v (by simpa using h2)
  have hnil : ¬((queryEscape k).data ++ '=' :: (queryEscape v).data) = [] := by simp
  have heqf : (queryEscape k).data.contains '=' = false := by
    cases hc : (queryEscape k).data.contains '='
    · rfl
    · exact absurd hc (queryEscape_no_eq k)
  have hcut : cutAtChar '=' ((queryEscape k).data ++ '=' :: (queryEscape v).data)
      = ((queryEscape k).data, some (queryEscape v).data) :=
    cutAtChar_append '=' _ _ heqf
  have e1 : queryUnescape ⟨(queryEscape k).data⟩ = some k :=
    queryUnescape_queryEscape k hk
  have e2 : queryUnescape ⟨(queryEscape v).data⟩ = some v :=
    queryUnescape_queryEscape v hv
  rw [parseQueryStep,
    if_neg (by simp only [hsemi]; exact Bool.false_ne_true), if_neg hnil]
  simp only [hcut, Option.getD_some, e1, e2]

/-! ### `url.Parse` / `URL.String` round-trip lemmas -/

theorem startsWithGo_slash (s : String) :
    startsWithGo s "/" = true ↔ ∃ t, s.data = '/' :: t := by
  rw [startsWithGo, List.isPrefixOf_iff_prefix]
  constructor
  · rintro ⟨t, ht⟩
    exact ⟨t, by simpa using ht.symm⟩
  · rintro ⟨t, ht⟩
    exact ⟨t, by simp [ht]⟩

theorem startsWithGo_doubleslash (s : String) :
    startsWithGo s "//" = true ↔ ∃ t, s.data = '/' :: '/' :: t := by
  rw [startsWithGo, List.isPrefixOf_iff_prefix]
  constructor
  · rintro ⟨t, ht⟩
    exact ⟨t, by simpa using ht.symm⟩
  · rintro ⟨t, ht⟩
    exact ⟨t, by simp [ht]⟩

theorem startsWithGo_of_data_prefix (s p : String) (t : List Char)
    (h : s.data = p.data ++ t) : startsWithGo s p = true := by
  rw [startsWithGo, List.isPrefixOf_iff_prefix]
  exact ⟨t, h.symm⟩

theorem not_mem_of_noChar {s : String} {c : Char} (h : noChar s c = true) :
    ¬ c ∈ s.data := by
  intro hm
  have h2 := of_decide_eq_true h
  exact h2 (by simpa using hm)

theorem getScheme_no (l : List Char)
    (h : l = [] ∨ ∃ c rest, l = c :: rest ∧ isSchemeChar c = false ∧ ¬c = ':') :
    getScheme l = some ("", l) := by
  rcases h with rfl | ⟨c, rest, rfl, hc, hcc⟩
  · rfl
  · rw [getScheme]
    have htw : (c :: rest).takeWhile isSchemeChar = [] := by
      simp [List.takeWhile_cons, hc]
    simp only [htw, List.length_nil, List.drop_zero]
    split
    · next heq => exact absurd (List.cons.inj heq).1 hcc
    · rfl

theorem urlParse_rel_core_noq (pd : List Char)
    (hpd : pd = [] ∨ ∃ t, pd = '/' :: t)
    (hpp : ∀ t, pd ≠ '/' :: '/' :: t)
    (h1 : ¬ '?' ∈ pd) (h2 : ¬ '#' ∈ pd) :
    urlParse ⟨pd⟩ =
      some { scheme := "", opaquePart := "", host := "", path := ⟨pd⟩,
             rawQuery := "", fragment := "" } := by
  have hq1 : pd.contains '?' = false :=
    contains_false_of_forall (fun x hx hxc => h1 (hxc ▸ hx))
  have hhash : pd.contains '#' = false :=
    contains_false_of_forall (fun x hx hxc => h2 (hxc ▸ hx))
  have hdata : (⟨pd⟩ : String).data = pd := rfl
  rw [urlParse, hdata, cutAtChar_not_contains '#' _ hhash]
  try dsimp only
  rcases hpd with rfl | ⟨t, rfl⟩
  · rfl
  · rw [getScheme_no ('/' :: t) (Or.inr ⟨'/', t, rfl, by decide, by decide⟩)]
    simp only [Option.bind_eq_bind, Option.some_bind]
    rw [cutAtChar_not_contains '?' ('/' :: t) hq1]
    try dsimp only
    have htake : ¬(('/' :: t).take 2 = ['/', '/']) := by
      cases t with
      | nil => decide
      | cons c t2 =>
        intro hcontra
        have hcontra2 : ['/', c] = ['/', '/'] := hcontra
        exact hpp t2 (by rw [(List.cons.inj (List.cons.inj hcontra2).2).1])
    rw [if_neg htake, if_neg (by simp)]
    rfl

theorem urlParse_rel_core_q (pd qd : List Char)
    (hpd : pd = [] ∨ ∃ t, pd = '/' :: t)
    (hpp : ∀ t, pd ≠ '/' :: '/' :: t)
    (h1 : ¬ '?' ∈ pd) (h2 : ¬ '#' ∈ pd) (h3 : ¬ '#' ∈ qd) :
    urlParse ⟨pd ++ '?' :: qd⟩ =
      some { scheme := "", opaquePart := "", host := "", path := ⟨pd⟩,
             rawQuery := ⟨qd⟩, fragment := "" } := by
  have hq1 : pd.contains '?' = false :=
    contains_false_of_forall (fun x hx hxc => h1 (hxc ▸ hx))
  have hhash : (pd ++ '?' :: qd).contains '#' = false := by
    apply contains_false_of_forall
    intro x hx hxc
    subst hxc
    rcases List.mem_append.mp hx with hm | hm
    · exact h2 hm
    · rcases List.mem_cons.mp hm with hh | hh
      · cases hh
      · exact h3 hh
  have hdata : (⟨pd ++ '?' :: qd⟩ : String).data = pd ++ '?' :: qd := rfl
  rw [urlParse, hdata, cutAtChar_not_contains '#' _ hhash]
  try dsimp only
  rcases hpd with rfl | ⟨t, rfl⟩
  · rw [List.nil_append,
      getScheme_no ('?' :: qd) (Or.inr ⟨'?', qd, rfl, by decide, by decide⟩)]
    simp only [Option.bind_eq_bind, Option.some_bind]
    have hcut : cutAtChar '?' ([] ++ '?' :: qd) = ([], some qd) :=
      cutAtChar_append '?' [] qd rfl
    rw [List.nil_append] at hcut
    rw [hcut]
    try dsimp only
    rw [if_neg (by decide), if_neg (by simp)]
    rfl
  · have hl : ('/' :: t) ++ '?' :: qd = '/' :: (t ++ '?' :: qd) := rfl
    rw [hl, getScheme_no ('/' :: (t ++ '?' :: qd))
      (Or.inr ⟨'/', t ++ '?' :: qd, rfl, by decide, by decide⟩)]
    simp only [Option.bind_eq_bind, Option.some_bind]
    have hcut : cutAtChar '?' (('/' :: t) ++ '?' :: qd) = ('/' :: t, some qd) :=
      cutAtChar_append '?' ('/' :: t) qd hq1
    rw [hl] at hcut
    rw [hcut]
    try dsimp only
    have htake : ¬(('/' :: t).take 2 = ['/', '/']) := by
      cases t with
      | nil => decide
      | cons c t2 =>
        intro hcontra
        have hcontra2 : ['/', c] = ['/', '/'] := hcontra
        exact hpp t2 (by rw [(List.cons.inj (List.cons.inj hcontra2).2).1])
    rw [if_neg htake, if_neg (by simp)]
    rfl

theorem urlToString_rel_data (u : URL) (h : relURLOK u) :
    (urlToString u).data =
      u.path.data ++ (if u.rawQuery = "" then [] else '?' :: u.rawQuery.data) := by
  obtain ⟨sc, op, hostF, pa, q, fr⟩ := u
  obtain ⟨hs, hh, ho, hf, hp, hpp, hq1, hq2, hq3⟩ := h
  simp only at hs hh ho hf hp hpp hq1 hq2 hq3
  subst hs
  subst hh
  subst ho
  subst hf
  have hdot : ¬ ':' ∈ List.takeWhile (fun c => !decide (c = '/')) pa.data := by
    rcases hp with hp | hp
    · rw [hp]
      decide
    · obtain ⟨t, ht⟩ := (startsWithGo_slash pa).mp hp
      rw [ht]
      simp [List.takeWhile_cons]
  by_cases hq : q = ""
  · subst hq
    simp [urlToString, hdot, String.data_append]
  · simp [urlToString, hdot, hq, String.data_append]

theorem urlParse_rel (u : URL) (h : relURLOK u) :
    urlParse (urlToString u) = some u := by
  have hstr : urlToString u =
      ⟨u.path.data ++ (if u.rawQuery = "" then [] else '?' :: u.rawQuery.data)⟩ :=
    congrArg String.mk (urlToString_rel_data u h)
  have hpd : u.path.data = [] ∨ ∃ t, u.path.data = '/' :: t := by
    rcases h.2.2.2.2.1 with h5 | h5
    · exact Or.inl (by rw [h5])
    · exact Or.inr ((startsWithGo_slash u.path).mp h5)
  have hpp2 : ∀ t, u.path.data ≠ '/' :: '/' :: t := by
    intro t hcontra
    exact h.2.2.2.2.2.1 ((startsWithGo_doubleslash u.path).mpr ⟨t, hcontra⟩)
  have hq1 := not_mem_of_noChar h.2.2.2.2.2.2.1
  have hq2 := not_mem_of_noChar h.2.2.2.2.2.2.2.1
  have hq3 := not_mem_of_noChar h.2.2.2.2.2.2.2.2
  obtain ⟨sc, op, hostF, pa, q, fr⟩ := u
  obtain ⟨hs, hh, ho, hf, _, _, _, _, _⟩ := h
  simp only at hs hh ho hf hpd hpp2 hq1 hq2 hq3 hstr
  subst hs
  subst hh
  subst ho
  subst hf
  rw [hstr]
  by_cases hq : q = ""
  · rw [if_pos hq, List.append_nil] at hstr ⊢
    rw [urlParse_rel_core_noq pa.data hpd hpp2 hq1 hq2]
    rw [hq]
  · rw [if_neg hq]
    rw [urlParse_rel_core_q pa.data q.data hpd hpp2 hq1 hq2 hq3]

/-! ### `generateProxyPath` lemmas -/

theorem trimSuffix_slash_self_or (pp : String) :
    pp.data = (trimSuffix pp "/").data ∨
      pp.data = (trimSuffix pp "/").data ++ ['/'] := by
  rw [trimSuffix]
  split
  · next hcond =>
    right
    have hsuf := hcond.2
    rw [endsWithGo, List.isSuffixOf_iff_suffix] at hsuf
    obtain ⟨pre, hpre⟩ := hsuf
    have hpre2 : pp.data = pre ++ ['/'] := by
      simpa using hpre.symm
    have hlen : pp.data.length - ("/" : String).data.length = pre.length := by
      rw [hpre2]
      simp
    show pp.data = pp.data.take (pp.data.length - ("/" : String).data.length) ++ ['/']
    rw [hlen, hpre2, List.take_left]
  · next => exact Or.inl rfl

theorem trimSuffix_slash_shape (pp : String)
    (h : pp = "" ∨
      (startsWithGo pp "/" = true ∧ ¬startsWithGo pp "//" = true)) :
    (trimSuffix pp "/").data = [] ∨
      ∃ x xs, (trimSuffix pp "/").data = '/' :: x :: xs ∧ ¬x = '/' := by
  rcases h with rfl | ⟨h1, h2⟩
  · left
    decide
  · obtain ⟨t, ht⟩ := (startsWithGo_slash pp).mp h1
    have ht2 : ∀ ys, t ≠ '/' :: ys := fun ys hcontra =>
      h2 ((startsWithGo_doubleslash pp).mpr ⟨ys, by rw [ht, hcontra]⟩)
    rcases trimSuffix_slash_self_or pp with heq | heq
    · -- trimmed = pp itself
      cases t with
      | nil =>
        -- pp = "/" : the untrimmed branch is impossible, and the trimmed
        -- result is empty
        left
        have hd : pp.data = ['/'] := ht
        rw [trimSuffix]
        split
        · next hcond =>
          have htk : pp.data.take (pp.data.length - ("/" : String).data.length)
              = [] := by
            rw [hd]
            decide
          exact htk
        · next hcond =>
          exfalso
          apply hcond
          refine ⟨by decide, ?_⟩
          rw [endsWithGo, List.isSuffixOf_iff_suffix, hd]
      | cons y ys =>
        right
        refine ⟨y, ys, ?_, ?_⟩
        · rw [← heq, ht]
        · intro hcontra
          exact ht2 ys (by rw [hcontra])
    · -- pp = trimmed ++ "/"
      rcases hP : (trimSuffix pp "/").data with _ | ⟨p0, ps⟩
      · exact Or.inl rfl
      · right
        rw [hP] at heq
        have hp0 : p0 = '/' := by
          have h3 : '/' :: t = p0 :: (ps ++ ['/']) := by
            rw [← ht, heq]
            simp
          exact ((List.cons.inj h3).1).symm
        cases ps with
        | nil =>
          exfalso
          have h3 : '/' :: t = p0 :: ['/'] := by
            rw [← ht, heq]
            rfl
          have h4 : t = ['/'] := (List.cons.inj h3).2
          exact ht2 [] (by rw [h4])
        | cons y ys =>
          refine ⟨y, ys, by rw [hp0], ?_⟩
          intro hcontra
          have h3 : '/' :: t = p0 :: y :: ys ++ ['/'] := by
            rw [← ht, heq]
          have h4 : t = y :: (ys ++ ['/']) := by
            simpa using (List.cons.inj h3).2
          exact ht2 (ys ++ ['/']) (by rw [h4, hcontra])

theorem mem_trimSuffix_sub {pp : String} {x : Char}
    (h : x ∈ (trimSuffix pp "/").data) : x ∈ pp.data := by
  rcases trimSuffix_slash_self_or pp with heq | heq
  · rw [heq]
    exact h
  · rw [heq]
    exact List.mem_append.mpr (Or.inl h)

theorem generateProxyPathURL_default (proxyURL targetURL : URL) (token : String)
    (htok : ¬token = "") (hstart : startsWithGo targetURL.path "/" = true) :
    generateProxyPathURL proxyURL defaultProcessorOptions targetURL token =
      { scheme := "", opaquePart := "", host := "", fragment := "",
        path := trimSuffix proxyURL.path "/" ++ targetURL.path,
        rawQuery :=
          if targetURL.rawQuery = "" then
            queryEscape "token" ++ "=" ++ queryEscape token
          else
            queryEscape "token" ++ "=" ++ queryEscape token ++ "&" ++
              targetURL.rawQuery } := by
  have hq0 : valuesEncode (valuesSet (parseQuery "") "token" token) =
      queryEscape "token" ++ "=" ++ queryEscape token := rfl
  have henc : ¬(queryEscape "token" ++ "=" ++ queryEscape token) = "" := by
    intro hcontra
    have h2 := congrArg String.data hcontra
    simp [String.data_append] at h2
  rw [generateProxyPathURL]
  dsimp only [emptyURL, defaultProcessorOptions]
  rw [if_pos (show ("token" : String) ≠ "" ∧ ¬token = "" from ⟨by decide, htok⟩)]
  try dsimp only
  rw [if_neg (show ¬(false = true) by decide)]
  try dsimp only
  rw [if_neg (show ¬¬startsWithGo targetURL.path "/" = true from fun hc => hc hstart)]
  try dsimp only
  rw [hq0]
  by_cases htq : targetURL.rawQuery = ""
  · rw [if_neg (show ¬¬targetURL.rawQuery = "" from fun hc => hc htq), if_pos htq]
  · rw [if_pos (show ¬targetURL.rawQuery = "" from htq)]
    try dsimp only
    rw [if_pos (show ¬(queryEscape "token" ++ "=" ++ queryEscape token) = ""
      from henc)]
    rw [if_neg htq]

theorem noChar_iff (s : String) (c : Char) : noChar s c = true ↔ ¬ c ∈ s.data := by
  constructor
  · exact fun h => not_mem_of_noChar h
  · intro h
    apply decide_eq_true
    intro hc
    exact h (by simpa using hc)

theorem string_ne_empty_of_data (s : String) (a : List Char) (c : Char)
    (b : List Char) (h : s.data = a ++ c :: b) : ¬s = "" := by
  intro hcontra
  rw [hcontra] at h
  have h2 : ([] : List Char) = a ++ c :: b := h
  simp at h2

theorem tokenEnc_data (token : String) :
    (queryEscape "token" ++ "=" ++ queryEscape token).data
      = (queryEscape "token").data ++ '=' :: (queryEscape token).data := by
  simp [String.data_append]

theorem tokenEnc_no_amp (token : String) :
    ((queryEscape "token").data ++ '=' :: (queryEscape token).data).contains '&'
      = false := by
  apply contains_false_of_forall
  intro x hx hxc
  subst hxc
  rcases List.mem_append.mp hx with h1 | h1
  · exact queryEscape_no_amp "token" (by simpa using h1)
  · rcases List.mem_cons.mp h1 with h2 | h2
    · cases h2
    · exact queryEscape_no_amp token (by simpa using h2)

theorem tokenEnc_step (token : String) (htokb : byteString token = true) :
    parseQueryStep []
        ((queryEscape "token").data ++ '=' :: (queryEscape token).data)
      = [("token", [token])] := by
  rw [parseQueryStep_escaped [] "token" token (by decide) htokb]
  rfl

theorem tokenQuery_get (token tq : String) (htokb : byteString token = true) :
    valuesGet (parseQuery (if tq = "" then
        queryEscape "token" ++ "=" ++ queryEscape token
      else
        queryEscape "token" ++ "=" ++ queryEscape token ++ "&" ++ tq)) "token"
      = token := by
  by_cases htq : tq = ""
  · rw [if_pos htq]
    rw [parseQuery,
      if_neg (string_ne_empty_of_data _ (queryEscape "token").data '='
        (queryEscape token).data (tokenEnc_data token))]
    rw [tokenEnc_data token, splitOnChar_no_sep '&' _ (tokenEnc_no_amp token)]
    rw [parseQueryList_eq_foldl, List.foldl_cons, List.foldl_nil,
      tokenEnc_step token htokb]
    rw [valuesGet, List.find?_cons_of_pos _ (by simp)]
  · rw [if_neg htq]
    have hdata2 : (queryEscape "token" ++ "=" ++ queryEscape token ++ "&" ++ tq).data
        = ((queryEscape "token").data ++ '=' :: (queryEscape token).data)
            ++ '&' :: tq.data := by
      simp [String.data_append]
    rw [parseQuery,
      if_neg (string_ne_empty_of_data _
        ((queryEscape "token").data ++ '=' :: (queryEscape token).data) '&'
        tq.data hdata2)]
    rw [hdata2, splitOnChar_sep '&' _ _ (tokenEnc_no_amp token)]
    rw [parseQueryList_eq_foldl, List.foldl_cons, tokenEnc_step token htokb]
    obtain ⟨vs2, hfind⟩ := foldl_parseQueryStep_head (splitOnChar '&' tq.data)
      [("token", [token])] "token" token []
      (List.find?_cons_of_pos _ (by simp))
    rw [valuesGet, hfind]

theorem generateProxyPath_props (proxyURL targetURL : URL) (token : String)
    (htok : ¬token = "") (htokb : byteString token = true)
    (hpp : proxyURL.path = "" ∨
      (startsWithGo proxyURL.path "/" = true ∧
        ¬startsWithGo proxyURL.path "//" = true))
    (hpq : noChar proxyURL.path '?' = true)
    (hph : noChar proxyURL.path '#' = true)
    (ht : targetRelOK targetURL) :
    proxyRelativeTo proxyURL
      (generateProxyPath proxyURL defaultProcessorOptions targetURL token)
      token := by
  obtain ⟨ht1, ht2, ht3, ht4, ht5⟩ := ht
  obtain ⟨tg, htga⟩ := (startsWithGo_slash targetURL.path).mp ht1
  have hPshape := trimSuffix_slash_shape proxyURL.path hpp
  have hpathdata : (trimSuffix proxyURL.path "/" ++ targetURL.path).data
      = (trimSuffix proxyURL.path "/").data ++ targetURL.path.data := by
    simp [String.data_append]
  have hpath1 : startsWithGo (trimSuffix proxyURL.path "/" ++ targetURL.path) "/"
      = true := by
    apply (startsWithGo_slash _).mpr
    rcases hPshape with hsh | ⟨x, xs, hsh, hx⟩
    · exact ⟨tg, by rw [hpathdata, hsh, htga]; simp⟩
    · exact ⟨x :: (xs ++ targetURL.path.data), by rw [hpathdata, hsh]; simp⟩
  have hpath2 : ¬startsWithGo (trimSuffix proxyURL.path "/" ++ targetURL.path) "//"
      = true := by
    intro hcontra
    obtain ⟨t2, hcc⟩ := (startsWithGo_doubleslash _).mp hcontra
    rw [hpathdata] at hcc
    rcases hPshape with hsh | ⟨x, xs, hsh, hx⟩
    · rw [hsh, List.nil_append] at hcc
      exact ht2 ((startsWithGo_doubleslash _).mpr ⟨t2, hcc⟩)
    · rw [hsh] at hcc
      have h3 : '/' :: (x :: (xs ++ targetURL.path.data)) = '/' :: '/' :: t2 := by
        simpa using hcc
      exact hx (List.cons.inj (List.cons.inj h3).2).1
  have hpath3 : noChar (trimSuffix proxyURL.path "/" ++ targetURL.path) '?'
      = true := by
    apply (noChar_iff _ _).mpr
    intro hm
    rw [hpathdata] at hm
    rcases List.mem_append.mp hm with hm | hm
    · exact not_mem_of_noChar hpq (mem_trimSuffix_sub hm)
    · exact not_mem_of_noChar ht3 hm
  have hpath4 : noChar (trimSuffix proxyURL.path "/" ++ targetURL.path) '#'
      = true := by
    apply (noChar_iff _ _).mpr
    intro hm
    rw [hpathdata] at hm
    rcases List.mem_append.mp hm with hm | hm
    · exact not_mem_of_noChar hph (mem_trimSuffix_sub hm)
    · exact not_mem_of_noChar ht4 hm
  have hquery : noChar (if targetURL.rawQuery = "" then
      queryEscape "token" ++ "=" ++ queryEscape token
    else
      queryEscape "token" ++ "=" ++ queryEscape token ++ "&" ++
        targetURL.rawQuery) '#' = true := by
    apply (noChar_iff _ _).mpr
    intro hm
    split at hm
    · rw [tokenEnc_data token] at hm
      rcases List.mem_append.mp hm with h1 | h1
      · exact queryEscape_no_hash "token" (by simpa using h1)
      · rcases List.mem_cons.mp h1 with h2 | h2
        · cases h2
        · exact queryEscape_no_hash token (by simpa using h2)
    · have hdata2 : (queryEscape "token" ++ "=" ++ queryEscape token ++ "&" ++
          targetURL.rawQuery).data
          = ((queryEscape "token").data ++ '=' :: (queryEscape token).data)
              ++ '&' :: targetURL.rawQuery.data := by
        simp [String.data_append]
      rw [hdata2] at hm
      rcases List.mem_append.mp hm with h1 | h1
      · rcases List.mem_append.mp h1 with h2 | h2
        · exact queryEscape_no_hash "token" (by simpa using h2)
        · rcases List.mem_cons.mp h2 with h3 | h3
          · cases h3
          · exact queryEscape_no_hash token (by simpa using h3)
      · rcases List.mem_cons.mp h1 with h2 | h2
        · cases h2
        · exact not_mem_of_noChar ht5 h2
  have hrel : relURLOK
      { scheme := "", opaquePart := "", host := "", fragment := "",
        path := trimSuffix proxyURL.path "/" ++ targetURL.path,
        rawQuery :=
          if targetURL.rawQuery = "" then
            queryEscape "token" ++ "=" ++ queryEscape token
          else
            queryEscape "token" ++ "=" ++ queryEscape token ++ "&" ++
              targetURL.rawQuery } :=
    ⟨rfl, rfl, rfl, rfl, Or.inr hpath1, hpath2, hpath3, hpath4, hquery⟩
  have hparse := urlParse_rel _ hrel
  rw [generateProxyPath,
    generateProxyPathURL_default proxyURL targetURL token htok ht1]
  unfold proxyRelativeTo
  refine ⟨?_, ?_, ?_, ?_⟩
  · rw [uriScheme, hparse]
    rfl
  · rw [uriHost, hparse]
    rfl
  · rw [uriPath, hparse]
    show startsWithGo (trimSuffix proxyURL.path "/" ++ targetURL.path)
      proxyURL.path = true
    rcases trimSuffix_slash_self_or proxyURL.path with hself | hself
    · exact startsWithGo_of_data_prefix _ _ targetURL.path.data
        (by rw [hpathdata, hself])
    · apply startsWithGo_of_data_prefix _ _ tg
      rw [hpathdata, htga, hself]
      simp
  · rw [uriQueryGet, uriQuery, hparse]
    show valuesGet (parseQuery (if targetURL.rawQuery = "" then
        queryEscape "token" ++ "=" ++ queryEscape token
      else
        queryEscape "token" ++ "=" ++ queryEscape token ++ "&" ++
          targetURL.rawQuery)) "token" = token
    exact tokenQuery_get token targetURL.rawQuery htokb

/-! ### `exceptMap` and `masterProcess` plumbing -/

theorem exceptMap_cons {β ε : Type} (f : β → Except ε β) (x : β) (rest : List β) :
    exceptMap f (x :: rest) =
      match f x, exceptMap f rest with
      | .ok y, .ok ys => .ok (y :: ys)
      | .error e, _ => .error e
      | .ok _, .error e => .error e := by
  rw [exceptMap]
  cases f x <;> cases exceptMap f rest <;> rfl

theorem exceptMap_ok_getElem? {β ε : Type} (f : β → Except ε β) :
    ∀ (l l' : List β), exceptMap f l = .ok l' →
      ∀ (i : Nat) (y : β), l'[i]? = some y →
        ∃ x, l[i]? = some x ∧ f x = .ok y := by
  intro l
  induction l with
  | nil =>
    intro l' h i y hy
    have h2 : (Except.ok [] : Except ε (List β)) = .ok l' := h
    obtain rfl := (Except.ok.inj h2).symm
    simp at hy
  | cons x rest ih =>
    intro l' h i y hy
    rw [exceptMap_cons] at h
    cases hfx : f x with
    | error e =>
      rw [hfx] at h
      exact absurd h (by simp)
    | ok y0 =>
      rw [hfx] at h
      cases hrest : exceptMap f rest with
      | error e =>
        rw [hrest] at h
        exact absurd h (by simp)
      | ok ys =>
        rw [hrest] at h
        have h2 : Except.ok (y0 :: ys) = (Except.ok l' : Except ε (List β)) := h
        obtain rfl := (Except.ok.inj h2)
        cases i with
        | zero =>
          have hy2 : y0 = y := by simpa using hy
          subst hy2
          exact ⟨x, by simp, hfx⟩
        | succ n =>
          have hy2 : ys[n]? = some y := by simpa using hy
          obtain ⟨x2, hx2, hfx2⟩ := ih ys hrest n y hy2
          exact ⟨x2, by simpa using hx2, hfx2⟩

theorem masterProcess_ok_parts (baseURL proxyURL : URL) (opts : ProcessorOptions)
    (p : Playlist) (token : String) (p' : Playlist)
    (hrw : masterProcess baseURL proxyURL opts p token = .ok p') :
    p.type = .master ∧
    ∃ variants iframes groups,
      exceptMap (fun v => processVariant baseURL proxyURL opts v token)
        p.master.variants = .ok variants ∧
      exceptMap (fun f => processIFrameStreamRewrite baseURL proxyURL opts f token)
        p.master.iFrameStreams = .ok iframes ∧
      exceptMap (fun kv => do
          let gs ← exceptMap
            (fun g => processMediaGroupRewrite baseURL proxyURL opts g token) kv.2
          .ok (kv.1, gs))
        p.master.mediaGroups = .ok groups ∧
      p' = { p with master := { p.master with
        variants := variants, iFrameStreams := iframes,
        mediaGroups := groups } } := by
  rw [masterProcess] at hrw
  by_cases hty : p.type ≠ PlaylistType.master
  · rw [if_pos hty] at hrw
    exact absurd hrw (by simp)
  · rw [if_neg hty] at hrw
    refine ⟨not_not.mp hty, ?_⟩
    cases h1 : exceptMap (fun v => processVariant baseURL proxyURL opts v token)
        p.master.variants with
    | error e =>
      rw [h1] at hrw
      exact absurd (show (Except.error e : Except RewriteErr Playlist) = .ok p'
        from hrw) (by simp)
    | ok variants =>
      rw [h1] at hrw
      cases h2 : exceptMap
          (fun f => processIFrameStreamRewrite baseURL proxyURL opts f token)
          p.master.iFrameStreams with
      | error e =>
        rw [h2] at hrw
        exact absurd (show (Except.error e : Except RewriteErr Playlist) = .ok p'
          from hrw) (by simp)
      | ok iframes =>
        rw [h2] at hrw
        cases h3 : exceptMap (fun kv => do
            let gs ← exceptMap
              (fun g => processMediaGroupRewrite baseURL proxyURL opts g token) kv.2
            .ok (kv.1, gs))
            p.master.mediaGroups with
        | error e =>
          rw [h3] at hrw
          exact absurd (show (Except.error e : Except RewriteErr Playlist) = .ok p'
            from hrw) (by simp)
        | ok groups =>
          rw [h3] at hrw
          refine ⟨variants, iframes, groups, rfl, rfl, rfl, ?_⟩
          exact (Except.ok.inj (show Except.ok ({ p with master := { p.master with
            variants := variants, iFrameStreams := iframes,
            mediaGroups := groups } }) = (Except.ok p' : Except RewriteErr Playlist)
            from hrw)).symm

theorem processVariant_ok_uri (baseURL proxyURL : URL) (opts : ProcessorOptions)
    (v : Variant) (token : String) (v' : Variant)
    (h : processVariant baseURL proxyURL opts v token = .ok v')
    (hne : ¬v.uri = "") (r : URL) (hr : resolveURL baseURL v.uri = some r) :
    v'.uri = generateProxyPath proxyURL opts r token := by
  rw [processVariant, if_neg hne, hr] at h
  have h2 : Except.ok ({ v with uri := generateProxyPath proxyURL opts r token })
      = (Except.ok v' : Except RewriteErr Variant) := h
  rw [← Except.ok.inj h2]

theorem processIFrame_ok_uri (baseURL proxyURL : URL) (opts : ProcessorOptions)
    (f : IFrameStream) (token : String) (f' : IFrameStream)
    (h : processIFrameStreamRewrite baseURL proxyURL opts f token = .ok f')
    (hne : ¬f.uri = "") (r : URL) (hr : resolveURL baseURL f.uri = some r) :
    f'.uri = generateProxyPath proxyURL opts r token := by
  rw [processIFrameStreamRewrite, if_neg hne, hr] at h
  have h2 : Except.ok ({ f with uri := generateProxyPath proxyURL opts r token })
      = (Except.ok f' : Except RewriteErr IFrameStream) := h
  rw [← Except.ok.inj h2]

theorem processMediaGroup_ok_uri (baseURL proxyURL : URL) (opts : ProcessorOptions)
    (g : MediaGroup) (token : String) (g' : MediaGroup)
    (h : processMediaGroupRewrite baseURL proxyURL opts g token = .ok g')
    (hne : ¬g.uri = "") (r : URL) (hr : resolveURL baseURL g.uri = some r) :
    g'.uri = generateProxyPath proxyURL opts r token := by
  rw [processMediaGroupRewrite, if_neg hne, hr] at h
  have h2 : Except.ok ({ g with uri := generateProxyPath proxyURL opts r token })
      = (Except.ok g' : Except RewriteErr MediaGroup) := h
  rw [← Except.ok.inj h2]

theorem processGroupKV_ok (baseURL proxyURL : URL) (opts : ProcessorOptions)
    (token : String) (kv kv' : String × List MediaGroup)
    (h : (do
        let gs ← exceptMap
          (fun g => processMediaGroupRewrite baseURL proxyURL opts g token) kv.2
        .ok (kv.1, gs)) = (Except.ok kv' : Except RewriteErr _)) :
    ∃ gs, exceptMap
        (fun g => processMediaGroupRewrite baseURL proxyURL opts g token) kv.2
        = .ok gs ∧ kv' = (kv.1, gs) := by
  cases hg : exceptMap
      (fun g => processMediaGroupRewrite baseURL proxyURL opts g token) kv.2 with
  | error e =>
    rw [hg] at h
    exact absurd (show (Except.error e :
      Except RewriteErr (String × List MediaGroup)) = .ok kv' from h) (by simp)
  | ok gs =>
    rw [hg] at h
    exact ⟨gs, rfl, (Except.ok.inj (show Except.ok (kv.1, gs)
      = (Except.ok kv' : Except RewriteErr (String × List MediaGroup))
      from h)).symm⟩

/-! ### Round-trip for absolute URLs (the media-playlist rewrite) -/

theorem string_data_ne_nil {s : String} (h : ¬s = "") : ¬s.data = [] :=
  fun hd => h (congrArg String.mk hd)

theorem urlToString_abs_data (u : URL) (h : absURLOK u) :
    (urlToString u).data =
      u.scheme.data ++ ':' :: '/' :: '/' ::
        (u.host.data ++ u.path.data ++
          (if u.rawQuery = "" then [] else '?' :: u.rawQuery.data)) := by
  obtain ⟨sc, op, hostF, pa, q, fr⟩ := u
  obtain ⟨h1, h2, h3, h4, h5, h6, h7, h8, h9, h10, h11, h12, h13, h14⟩ := h
  simp only at h1 h2 h3 h4 h5 h6 h7 h8 h9 h10 h11 h12 h13 h14
  subst h13
  subst h14
  have hpre : ¬(sc ++ ":") = "" :=
    string_ne_empty_of_data _ sc.data ':' [] (by simp [String.data_append])
  by_cases hq : q = "" <;> rcases h9 with hpa | hpa
  · subst hq
    subst hpa
    simp [urlToString, h1, hpre, String.data_append]
  · subst hq
    simp [urlToString, h1, hpa, hpre, String.data_append]
  · subst hpa
    simp [urlToString, h1, hq, hpre, String.data_append]
  · simp [urlToString, h1, hq, hpa, hpre, String.data_append]

theorem getScheme_of_scheme (sc : String) (rest : List Char)
    (h1 : ¬sc = "") (h2 : isAlphaChar (sc.data.headD ' ') = true)
    (h3 : sc.data.all isSchemeChar = true)
    (h4 : sc.data.map Char.toLower = sc.data) :
    getScheme (sc.data ++ ':' :: rest) = some (sc, rest) := by
  rw [getScheme]
  have hcolon : isSchemeChar ':' = false := by decide
  have hts : (sc.data ++ ':' :: rest).takeWhile isSchemeChar = sc.data := by
    rw [takeWhile_all_append isSchemeChar sc.data (':' :: rest)
      (fun x hx => List.all_eq_true.mp h3 x hx)]
    simp [List.takeWhile_cons, hcolon]
  simp only [hts, List.drop_left]
  rw [if_neg (string_data_ne_nil h1), if_pos h2, h4]

theorem urlParse_abs (u : URL) (h : absURLOK u) :
    urlParse (urlToString u) = some u := by
  have hstr : urlToString u =
      ⟨u.scheme.data ++ ':' :: '/' :: '/' ::
        (u.host.data ++ u.path.data ++
          (if u.rawQuery = "" then [] else '?' :: u.rawQuery.data))⟩ :=
    congrArg String.mk (urlToString_abs_data u h)
  rw [hstr]
  obtain ⟨sc, op, hostF, pa, q, fr⟩ := u
  obtain ⟨h1, h2, h3, h4, h5, h6, h7, h8, h9, h10, h11, h12, h13, h14⟩ := h
  simp only at h1 h2 h3 h4 h5 h6 h7 h8 h9 h10 h11 h12 h13 h14
  subst h13
  subst h14
  have hschemehash : ∀ x ∈ sc.data, ¬x = '#' := by
    intro x hx hxc
    subst hxc
    have := List.all_eq_true.mp h3 '#' hx
    exact absurd this (by decide)
  have hhash : (sc.data ++ ':' :: '/' :: '/' ::
      (hostF.data ++ pa.data ++
        (if q = "" then [] else '?' :: q.data))).contains '#' = false := by
    apply contains_false_of_forall
    intro x hx hxc
    subst hxc
    rcases List.mem_append.mp hx with hm | hm
    · exact hschemehash '#' hm rfl
    · rcases List.mem_cons.mp hm with hm | hm
      · cases hm
      · rcases List.mem_cons.mp hm with hm | hm
        · cases hm
        · rcases List.mem_cons.mp hm with hm | hm
          · cases hm
          · rcases List.mem_append.mp hm with hm | hm
            · rcases List.mem_append.mp hm with hm | hm
              · exact not_mem_of_noChar h7 hm
              · exact not_mem_of_noChar h11 hm
            · split at hm
              · cases hm
              · rcases List.mem_cons.mp hm with hm | hm
                · cases hm
                · exact not_mem_of_noChar h12 hm
  have hdata : ((⟨sc.data ++ ':' :: '/' :: '/' ::
      (hostF.data ++ pa.data ++
        (if q = "" then [] else '?' :: q.data))⟩ : String)).data
      = sc.data ++ ':' :: '/' :: '/' ::
        (hostF.data ++ pa.data ++
          (if q = "" then [] else '?' :: q.data)) := rfl
  have hnq : ('/' :: '/' :: (hostF.data ++ pa.data)).contains '?' = false := by
    apply contains_false_of_forall
    intro x hx hxc
    subst hxc
    rcases List.mem_cons.mp hx with hm | hm
    · cases hm
    · rcases List.mem_cons.mp hm with hm | hm
      · cases hm
      · rcases List.mem_append.mp hm with hm | hm
        · exact not_mem_of_noChar h6 hm
        · exact not_mem_of_noChar h10 hm
  have htw : (hostF.data ++ pa.data).takeWhile (fun c => c ≠ '/')
      = hostF.data := by
    rw [takeWhile_all_append (fun c => c ≠ '/') hostF.data pa.data
      (fun x hx => by
        simp only [decide_eq_true_eq]
        intro hc
        subst hc
        exact not_mem_of_noChar h5 hx)]
    rcases h9 with hpa | hpa
    · subst hpa
      simp
    · obtain ⟨pt, hpt⟩ := (startsWithGo_slash pa).mp hpa
      rw [hpt]
      simp [List.takeWhile_cons]
  have hat : (hostF.data.reverse).contains '@' = false := by
    apply contains_false_of_forall
    intro x hx hxc
    subst hxc
    exact not_mem_of_noChar h8 (List.mem_reverse.mp hx)
  rw [urlParse, hdata, cutAtChar_not_contains '#' _ hhash]
  try dsimp only
  rw [getScheme_of_scheme sc ('/' :: '/' ::
    (hostF.data ++ pa.data ++ (if q = "" then [] else '?' :: q.data)))
    h1 h2 h3 h4]
  simp only [Option.bind_eq_bind, Option.some_bind]
  by_cases hq : q = ""
  · rw [if_pos hq]
    have happ : '/' :: '/' :: (hostF.data ++ pa.data ++ ([] : List Char))
        = '/' :: '/' :: (hostF.data ++ pa.data) := by
      simp
    rw [happ, cutAtChar_not_contains '?' _ (by
      apply contains_false_of_forall
      intro x hx hxc
      exact (not_mem_of_contains_false hnq) (hxc ▸ hx))]
    try dsimp only
    rw [if_pos (show List.take 2 ('/' :: '/' :: (hostF.data ++ pa.data))
      = ['/', '/'] from rfl)]
    rw [show List.drop 2 ('/' :: '/' :: (hostF.data ++ pa.data))
      = hostF.data ++ pa.data from rfl]
    rw [htw, List.drop_left, cutAtChar_not_contains '@' _ hat]
    try dsimp only
    rw [hq]
    rfl
  · rw [if_neg hq]
    have happ : '/' :: '/' :: (hostF.data ++ pa.data ++ '?' :: q.data)
        = ('/' :: '/' :: (hostF.data ++ pa.data)) ++ '?' :: q.data := by
      simp
    rw [happ, cutAtChar_append '?' _ _ hnq]
    try dsimp only
    rw [if_pos (show List.take 2 ('/' :: '/' :: (hostF.data ++ pa.data))
      = ['/', '/'] from rfl)]
    rw [show List.drop 2 ('/' :: '/' :: (hostF.data ++ pa.data))
      = hostF.data ++ pa.data from rfl]
    rw [htw, List.drop_left, cutAtChar_not_contains '@' _ hat]
    try dsimp only
    rfl

/-! ### Byte-string preservation through query decoding -/

theorem char_le_toNat {a b : Char} (h : a ≤ b) : a.toNat ≤ b.toNat := by
  rw [Char.le_def, UInt32.le_def] at h
  exact h

theorem char_toNat_ofNat (n : Nat) (h : n < 256) : (Char.ofNat n).toNat = n := by
  have hv : n.isValidChar := Or.inl (by omega)
  simp [Char.ofNat, dif_pos hv, Char.ofNatAux, Char.toNat, UInt32.toNat,
    BitVec.toNat_ofNatLt]

theorem hexCharVal_lt (c : Char) (v : Nat) (h : hexCharVal c = some v) :
    v < 16 := by
  rw [hexCharVal] at h
  split_ifs at h with hd1 hd2 hd3
  · obtain rfl := Option.some.inj h
    have h9 := char_le_toNat hd1.2
    have e9 : ('9' : Char).toNat = 57 := rfl
    have e0 : ('0' : Char).toNat = 48 := rfl
    omega
  · obtain rfl := Option.some.inj h
    have hf := char_le_toNat hd2.2
    have h0 := char_le_toNat hd2.1
    have ef : ('f' : Char).toNat = 102 := rfl
    have ea : ('a' : Char).toNat = 97 := rfl
    omega
  · obtain rfl := Option.some.inj h
    have hf := char_le_toNat hd3.2
    have h0 := char_le_toNat hd3.1
    have ef : ('F' : Char).toNat = 70 := rfl
    have ea : ('A' : Char).toNat = 65 := rfl
    omega

theorem queryUnescapeList_byteString :
    ∀ (n : Nat) (l t : List Char), l.length ≤ n →
      queryUnescapeList l = some t →
      (∀ c ∈ l, c.toNat < 256) → ∀ c ∈ t, c.toNat < 256 := by
  intro n
  induction n with
  | zero =>
    intro l t hlen h hb c hc
    have hl : l = [] := List.eq_nil_of_length_eq_zero (Nat.le_zero.mp hlen)
    subst hl
    have ht : t = [] := by
      have h2 : some ([] : List Char) = some t := h
      exact (Option.some.inj h2).symm
    subst ht
    cases hc
  | succ n ih =>
    intro l t hlen h hb c hc
    cases l with
    | nil =>
      have ht : t = [] := by
        have h2 : some ([] : List Char) = some t := h
        exact (Option.some.inj h2).symm
      subst ht
      cases hc
    | cons c0 rest =>
      by_cases hc1 : c0 = '%'
      · subst hc1
        cases rest with
        | nil => simp [queryUnescapeList] at h
        | cons a r2 =>
          cases r2 with
          | nil => simp [queryUnescapeList] at h
          | cons a2 r3 =>
            rw [queryUnescapeList] at h
            cases hv1 : hexCharVal a with
            | none => rw [hv1] at h; cases h
            | some v1 =>
              rw [hv1] at h
              cases hv2 : hexCharVal a2 with
              | none => rw [hv2] at h; cases h
              | some v2 =>
                rw [hv2] at h
                cases htl : queryUnescapeList r3 with
                | none => rw [htl] at h; cases h
                | some tail =>
                  rw [htl] at h
                  have h3 : some (Char.ofNat (v1 * 16 + v2) :: tail) = some t := h
                  obtain rfl := (Option.some.inj h3).symm
                  rcases List.mem_cons.mp hc with hcc | hcc
                  · subst hcc
                    have hb1 := hexCharVal_lt a v1 hv1
                    have hb2 := hexCharVal_lt a2 v2 hv2
                    rw [char_toNat_ofNat (v1 * 16 + v2) (by omega)]
                    omega
                  · refine ih r3 tail (by simp at hlen; omega) htl ?_ c hcc
                    intro x hx
                    exact hb x (by simp [hx])
      · by_cases hc2 : c0 = '+'
        · subst hc2
          rw [queryUnescapeList] at h
          cases htl : queryUnescapeList rest with
          | none => rw [htl] at h; cases h
          | some tail =>
            rw [htl] at h
            have h3 : some (' ' :: tail) = some t := h
            obtain rfl := (Option.some.inj h3).symm
            rcases List.mem_cons.mp hc with hcc | hcc
            · subst hcc
              decide
            · refine ih rest tail (by simp at hlen; omega) htl ?_ c hcc
              intro x hx
              exact hb x (by simp [hx])
        · rw [queryUnescapeList_cons_of_ne c0 hc1 hc2 rest] at h
          cases htl : queryUnescapeList rest with
          | none => rw [htl] at h; cases h
          | some tail =>
            rw [htl] at h
            have h3 : some (c0 :: tail) = some t := h
            obtain rfl := (Option.some.inj h3).symm
            rcases List.mem_cons.mp hc with hcc | hcc
            · subst hcc
              exact hb c (List.mem_cons_self c rest)
            · refine ih rest tail (by simp at hlen; omega) htl ?_ c hcc
              intro x hx
              exact hb x (by simp [hx])

theorem mem_of_mem_splitOnCharAux (c : Char) :
    ∀ (l acc seg : List Char), seg ∈ splitOnCharAux c l acc →
      ∀ x ∈ seg, x ∈ acc ∨ x ∈ l := by
  intro l
  induction l with
  | nil =>
    intro acc seg hseg x hx
    rw [splitOnCharAux] at hseg
    rw [List.mem_singleton.mp hseg] at hx
    exact Or.inl (List.mem_reverse.mp hx)
  | cons y rest ih =>
    intro acc seg hseg x hx
    rw [splitOnCharAux] at hseg
    by_cases hy : y = c
    · rw [if_pos hy] at hseg
      rcases List.mem_cons.mp hseg with h1 | h1
      · rw [h1] at hx
        exact Or.inl (List.mem_reverse.mp hx)
      · rcases ih [] seg h1 x hx with h2 | h2
        · cases h2
        · exact Or.inr (List.mem_cons_of_mem y h2)
    · rw [if_neg hy] at hseg
      rcases ih (y :: acc) seg hseg x hx with h2 | h2
      · rcases List.mem_cons.mp h2 with h3 | h3
        · exact Or.inr (h3 ▸ List.mem_cons_self y rest)
        · exact Or.inl h3
      · exact Or.inr (List.mem_cons_of_mem y h2)

theorem mem_of_splitOnChar (c : Char) (l seg : List Char)
    (hseg : seg ∈ splitOnChar c l) {x : Char} (hx : x ∈ seg) : x ∈ l := by
  rcases mem_of_mem_splitOnCharAux c l [] seg hseg x hx with h | h
  · cases h
  · exact h

theorem cutAtChar_fst (c : Char) (l : List Char) :
    (cutAtChar c l).1 = l.takeWhile (fun x => x ≠ c) := by
  rw [cutAtChar]
  cases hd : l.drop ((l.takeWhile (fun x => x ≠ c)).length) <;> rfl

theorem cutAtChar_fst_subset (c : Char) (l : List Char) :
    ∀ x ∈ (cutAtChar c l).1, x ∈ l := by
  intro x hx
  rw [cutAtChar_fst] at hx
  exact (List.takeWhile_prefix _).subset hx

theorem cutAtChar_snd_subset (c : Char) (l out : List Char)
    (h : (cutAtChar c l).2 = some out) : ∀ x ∈ out, x ∈ l := by
  rw [cutAtChar] at h
  cases hd : l.drop ((l.takeWhile (fun x => x ≠ c)).length) with
  | nil =>
    rw [hd] at h
    cases h
  | cons y after =>
    rw [hd] at h
    have h2 : some after = some out := h
    obtain rfl := (Option.some.inj h2).symm
    intro x hx
    exact List.mem_of_mem_drop (hd ▸ List.mem_cons_of_mem y hx)

theorem byteString_of_unescape (s k : String) (h : queryUnescape s = some k)
    (hs : ∀ x ∈ s.data, x.toNat < 256) : byteString k = true := by
  rw [queryUnescape] at h
  cases hql : queryUnescapeList s.data with
  | none =>
    rw [hql] at h
    cases h
  | some t =>
    rw [hql] at h
    have h2 : some (⟨t⟩ : String) = some k := h
    obtain rfl := (Option.some.inj h2).symm
    rw [byteString]
    apply List.all_eq_true.mpr
    intro x hx
    exact decide_eq_true
      (queryUnescapeList_byteString s.data.length s.data t (Nat.le_refl _)
        hql hs x hx)

theorem escPair_data (a b : String) :
    (queryEscape a ++ "=" ++ queryEscape b).data
      = (queryEscape a).data ++ '=' :: (queryEscape b).data := by
  simp [String.data_append]

theorem escPair_no_amp (a b : String) :
    ((queryEscape a).data ++ '=' :: (queryEscape b).data).contains '&'
      = false := by
  apply contains_false_of_forall
  intro x hx hxc
  subst hxc
  rcases List.mem_append.mp hx with h1 | h1
  · exact queryEscape_no_amp a (by simpa using h1)
  · rcases List.mem_cons.mp h1 with h2 | h2
    · cases h2
    · exact queryEscape_no_amp b (by simpa using h2)

theorem escPair_ne_empty (a b : String) :
    ¬(queryEscape a ++ "=" ++ queryEscape b) = "" :=
  string_ne_empty_of_data _ (queryEscape a).data '=' (queryEscape b).data
    (escPair_data a b)

/-! ### `Values.Encode` / `ParseQuery` round-trip on the watched key -/

theorem pairsOK_nil : pairsOK [] := ⟨by simp, List.Pairwise.nil⟩

theorem pairsOK_valuesAdd (m : List (String × List String)) (k v : String)
    (hm : pairsOK m) (hk : byteString k = true) (hv : byteString v = true) :
    pairsOK (valuesAdd m k v) := by
  obtain ⟨hvals, hpw⟩ := hm
  have hgkey : ∀ p : String × List String,
      ((fun p => if p.1 = k then (p.1, p.2 ++ [v]) else p) p).1 = p.1 := by
    intro p
    by_cases hc : p.1 = k <;> simp [hc]
  by_cases hany : m.any (fun p => p.1 = k) = true
  · rw [valuesAdd, if_pos hany]
    constructor
    · intro p hp
      obtain ⟨p0, hp0, hg⟩ := List.mem_map.mp hp
      obtain ⟨hb1, hb2, hb3⟩ := hvals p0 hp0
      by_cases hc : p0.1 = k
      · have hpe : p = (p0.1, p0.2 ++ [v]) := by
          rw [← hg, if_pos hc]
        subst hpe
        refine ⟨hb1, by simp, ?_⟩
        intro w hw
        rcases List.mem_append.mp hw with h1 | h1
        · exact hb3 w h1
        · rw [List.mem_singleton.mp h1]
          exact hv
      · have hpe : p = p0 := by
          rw [← hg, if_neg hc]
        subst hpe
        exact ⟨hb1, hb2, hb3⟩
    · exact List.Pairwise.map _ (fun a b hab => by
        rw [hgkey a, hgkey b]
        exact hab) hpw
  · rw [valuesAdd, if_neg hany]
    constructor
    · intro p hp
      rcases List.mem_append.mp hp with h1 | h1
      · exact hvals p h1
      · rw [List.mem_singleton.mp h1]
        refine ⟨hk, by simp, ?_⟩
        intro w hw
        rw [List.mem_singleton.mp hw]
        exact hv
    · rw [List.pairwise_append]
      refine ⟨hpw, List.pairwise_singleton _ _, ?_⟩
      intro a ha b hb
      rw [List.mem_singleton.mp hb]
      intro hak
      exact hany (List.any_eq_true.mpr ⟨a, ha, decide_eq_true hak⟩)

theorem pairsOK_valuesSet (m : List (String × List String)) (k v : String)
    (hm : pairsOK m) (hk : byteString k = true) (hv : byteString v = true) :
    pairsOK (valuesSet m k v) := by
  obtain ⟨hvals, hpw⟩ := hm
  have hgkey : ∀ p : String × List String,
      ((fun p => if p.1 = k then (p.1, [v]) else p) p).1 = p.1 := by
    intro p
    by_cases hc : p.1 = k <;> simp [hc]
  by_cases hany : m.any (fun p => p.1 = k) = true
  · rw [valuesSet, if_pos hany]
    constructor
    · intro p hp
      obtain ⟨p0, hp0, hg⟩ := List.mem_map.mp hp
      obtain ⟨hb1, hb2, hb3⟩ := hvals p0 hp0
      by_cases hc : p0.1 = k
      · have hpe : p = (p0.1, [v]) := by
          rw [← hg, if_pos hc]
        subst hpe
        refine ⟨hb1, by simp, ?_⟩
        intro w hw
        rw [List.mem_singleton.mp hw]
        exact hv
      · have hpe : p = p0 := by
          rw [← hg, if_neg hc]
        subst hpe
        exact ⟨hb1, hb2, hb3⟩
    · exact List.Pairwise.map _ (fun a b hab => by
        rw [hgkey a, hgkey b]
        exact hab) hpw
  · rw [valuesSet, if_neg hany]
    constructor
    · intro p hp
      rcases List.mem_append.mp hp with h1 | h1
      · exact hvals p h1
      · rw [List.mem_singleton.mp h1]
        refine ⟨hk, by simp, ?_⟩
        intro w hw
        rw [List.mem_singleton.mp hw]
        exact hv
    · rw [List.pairwise_append]
      refine ⟨hpw, List.pairwise_singleton _ _, ?_⟩
      intro a ha b hb
      rw [List.mem_singleton.mp hb]
      intro hak
      exact hany (List.any_eq_true.mpr ⟨a, ha, decide_eq_true hak⟩)

theorem foldl_parseQueryStep_pairsOK :
    ∀ (segs : List (List Char)) (m : List (String × List String)),
      pairsOK m → (∀ seg ∈ segs, ∀ x ∈ seg, x.toNat < 256) →
      pairsOK (segs.foldl parseQueryStep m) := by
  intro segs
  induction segs with
  | nil =>
    intro m hm _
    exact hm
  | cons seg rest ih =>
    intro m hm hbs
    rw [List.foldl_cons]
    have hstep : pairsOK (parseQueryStep m seg) := by
      rcases parseQueryStep_eq m seg with heq | ⟨key, value, heq, hkey, hval⟩
      · rw [heq]
        exact hm
      · rw [heq]
        have hsegb := hbs seg (List.mem_cons_self seg rest)
        have hkb : byteString key = true :=
          byteString_of_unescape _ _ hkey (fun x hx =>
            hsegb x (cutAtChar_fst_subset '=' seg x hx))
        have hvb : byteString value = true := by
          apply byteString_of_unescape _ _ hval
          intro x hx
          cases hsnd : (cutAtChar '=' seg).2 with
          | none =>
            rw [hsnd] at hx
            cases hx
          | some out =>
            rw [hsnd] at hx
            exact hsegb x (cutAtChar_snd_subset '=' seg out hsnd x hx)
        exact pairsOK_valuesAdd m key value hm hkb hvb
    exact ih _ hstep (fun s hs => hbs s (List.mem_cons_of_mem seg hs))

theorem parseQuery_pairsOK (s : String) (hs : byteString s = true) :
    pairsOK (parseQuery s) := by
  rw [parseQuery]
  split
  · exact pairsOK_nil
  · rw [parseQueryList_eq_foldl]
    apply foldl_parseQueryStep_pairsOK _ [] pairsOK_nil
    intro seg hseg x hx
    have hxin : x ∈ s.data := mem_of_splitOnChar '&' s.data seg hseg hx
    rw [byteString] at hs
    have := List.all_eq_true.mp hs x hxin
    simpa using this

theorem insertSortedKey_perm (x : String × List String) :
    ∀ l, List.Perm (insertSortedKey x l) (x :: l) := by
  intro l
  induction l with
  | nil => exact List.Perm.refl _
  | cons y rest ih =>
    rw [insertSortedKey]
    split
    · exact List.Perm.refl _
    · exact (ih.cons y).trans (List.Perm.swap x y rest)

theorem sortByKey_perm (m : List (String × List String)) :
    List.Perm (sortByKey m) m := by
  induction m with
  | nil => exact List.Perm.refl _
  | cons x rest ih =>
    have hfold : sortByKey (x :: rest) = insertSortedKey x (sortByKey rest) := rfl
    rw [hfold]
    exact (insertSortedKey_perm x (sortByKey rest)).trans (ih.cons x)

theorem splitOnChar_joinWith_amp2 (parts : List String) (hne : ¬parts = [])
    (h : ∀ p ∈ parts, p.data.contains '&' = false) :
    splitOnChar '&' (joinWith "&" parts).data = parts.map String.data := by
  cases parts with
  | nil => exact absurd rfl hne
  | cons x r => exact splitOnChar_joinWith_amp r x h

theorem joinWith_amp_ne_empty (parts : List String) (x : String) (hx : x ∈ parts)
    (a b : String) (hxe : x = queryEscape a ++ "=" ++ queryEscape b) :
    ¬joinWith "&" parts = "" := by
  cases parts with
  | nil => cases hx
  | cons y r =>
    cases r with
    | nil =>
      have hxy : x = y := List.mem_singleton.mp hx
      intro hcontra
      have hyd : joinWith "&" [y] = y := rfl
      rw [hyd] at hcontra
      exact escPair_ne_empty a b (by rw [← hxe, hxy, hcontra])
    | cons z r2 =>
      exact string_ne_empty_of_data _ y.data '&'
        (joinWith "&" (z :: r2)).data (by
          show (y ++ "&" ++ joinWith "&" (z :: r2)).data = _
          simp [String.data_append])

theorem flatMap_escPair_no_amp (entries : List (String × List String)) :
    ∀ p ∈ entries.flatMap (fun kv => kv.2.map
      (fun v => queryEscape kv.1 ++ "=" ++ queryEscape v)),
      p.data.contains '&' = false := by
  intro p hp
  obtain ⟨kv, hkv, hw⟩ := List.mem_flatMap.mp hp
  obtain ⟨w, hwm, hpe⟩ := List.mem_map.mp hw
  rw [← hpe, escPair_data]
  exact escPair_no_amp kv.1 w

theorem foldl_escPair_none (k : String) :
    ∀ (ws : List String) (a : String) (macc : List (String × List String)),
      ¬a = k → byteString a = true → (∀ w ∈ ws, byteString w = true) →
      macc.find? (fun p => p.1 = k) = none →
      (((ws.map (fun w => queryEscape a ++ "=" ++ queryEscape w)).map
        String.data).foldl parseQueryStep macc).find? (fun p => p.1 = k)
        = none := by
  intro ws
  induction ws with
  | nil =>
    intro a macc _ _ _ hnone
    exact hnone
  | cons w ws2 ih =>
    intro a macc hak hab hwb hnone
    rw [List.map_cons, List.map_cons, List.foldl_cons]
    rw [escPair_data,
      parseQueryStep_escaped macc a w hab (hwb w (List.mem_cons_self w ws2))]
    exact ih a _ hak hab (fun w2 hw2 => hwb w2 (List.mem_cons_of_mem w hw2))
      (find?_valuesAdd_none_ne macc k a w hak hnone)

theorem foldl_entries_none (k : String) :
    ∀ (entries : List (String × List String))
      (macc : List (String × List String)),
      (∀ p ∈ entries, byteString p.1 = true ∧
        (∀ w ∈ p.2, byteString w = true) ∧ ¬p.1 = k) →
      macc.find? (fun p => p.1 = k) = none →
      (((entries.flatMap (fun kv => kv.2.map
          (fun v => queryEscape kv.1 ++ "=" ++ queryEscape v))).map
        String.data).foldl parseQueryStep macc).find? (fun p => p.1 = k)
        = none := by
  intro entries
  induction entries with
  | nil =>
    intro macc _ hnone
    exact hnone
  | cons e rest ih =>
    intro macc hprops hnone
    rw [List.flatMap_cons, List.map_append, List.foldl_append]
    obtain ⟨hb1, hb2, hbk⟩ := hprops e (List.mem_cons_self e rest)
    exact ih _ (fun p hp => hprops p (List.mem_cons_of_mem e hp))
      (foldl_escPair_none k e.2 e.1 macc hbk hb1 hb2 hnone)

theorem valuesGet_parseQuery_valuesEncode (m : List (String × List String))
    (k v : String) (vs : List String) (hOK : pairsOK m)
    (hfind : m.find? (fun p => p.1 = k) = some (k, v :: vs)) :
    valuesGet (parseQuery (valuesEncode m)) k = v := by
  obtain ⟨hvals, hpw⟩ := hOK
  have hperm := sortByKey_perm m
  have hmem : (k, v :: vs) ∈ sortByKey m :=
    hperm.mem_iff.mpr (List.mem_of_find?_eq_some hfind)
  have hpw2 : List.Pairwise (fun a b => a.1 ≠ b.1) (sortByKey m) :=
    (hperm.pairwise_iff (fun h => Ne.symm h)).mpr hpw
  obtain ⟨pre, post, hsplit⟩ := List.append_of_mem hmem
  have hvalsS : ∀ p ∈ sortByKey m, byteString p.1 = true ∧ p.2 ≠ [] ∧
      ∀ w ∈ p.2, byteString w = true := fun p hp => hvals p (hperm.subset hp)
  have hkb : byteString k = true := (hvalsS (k, v :: vs) hmem).1
  have hvb : byteString v = true :=
    (hvalsS (k, v :: vs) hmem).2.2 v (List.mem_cons_self v vs)
  have hprekeys : ∀ p ∈ pre, ¬p.1 = k := by
    intro p hp hpk
    rw [hsplit] at hpw2
    exact (List.pairwise_append.mp hpw2).2.2 p hp (k, v :: vs)
      (List.mem_cons_self _ _) hpk
  have hpart1mem : (queryEscape k ++ "=" ++ queryEscape v) ∈
      (sortByKey m).flatMap (fun kv => kv.2.map
        (fun v => queryEscape kv.1 ++ "=" ++ queryEscape v)) :=
    List.mem_flatMap.mpr ⟨(k, v :: vs), hmem,
      List.mem_map.mpr ⟨v, List.mem_cons_self v vs, rfl⟩⟩
  rw [valuesEncode]
  rw [parseQuery, if_neg (joinWith_amp_ne_empty _ _ hpart1mem k v rfl)]
  rw [splitOnChar_joinWith_amp2 _
    (fun hcontra => by rw [hcontra] at hpart1mem; cases hpart1mem)
    (flatMap_escPair_no_amp _)]
  rw [parseQueryList_eq_foldl]
  rw [hsplit, List.flatMap_append, List.flatMap_cons]
  try dsimp only
  simp only [List.map_append, List.map_cons, List.foldl_append, List.foldl_cons]
  have h0 : (((pre.flatMap (fun kv => kv.2.map
      (fun v => queryEscape kv.1 ++ "=" ++ queryEscape v))).map
      String.data).foldl parseQueryStep []).find? (fun p => p.1 = k)
      = none := by
    apply foldl_entries_none k pre []
    · intro p hp
      have hmemS : p ∈ sortByKey m := by
        rw [hsplit]
        exact List.mem_append_left _ hp
      exact ⟨(hvalsS p hmemS).1, (hvalsS p hmemS).2.2, hprekeys p hp⟩
    · rfl
  rw [escPair_data, parseQueryStep_escaped _ k v hkb hvb]
  obtain ⟨vs2, hfind2⟩ := foldl_parseQueryStep_head
    (List.map String.data (List.map
      (fun v => queryEscape k ++ "=" ++ queryEscape v) vs)) _ k v []
    (find?_valuesAdd_none_self _ k v h0)
  obtain ⟨vs3, hfind3⟩ := foldl_parseQueryStep_head
    (List.map String.data (post.flatMap (fun kv => List.map
      (fun v => queryEscape kv.1 ++ "=" ++ queryEscape v) kv.2))) _ k v vs2
    hfind2
  rw [valuesGet, hfind3]

theorem mem_joinWith_amp (parts : List String) (x : Char)
    (hx : x ∈ (joinWith "&" parts).data) :
    x = '&' ∨ ∃ p ∈ parts, x ∈ p.data := by
  induction parts with
  | nil => cases hx
  | cons y r ih =>
    cases r with
    | nil => exact Or.inr ⟨y, List.mem_singleton.mpr rfl, hx⟩
    | cons z r2 =>
      have hd : (joinWith "&" (y :: z :: r2)).data
          = y.data ++ '&' :: (joinWith "&" (z :: r2)).data := by
        show (y ++ "&" ++ joinWith "&" (z :: r2)).data = _
        simp [String.data_append]
      rw [hd] at hx
      rcases List.mem_append.mp hx with h1 | h1
      · exact Or.inr ⟨y, List.mem_cons_self _ _, h1⟩
      · rcases List.mem_cons.mp h1 with h2 | h2
        · exact Or.inl h2
        · rcases ih h2 with ha | ⟨p, hp, hxp⟩
          · exact Or.inl ha
          · exact Or.inr ⟨p, List.mem_cons_of_mem y hp, hxp⟩

theorem valuesEncode_no_hash (m : List (String × List String)) :
    noChar (valuesEncode m) '#' = true := by
  apply (noChar_iff _ _).mpr
  intro hm
  rw [valuesEncode] at hm
  rcases mem_joinWith_amp _ '#' hm with h1 | ⟨p, hp, hxp⟩
  · exact absurd h1 (by decide)
  · obtain ⟨kv, hkv, hw⟩ := List.mem_flatMap.mp hp
    obtain ⟨w, hwm, hpe⟩ := List.mem_map.mp hw
    rw [← hpe, escPair_data] at hxp
    rcases List.mem_append.mp hxp with h2 | h2
    · exact queryEscape_no_hash kv.1 (by simpa using h2)
    · rcases List.mem_cons.mp h2 with h3 | h3
      · cases h3
      · exact queryEscape_no_hash w (by simpa using h3)

theorem except_map_ok {α β : Type} {e : Except RewriteErr α} {f : α → β} {y : β}
    (h : e.map f = .ok y) : ∃ x, e = .ok x ∧ y = f x := by
  cases e with
  | error err => exact absurd h (by simp [Except.map])
  | ok x =>
    exact ⟨x, rfl, (Except.ok.inj
      (show Except.ok (f x) = (Except.ok y : Except RewriteErr β) from h)).symm⟩

theorem addTokenToURL_props (targetURL : URL) (token : String)
    (htok : ¬token = "") (htokb : byteString token = true)
    (ho : originOK targetURL) :
    uriHost (addTokenToURL defaultProcessorOptions targetURL token)
      = targetURL.host ∧
    uriQueryGet (addTokenToURL defaultProcessorOptions targetURL token) "token"
      = token := by
  obtain ⟨habs, hqb⟩ := ho
  rw [addTokenToURL]
  rw [if_neg (show ¬(token = "" ∨ defaultProcessorOptions.tokenParamName = "")
    from fun hc => hc.elim htok (by decide))]
  have hOK : pairsOK (valuesSet (parseQuery targetURL.rawQuery)
      defaultProcessorOptions.tokenParamName token) :=
    pairsOK_valuesSet _ _ _ (parseQuery_pairsOK _ hqb) (by decide) htokb
  have hfindQ := find?_valuesSet_self (parseQuery targetURL.rawQuery)
    defaultProcessorOptions.tokenParamName token
  set Q : String := valuesEncode (valuesSet (parseQuery targetURL.rawQuery)
    defaultProcessorOptions.tokenParamName token) with hQ
  have habs' : absURLOK { targetURL with rawQuery := Q } := by
    obtain ⟨a1, a2, a3, a4, a5, a6, a7, a8, a9, a10, a11, a12, a13, a14⟩ := habs
    refine ⟨a1, a2, a3, a4, a5, a6, a7, a8, a9, a10, a11, ?_, a13, a14⟩
    rw [hQ]
    exact valuesEncode_no_hash _
  have hparse := urlParse_abs _ habs'
  constructor
  · rw [uriHost, hparse]
    rfl
  · rw [uriQueryGet, uriQuery, hparse]
    show valuesGet (parseQuery Q) "token" = token
    rw [hQ]
    exact valuesGet_parseQuery_valuesEncode _ "token" token [] hOK hfindQ

theorem processSegment_ok_uri (baseURL : URL) (opts : ProcessorOptions)
    (s : Segment) (token : String) (s' : Segment)
    (h : processSegment baseURL opts s token = .ok s')
    (hne : ¬s.uri = "") (r : URL) (hr : resolveURL baseURL s.uri = some r) :
    s'.uri = addTokenToURL opts r token := by
  obtain ⟨u0, d0, t0, b0, di0, pd0, key0, map0⟩ := s
  rw [processSegment, if_neg hne, hr] at h
  cases key0 with
  | none =>
    cases map0 with
    | none =>
      have h4 : Except.ok ({ uri := addTokenToURL opts r token, duration := d0, title := t0, byteRange := b0, discontinuity := di0, programDateTime := pd0, key := none, segMap := none } : Segment) = Except.ok s' := h
      rw [← Except.ok.inj h4]
    | some mp =>
      have h4 : (processMap baseURL opts mp token).map (fun mp2 => ({ uri := addTokenToURL opts r token, duration := d0, title := t0, byteRange := b0, discontinuity := di0, programDateTime := pd0, key := none, segMap := some mp2 } : Segment)) = Except.ok s' := h
      obtain ⟨mp2, hmp, hy⟩ := except_map_ok h4
      rw [hy]
  | some k =>
    have h2 : (Except.bind (Except.map (fun k2 => ({ uri := addTokenToURL opts r token, duration := d0, title := t0, byteRange := b0, discontinuity := di0, programDateTime := pd0, key := some k2, segMap := map0 } : Segment)) (processKey baseURL opts k token)) (fun s2 => match s2.segMap with | none => Except.ok s2 | some m => Except.map (fun m2 => { s2 with segMap := some m2 }) (processMap baseURL opts m token)) : Except RewriteErr Segment) = Except.ok s' := h
    cases hpk : processKey baseURL opts k token with
    | error e =>
      rw [hpk] at h2
      exact absurd (show (Except.error e : Except RewriteErr Segment)
        = .ok s' from h2) (by simp)
    | ok k2 =>
      rw [hpk] at h2
      cases map0 with
      | none =>
        have h4 : Except.ok ({ uri := addTokenToURL opts r token, duration := d0, title := t0, byteRange := b0, discontinuity := di0, programDateTime := pd0, key := some k2, segMap := none } : Segment) = Except.ok s' := h2
        rw [← Except.ok.inj h4]
      | some mp =>
        have h4 : Except.map (fun mp2 => ({ uri := addTokenToURL opts r token, duration := d0, title := t0, byteRange := b0, discontinuity := di0, programDateTime := pd0, key := some k2, segMap := some mp2 } : Segment)) (processMap baseURL opts mp token) = Except.ok s' := h2
        obtain ⟨mp2, hmp, hy⟩ := except_map_ok h4
        rw [hy]

theorem mediaProcess_ok_parts (baseURL : URL) (opts : ProcessorOptions)
    (p : Playlist) (token : String) (p' : Playlist)
    (hrw : mediaProcess baseURL opts p token = .ok p') :
    p.type = .media ∧
    ∃ segments,
      exceptMap (fun s => processSegment baseURL opts s token)
        p.media.segments = .ok segments ∧
      p' = { p with media := { p.media with segments := segments } } := by
  rw [mediaProcess] at hrw
  by_cases hty : p.type ≠ PlaylistType.media
  · rw [if_pos hty] at hrw
    exact absurd hrw (by simp)
  · rw [if_neg hty] at hrw
    refine ⟨not_not.mp hty, ?_⟩
    cases h1 : exceptMap (fun s => processSegment baseURL opts s token)
        p.media.segments with
    | error e =>
      rw [h1] at hrw
      exact absurd (show (Except.error e : Except RewriteErr Playlist)
        = .ok p' from hrw) (by simp)
    | ok segments =>
      rw [h1] at hrw
      exact ⟨segments, rfl, (Except.ok.inj (show Except.ok ({ p with
        media := { p.media with segments := segments } })
        = (Except.ok p' : Except RewriteErr Playlist) from hrw)).symm⟩

/-- C6, counterexample: a stream whose first line is blank and whose
first non-empty line is not `#EXTM3U` parses *successfully* — the header
check fires only at the literal first line, so it is skipped entirely
here, refuting the claim that such streams yield the missing-header
error. -/
theorem headerCheckSkippedCounterexample :
    trimSpace "" = "" ∧ "#EXT-X-TARGETDURATION:6" ≠ tagExtM3U ∧
    (parse ["", "#EXT-X-TARGETDURATION:6"]).toOption.isSome = true ∧
    ((parse ["", "#EXT-X-TARGETDURATION:6"]).toOption.map
      (fun p => p.media.targetDuration)) = some 6 := by
  refine ⟨by decide, by decide, by decide, by decide⟩

/-- C6, amended: the missing-header error is produced exactly when the
*first line itself* is non-blank and differs from `#EXTM3U`; a blank
first line skips the header check altogether (see the counterexample). -/
theorem headerErrorFirstLine (line : String) (rest : List String)
    (hne : trimSpace line ≠ "") (hhdr : line ≠ tagExtM3U) :
    parse (line :: rest) = .error ParseErr.header := by
  simp [parse, parseLoop, hne, hhdr]

theorem headerErrorFirstLineWitness :
    trimSpace "#WRONG" ≠ "" ∧ "#WRONG" ≠ tagExtM3U ∧
    parse ["#WRONG", "#EXTM3U"] = .error ParseErr.header :=
  ⟨by decide, by decide, headerErrorFirstLine "#WRONG" ["#EXTM3U"] (by decide) (by decide)⟩

/-- C7, counterexample: for the cache built with `MaxSize 1000` and
`ShardCount 8`, the key `"a"` is routed to shard 6, while the claim's
FNV-1a formula masked with `N − 1` gives shard 4 — the code multiplies
before XORing (FNV-1), not after (FNV-1a). -/
theorem fnv1aShardCounterexample :
    shardIndex (newMemoryWithOptions String { maxSize := 1000, shardSize := 8 }) "a" = 6 ∧
    fnv1aSpec "a" &&&
      ((newMemoryWithOptions String { maxSize := 1000, shardSize := 8 }).shards.length - 1) = 4 := by
  constructor <;> decide

/-- C7, amended: the shard index used by `Get`, `Set` and `Delete` is
the 32-bit FNV-**1** hash (multiply by 16777619, then XOR the byte)
masked with `N − 1`; moreover each of the three operations leaves every
other shard untouched. -/
theorem shardRoutingFNV1 (α : Type) (opts : MemoryOptions) (c : MemoryCache α)
    (key : String) (v : α) (ttl now : Int) (j : Nat)
    (hj : j ≠ shardIndex c key) :
    shardIndex (newMemoryWithOptions α opts) key =
      fnv1Spec key &&& ((newMemoryWithOptions α opts).shards.length - 1) ∧
    (cacheSet c key v ttl now).shards[j]? = c.shards[j]? ∧
    (cacheDelete c key).shards[j]? = c.shards[j]? ∧
    (cacheGet c key now).2.shards[j]? = c.shards[j]? := by
  refine ⟨?_, cacheSet_shards_ne c key v ttl now j hj,
    cacheDelete_shards_ne c key j hj, cacheGet_shards_ne c key now j hj⟩
  simp [shardIndex, newMemoryWithOptions, fnv32_eq_fnv1Spec]

theorem shardRoutingFNV1Witness :
    (1 : Nat) ≠ shardIndex (newMemoryWithOptions String { maxSize := 8, shardSize := 2 }) "a" ∧
    shardIndex (newMemoryWithOptions String { maxSize := 8, shardSize := 2 }) "a" =
      fnv1Spec "a" &&&
        ((newMemoryWithOptions String { maxSize := 8, shardSize := 2 }).shards.length - 1) :=
  ⟨by decide,
    (shardRoutingFNV1 String { maxSize := 8, shardSize := 2 }
      (newMemoryWithOptions String { maxSize := 8, shardSize := 2 }) "a" "v" 0 0 1
      (by decide)).1⟩

/-- C8, counterexample: with `MaxSize 1` and `ShardCount 2` the per-shard
capacity is floored at 100 (`1 / 2 = 0`), so two inserts leave two items
in the cache — the configured total capacity 1 is exceeded and stays
exceeded across further `Set` operations. -/
theorem capacityExceededCounterexample :
    effectiveMaxSize { maxSize := 1, shardSize := 2 } = 1 ∧
    cacheSize (runSets (newMemoryWithOptions String { maxSize := 1, shardSize := 2 })
      [("a", "x", 0, 0), ("b", "y", 0, 0)]) = 2 ∧
    cacheSize (runSets (newMemoryWithOptions String { maxSize := 1, shardSize := 2 })
      [("a", "x", 0, 0), ("b", "y", 0, 0), ("c", "z", 0, 0)]) = 3 := by
  refine ⟨by decide, by decide, by decide⟩

/-- C8, amended: after any sequence of `Set` operations, the total item
count is bounded by `N · max(⌊MaxSize/N⌋, or 100 when that quotient is
not positive)` — the per-shard capacity the constructor computes — not by
`MaxSize` itself. -/
theorem capacityBoundPerShard (α : Type) (opts : MemoryOptions)
    (ops : List (String × α × Int × Int)) :
    (cacheSize (runSets (newMemoryWithOptions α opts) ops) : Int) ≤
      (numShardsOf opts : Int) * itemsPerShardOf opts := by
  have hb := runSets_preserves_bound (itemsPerShardOf opts)
    (itemsPerShardOf_nonneg opts) ops (newMemoryWithOptions α opts)
    (newMemory_shard_bound opts)
  have hlen := runSets_shards_length ops (newMemoryWithOptions α opts)
  have hsum := @shards_sum_le α (itemsPerShardOf opts)
    (runSets (newMemoryWithOptions α opts) ops).shards (fun sh hm => (hb sh hm).1)
  have hnum : (newMemoryWithOptions α opts).shards.length = numShardsOf opts := by
    simp [newMemoryWithOptions]
  rw [hlen, hnum] at hsum
  simpa [cacheSize] using hsum


theorem evictIfNeededGo_eq_nil {α : Type} :
    ∀ (fuel : Nat) (l : List (CacheItem α)) (m : Int),
      evictIfNeededGo fuel l m = [] → l = [] ∨ m < 1 := by
  intro fuel
  induction fuel with
  | zero =>
    intro l m h
    exact Or.inl (by simpa [evictIfNeededGo] using h)
  | succ n ih =>
    intro l m h
    simp only [evictIfNeededGo] at h
    split at h
    · next hlen =>
      match l, hlen, h with
      | [], _, _ => exact Or.inl rfl
      | a :: rest, hlen, h =>
        rcases ih _ m h with hnil | hm
        · right
          have hr : rest = [] := by
            have h2 := congrArg List.length hnil
            simpa using h2
          subst hr
          simp at hlen
          omega
        · exact Or.inr hm
    · exact Or.inl h

theorem evictIfNeeded_head_stays {α : Type} (x : CacheItem α)
    (l : List (CacheItem α)) (m : Int) (hm : 1 ≤ m) :
    evictIfNeeded (x :: l) m ≠ [] := by
  intro h
  rcases evictIfNeededGo_eq_nil _ _ m h with hnil | hlt
  · exact List.cons_ne_nil x l hnil
  · omega

/-- C10: a `Set` with `ttl ≤ 0` (zero or negative, e.g. the negative TTL
a validated token produces when its remaining validity is under 30s)
stores the entry without expiry: after any further operations that do
not set or delete the key, either the key has been evicted by LRU, or
`Get` returns the stored value at *every* time instant. -/
theorem nonPositiveTTLNoExpiry (α : Type) (c : MemoryCache α) (k : String)
    (v : α) (ttl now0 : Int) (ops : List (CacheOp α))
    (httl : ttl ≤ 0)
    (hops : ∀ op ∈ ops, opWrites k op = false) :
    cacheLookup (runOps (cacheSet c k v ttl now0) ops) k = none ∨
    ∀ now : Int, (cacheGet (runOps (cacheSet c k v ttl now0) ops) k now).1 = some v := by
  have hinv := runOps_preserves_key k
    ({ key := k, value := v, expiry := 0, hasExpiry := false } : CacheItem α)
    rfl rfl ops (cacheSet c k v ttl now0) hops
    (cacheSet_establishes c k v ttl now0 httl)
  rcases hinv with hnone | hsome
  · exact Or.inl hnone
  · exact Or.inr (fun now => cacheGet_of_lookup_value _ k v hsome now)

theorem nonPositiveTTLNoExpiryWitness :
    ((-5 : Int) ≤ 0) ∧
    (∀ op ∈ ([CacheOp.set "other" "w" 7 0, CacheOp.get "k" 1000000] :
        List (CacheOp String)), opWrites "k" op = false) ∧
    (cacheLookup (runOps (cacheSet (newMemoryWithOptions String
        { maxSize := 10, shardSize := 1 }) "k" "v" (-5) 0)
        [CacheOp.set "other" "w" 7 0, CacheOp.get "k" 1000000]) "k" = none ∨
     ∀ now : Int, (cacheGet (runOps (cacheSet (newMemoryWithOptions String
        { maxSize := 10, shardSize := 1 }) "k" "v" (-5) 0)
        [CacheOp.set "other" "w" 7 0, CacheOp.get "k" 1000000]) "k" now).1 = some "v") :=
  ⟨by decide, by decide,
    nonPositiveTTLNoExpiry String (newMemoryWithOptions String { maxSize := 10, shardSize := 1 })
      "k" "v" (-5) 0 [CacheOp.set "other" "w" 7 0, CacheOp.get "k" 1000000]
      (by decide) (by decide)⟩

/-- C9, counterexample: a token whose `exp` equals the current second
still passes the validator's expiration check (`now > exp` is false) and
is cached — but with the full 5-minute ceiling TTL, not the claimed
`min(ceiling, exp − now − 30s)`, which would be −30s here. -/
theorem jwtTTLExpEqualsNowCounterexample :
    expCheckPasses ⟨"", "s", 1000, 0, 0, ""⟩ 1000 = true ∧
    addToCacheTTL validatorCacheTTL ⟨"", "s", 1000, 0, 0, ""⟩ 1000 = validatorCacheTTL ∧
    validatorCacheTTL ≠ min validatorCacheTTL ((1000 - 1000 - 30) * second) := by
  refine ⟨by decide, by decide, by decide⟩

/-- C9, amended: for every token whose `exp` claim is strictly in the
future at caching time, `addToCache` stores the decoded claims under
`jwt:token:<raw>` with TTL `min(ceiling, (exp − now − 30s))`; when `exp`
equals the current second, the ceiling alone is used (see the
counterexample). -/
theorem cacheLookup_after_set {α : Type} (c : MemoryCache α) (k : String) (v : α)
    (ttl now : Int) (sh : MemoryShard α)
    (h1 : c.shards[shardIndex c k]? = some sh) (hcap : 1 ≤ sh.maxSize) :
    cacheLookup (cacheSet c k v ttl now) k =
      some (if ttl > 0 then
        { key := k, value := v, expiry := now + ttl, hasExpiry := true }
        else { key := k, value := v, expiry := 0, hasExpiry := false }) := by
  cases h2 : shardFind sh k with
  | some it =>
    simp only [cacheSet, h1, h2]
    rw [cacheLookup_setShard c _ sh _ h1 k, if_pos rfl]
    simp only [shardFind]
    rw [List.find?_cons_of_pos _ (by split <;> simp)]
  | none =>
    simp only [cacheSet, h1, h2]
    rw [cacheLookup_setShard c _ sh _ h1 k, if_pos rfl]
    obtain ⟨rest, hres⟩ : ∃ rest,
        evictIfNeeded ((if ttl > 0 then
          ({ key := k, value := v, expiry := now + ttl, hasExpiry := true } : CacheItem α)
          else { key := k, value := v, expiry := 0, hasExpiry := false }) :: sh.lru)
          sh.maxSize =
        (if ttl > 0 then
          ({ key := k, value := v, expiry := now + ttl, hasExpiry := true } : CacheItem α)
          else { key := k, value := v, expiry := 0, hasExpiry := false }) :: rest := by
      have hpre := evictIfNeeded_isPrefix ((if ttl > 0 then
          ({ key := k, value := v, expiry := now + ttl, hasExpiry := true } : CacheItem α)
          else { key := k, value := v, expiry := 0, hasExpiry := false }) :: sh.lru)
        sh.maxSize
      rcases List.prefix_cons_iff.mp hpre with hnil | ⟨u, hcons, _⟩
      · exact absurd hnil (evictIfNeeded_head_stays _ _ _ hcap)
      · exact ⟨u, hcons⟩
    simp only [shardFind, hres]
    rw [List.find?_cons_of_pos _ (by split <;> simp)]

/-- C9, amended: for every token whose `exp` claim is strictly in the
future at caching time, `addToCache` stores the decoded claims under
`jwt:token:<raw>` with TTL `min(ceiling, (exp − now − 30s))`; when `exp`
equals the current second, the ceiling alone is used (see the
counterexample). -/
theorem jwtCacheKeyAndTTL (c : MemoryCache JWTClaims) (token : String)
    (claims : JWTClaims) (nowSec nowNs : Int)
    (hfresh : claims.expirationTime > nowSec)
    (hpos : claims.expirationTime > 0)
    (hcap : ∀ sh, c.shards[shardIndex c ("jwt:token:" ++ token)]? = some sh →
      1 ≤ sh.maxSize) :
    addToCacheTTL validatorCacheTTL claims nowSec =
      min validatorCacheTTL ((claims.expirationTime - nowSec - 30) * second) ∧
    (c.shards[shardIndex c ("jwt:token:" ++ token)]? = none ∨
     ∃ it : CacheItem JWTClaims,
      cacheLookup (addToCache c token claims nowSec nowNs) ("jwt:token:" ++ token) =
        some it ∧
      it.value = claims ∧
      (0 < addToCacheTTL validatorCacheTTL claims nowSec →
        it.hasExpiry = true ∧
        it.expiry = nowNs + addToCacheTTL validatorCacheTTL claims nowSec) ∧
      (addToCacheTTL validatorCacheTTL claims nowSec ≤ 0 →
        it.hasExpiry = false)) := by
  have httl : addToCacheTTL validatorCacheTTL claims nowSec =
      min validatorCacheTTL ((claims.expirationTime - nowSec - 30) * second) := by
    have hrem : remainingValidity claims nowSec = claims.expirationTime - nowSec := by
      rw [remainingValidity, if_neg (by omega), if_neg (by omega)]
    simp only [addToCacheTTL]
    rw [if_pos hpos, hrem, if_pos (by omega)]
    rw [Int.min_def]
    by_cases hc : (claims.expirationTime - nowSec - 30) * second < validatorCacheTTL
    · rw [if_pos hc, if_neg (by omega)]
    · rw [if_neg hc, if_pos (by omega)]
  refine ⟨httl, ?_⟩
  rw [addToCache]
  cases h1 : c.shards[shardIndex c ("jwt:token:" ++ token)]? with
  | none => exact Or.inl rfl
  | some sh =>
    right
    rw [cacheLookup_after_set c _ claims
      (addToCacheTTL validatorCacheTTL claims nowSec) nowNs sh h1 (hcap sh h1)]
    refine ⟨_, rfl, by split <;> rfl, ?_, ?_⟩
    · intro hp
      rw [if_pos hp]
      exact ⟨rfl, rfl⟩
    · intro hn
      rw [if_neg (by omega)]

theorem jwtCacheKeyAndTTLWitness :
    ((1000 : Int) > 900) ∧
    addToCacheTTL validatorCacheTTL ⟨"", "s", 1000, 0, 0, ""⟩ 900 =
      min validatorCacheTTL ((1000 - 900 - 30) * second) := by
  have hcap : ∀ sh, (newMemoryWithOptions JWTClaims
        { maxSize := 100, shardSize := 1 }).shards[shardIndex
          (newMemoryWithOptions JWTClaims { maxSize := 100, shardSize := 1 })
          ("jwt:token:" ++ "tok")]? = some sh → 1 ≤ sh.maxSize := by
    intro sh h
    have h2 : (newMemoryWithOptions JWTClaims
        { maxSize := 100, shardSize := 1 }).shards[shardIndex
          (newMemoryWithOptions JWTClaims { maxSize := 100, shardSize := 1 })
          ("jwt:token:" ++ "tok")]? =
        some { lru := [], maxSize := 100 } := by rfl
    rw [h2] at h
    have h3 := Option.some.inj h
    rw [← h3]
    decide
  exact ⟨by decide,
    (jwtCacheKeyAndTTL (newMemoryWithOptions JWTClaims { maxSize := 100, shardSize := 1 })
      "tok" ⟨"", "s", 1000, 0, 0, ""⟩ 900 0 (by decide) (by decide) hcap).1⟩

/-- C4: serializing the parse tree does *not* reproduce the input up to
URI rewriting — the stored tags are re-emitted verbatim *and* the typed
sections re-emit them again, and a `#EXT-X-VERSION` line is added that
the input never contained.  The serializer's own "write other global
tags" comment shows the duplication is a slip, so the code, not the
claim, is at fault. -/
theorem serializeDuplicatesFailingInput :
    (parse ["#EXTM3U", "#EXT-X-STREAM-INF:BANDWIDTH=800000", "low.m3u8"]).toOption.map
        playlistOutLines =
      some ["#EXTM3U", "#EXT-X-VERSION:1",
        "#EXT-X-STREAM-INF:BANDWIDTH=800000",
        "#EXT-X-STREAM-INF:BANDWIDTH=800000", "low.m3u8"] ∧
    (parse ["#EXTM3U", "#EXT-X-STREAM-INF:BANDWIDTH=800000", "low.m3u8"]).toOption.map
        (fun p => (playlistOutLines p).count "#EXT-X-STREAM-INF:BANDWIDTH=800000") =
      some 2 ∧
    "#EXT-X-VERSION:1" ∉
      ["#EXTM3U", "#EXT-X-STREAM-INF:BANDWIDTH=800000", "low.m3u8"] := by
  refine ⟨by decide, by decide, by decide⟩

set_option maxRecDepth 16384 in
/-- C3: the parser never attaches `EXT-X-KEY`/`EXT-X-MAP` descriptors to
segments (its comment "these will be processed with the next segment"
has no implementing code), so `MediaProcessor.processKey`/`processMap`
are unreachable and the serialized output repeats the key line with its
*original, unrewritten* URI — no resolution, no token. -/
theorem keyMapRewriteFailingInput :
    (parse ["#EXTM3U", "#EXT-X-TARGETDURATION:6",
        "#EXT-X-KEY:METHOD=AES-128,URI=\"https://o.example.com/key\"",
        "#EXTINF:4.0,", "seg.ts"]).toOption.map
        (fun p => p.media.segments.map Segment.key) = some [none] ∧
    (parseAndProcess ["#EXTM3U", "#EXT-X-TARGETDURATION:6",
        "#EXT-X-KEY:METHOD=AES-128,URI=\"https://o.example.com/key\"",
        "#EXTINF:4.0,", "seg.ts"]
      ((urlParse "https://o.example.com/v/").getD emptyURL)
      ((urlParse "https://p.example.com/p").getD emptyURL)
      "T" defaultProcessorOptions).toOption =
      some ("#EXTM3U\n#EXT-X-VERSION:1\n#EXT-X-TARGETDURATION:6\n" ++
        "#EXT-X-KEY:METHOD=AES-128,URI=\"https://o.example.com/key\"\n" ++
        "#EXTINF:4.0,\n#EXT-X-TARGETDURATION:6\n#EXT-X-MEDIA-SEQUENCE:0\n" ++
        "#EXT-X-ALLOW-CACHE:NO\n#EXTINF:4.000\n" ++
        "https://o.example.com/v/seg.ts?token=T\n") := by
  refine ⟨by decide, by decide⟩

/-- C1, counterexample: in the spec's own master-playlist scenario the
rewritten variant URI is `/p/v/low.m3u8?token=T` — `generateProxyPath`
builds a `url.URL` with only `Path` set, so the result has *empty*
scheme and host where the claim demands the proxy's `https` and
`p.example.com`. -/
theorem masterRewriteSchemeCounterexample :
    ((parse ["#EXTM3U", "#EXT-X-STREAM-INF:BANDWIDTH=800000,RESOLUTION=640x360",
        "low.m3u8"]).toOption.bind
      (fun p => (modifierProcess defaultProcessorOptions p
        ((urlParse "https://o.example.com/v/").getD emptyURL)
        ((urlParse "https://p.example.com/p").getD emptyURL) "T").toOption)).map
        (fun p => p.master.variants.map Variant.uri) =
      some ["/p/v/low.m3u8?token=T"] ∧
    uriScheme "/p/v/low.m3u8?token=T" = "" ∧
    uriHost "/p/v/low.m3u8?token=T" = "" ∧
    ((urlParse "https://p.example.com/p").getD emptyURL).scheme = "https" ∧
    ((urlParse "https://p.example.com/p").getD emptyURL).host = "p.example.com" ∧
    ("" : String) ≠ "https" ∧ ("" : String) ≠ "p.example.com" := by
  refine ⟨by decide, by decide, by decide, by decide, by decide, by decide, by decide⟩

/-- C1, amended: for every parsed master playlist rewritten with a
non-empty token over well-formed base/proxy URLs (path of the proxy
absolute or empty, `?`/`#`-free) whose URIs resolve to well-formed
absolute-path targets, every variant, I-frame-stream and media-group URI
with a non-empty original URI is rewritten to a *proxy-relative* URL:
empty scheme and host, a path that starts with the proxy URL's path, and
a query carrying `token=<token>`. -/
theorem masterRewriteRelativeProxyPointing
    (baseURL proxyURL : URL) (p p' : Playlist) (token : String)
    (htok : ¬token = "") (htokb : byteString token = true)
    (hpp : proxyURL.path = "" ∨
      (startsWithGo proxyURL.path "/" = true ∧
        ¬startsWithGo proxyURL.path "//" = true))
    (hpq : noChar proxyURL.path '?' = true)
    (hph : noChar proxyURL.path '#' = true)
    (hvars : ∀ v ∈ p.master.variants, ¬v.uri = "" →
      ∃ r, resolveURL baseURL v.uri = some r ∧ targetRelOK r)
    (hifrs : ∀ f ∈ p.master.iFrameStreams, ¬f.uri = "" →
      ∃ r, resolveURL baseURL f.uri = some r ∧ targetRelOK r)
    (hgrps : ∀ kv ∈ p.master.mediaGroups, ∀ g ∈ kv.2, ¬g.uri = "" →
      ∃ r, resolveURL baseURL g.uri = some r ∧ targetRelOK r)
    (hrw : masterProcess baseURL proxyURL defaultProcessorOptions p token
      = .ok p') :
    (∀ (i : Nat) (v v' : Variant), p.master.variants[i]? = some v →
      p'.master.variants[i]? = some v' → ¬v.uri = "" →
      proxyRelativeTo proxyURL v'.uri token) ∧
    (∀ (i : Nat) (f f' : IFrameStream), p.master.iFrameStreams[i]? = some f →
      p'.master.iFrameStreams[i]? = some f' → ¬f.uri = "" →
      proxyRelativeTo proxyURL f'.uri token) ∧
    (∀ (j : Nat) (kv kv' : String × List MediaGroup),
      p.master.mediaGroups[j]? = some kv →
      p'.master.mediaGroups[j]? = some kv' →
      ∀ (i : Nat) (g g' : MediaGroup), kv.2[i]? = some g →
      kv'.2[i]? = some g' → ¬g.uri = "" →
      proxyRelativeTo proxyURL g'.uri token) := by
  obtain ⟨hty, variants, iframes, groups, h1, h2, h3, hp'⟩ :=
    masterProcess_ok_parts baseURL proxyURL defaultProcessorOptions p token p' hrw
  subst hp'
  refine ⟨?_, ?_, ?_⟩
  · intro i v v' hv hv' hne
    have hv'2 : variants[i]? = some v' := hv'
    obtain ⟨x, hx, hfx⟩ := exceptMap_ok_getElem? _ _ _ h1 i v' hv'2
    have hxv : x = v := by
      rw [hv] at hx
      exact (Option.some.inj hx).symm
    subst hxv
    obtain ⟨r, hr, hrOK⟩ := hvars x (List.getElem?_mem hv) hne
    have huri := processVariant_ok_uri baseURL proxyURL defaultProcessorOptions
      x token v' hfx hne r hr
    rw [huri]
    exact generateProxyPath_props proxyURL r token htok htokb hpp hpq hph hrOK
  · intro i f f' hf hf' hne
    have hf'2 : iframes[i]? = some f' := hf'
    obtain ⟨x, hx, hfx⟩ := exceptMap_ok_getElem? _ _ _ h2 i f' hf'2
    have hxf : x = f := by
      rw [hf] at hx
      exact (Option.some.inj hx).symm
    subst hxf
    obtain ⟨r, hr, hrOK⟩ := hifrs x (List.getElem?_mem hf) hne
    have huri := processIFrame_ok_uri baseURL proxyURL defaultProcessorOptions
      x token f' hfx hne r hr
    rw [huri]
    exact generateProxyPath_props proxyURL r token htok htokb hpp hpq hph hrOK
  · intro j kv kv' hkv hkv' i g g' hg hg' hne
    have hkv'2 : groups[j]? = some kv' := hkv'
    obtain ⟨x, hx, hfx⟩ := exceptMap_ok_getElem? _ _ _ h3 j kv' hkv'2
    have hxkv : x = kv := by
      rw [hkv] at hx
      exact (Option.some.inj hx).symm
    subst hxkv
    obtain ⟨gs, hgs, hkveq⟩ := processGroupKV_ok baseURL proxyURL
      defaultProcessorOptions token x kv' hfx
    subst hkveq
    have hg'2 : gs[i]? = some g' := hg'
    obtain ⟨y, hy, hfy⟩ := exceptMap_ok_getElem? _ _ _ hgs i g' hg'2
    have hyg : y = g := by
      rw [hg] at hy
      exact (Option.some.inj hy).symm
    subst hyg
    obtain ⟨r, hr, hrOK⟩ := hgrps x (List.getElem?_mem hkv) y
      (List.getElem?_mem hg) hne
    have huri := processMediaGroup_ok_uri baseURL proxyURL
      defaultProcessorOptions y token g' hfy hne r hr
    rw [huri]
    exact generateProxyPath_props proxyURL r token htok htokb hpp hpq hph hrOK

theorem masterRewriteRelativeProxyPointingWitness :
    proxyRelativeTo ((urlParse "https://p.example.com/p").getD emptyURL)
      "/p/v/low.m3u8?token=T" "T" :=
  (masterRewriteRelativeProxyPointing
    ((urlParse "https://o.example.com/v/").getD emptyURL)
    ((urlParse "https://p.example.com/p").getD emptyURL)
    { newPlaylist with
      type := PlaylistType.master
      master := {
        variants := [{
          uri := "low.m3u8"
          bandwidth := 0
          averageBandwidth := 0
          codecs := ""
          resolution := ""
          frameRate := 0
          hdcpLevel := ""
          audioGroup := ""
          videoGroup := ""
          subtitlesGroup := ""
          closedCaptionsGroup := ""
          rawAttributes := "" }]
        mediaGroups := []
        iFrameStreams := []
        sessionData := []
        hasIndependentSegments := false } }
    { newPlaylist with
      type := PlaylistType.master
      master := {
        variants := [{
          uri := "/p/v/low.m3u8?token=T"
          bandwidth := 0
          averageBandwidth := 0
          codecs := ""
          resolution := ""
          frameRate := 0
          hdcpLevel := ""
          audioGroup := ""
          videoGroup := ""
          subtitlesGroup := ""
          closedCaptionsGroup := ""
          rawAttributes := "" }]
        mediaGroups := []
        iFrameStreams := []
        sessionData := []
        hasIndependentSegments := false } }
    "T" (by decide) (by decide) (Or.inr ⟨by decide, by decide⟩)
    (by decide) (by decide)
    (by
      intro v hv hne
      rw [List.mem_singleton.mp hv]
      exact ⟨{ scheme := "https", opaquePart := "", host := "o.example.com",
               path := "/v/low.m3u8", rawQuery := "", fragment := "" },
             by decide, by decide⟩)
    (by
      intro f hf hne
      exact absurd hf (List.not_mem_nil f))
    (by
      intro kv hkv
      exact absurd hkv (List.not_mem_nil kv))
    (by rfl)).1 0
    { uri := "low.m3u8"
      bandwidth := 0
      averageBandwidth := 0
      codecs := ""
      resolution := ""
      frameRate := 0
      hdcpLevel := ""
      audioGroup := ""
      videoGroup := ""
      subtitlesGroup := ""
      closedCaptionsGroup := ""
      rawAttributes := "" }
    { uri := "/p/v/low.m3u8?token=T"
      bandwidth := 0
      averageBandwidth := 0
      codecs := ""
      resolution := ""
      frameRate := 0
      hdcpLevel := ""
      audioGroup := ""
      videoGroup := ""
      subtitlesGroup := ""
      closedCaptionsGroup := ""
      rawAttributes := "" }
    (by rfl) (by rfl) (by decide)

/-- C2, confirmed: for every parsed media playlist rewritten with a
non-empty token, every segment with a non-empty URI that resolves against
the base URL to a well-formed absolute origin URL ends up with a URI whose
host is the *origin* host (the host of the resolved URL, not the proxy's)
and whose query carries `token=<token>`. -/
theorem mediaRewriteOriginHostToken
    (baseURL : URL) (p p' : Playlist) (token : String)
    (htok : ¬token = "") (htokb : byteString token = true)
    (hsegs : ∀ s ∈ p.media.segments, ¬s.uri = "" →
      ∃ r, resolveURL baseURL s.uri = some r ∧ originOK r)
    (hrw : mediaProcess baseURL defaultProcessorOptions p token = .ok p') :
    ∀ (i : Nat) (s s' : Segment), p.media.segments[i]? = some s →
      p'.media.segments[i]? = some s' → ¬s.uri = "" →
      ∃ r, resolveURL baseURL s.uri = some r ∧
        uriHost s'.uri = r.host ∧ uriQueryGet s'.uri "token" = token := by
  obtain ⟨hty, segments, h1, hp'⟩ :=
    mediaProcess_ok_parts baseURL defaultProcessorOptions p token p' hrw
  subst hp'
  intro i s s' hs hs' hne
  have hs'2 : segments[i]? = some s' := hs'
  obtain ⟨x, hx, hfx⟩ := exceptMap_ok_getElem? _ _ _ h1 i s' hs'2
  have hxs : x = s := by
    rw [hs] at hx
    exact (Option.some.inj hx).symm
  subst hxs
  obtain ⟨r, hr, hrOK⟩ := hsegs x (List.getElem?_mem hs) hne
  have huri := processSegment_ok_uri baseURL defaultProcessorOptions x token s'
    hfx hne r hr
  rw [huri]
  obtain ⟨hh, hq⟩ := addTokenToURL_props r token htok htokb hrOK
  exact ⟨r, hr, hh, hq⟩

theorem mediaRewriteOriginHostTokenWitness :
    ∃ r, resolveURL ((urlParse "https://o.example.com/v/").getD emptyURL)
        "seg1.ts" = some r ∧
      uriHost "https://o.example.com/v/seg1.ts?token=T" = r.host ∧
      uriQueryGet "https://o.example.com/v/seg1.ts?token=T" "token" = "T" :=
  mediaRewriteOriginHostToken
    ((urlParse "https://o.example.com/v/").getD emptyURL)
    { newPlaylist with
      type := PlaylistType.media
      media := {
        targetDuration := 6
        mediaSequence := 0
        segments := [{
          uri := "seg1.ts"
          duration := 4
          title := ""
          byteRange := ""
          discontinuity := false
          programDateTime := ""
          key := none
          segMap := none }]
        endList := true
        discontinuitySeq := 0
        allowCache := true
        playlistType := ""
        iFramesOnly := false
        hasIndependentSegments := false } }
    { newPlaylist with
      type := PlaylistType.media
      media := {
        targetDuration := 6
        mediaSequence := 0
        segments := [{
          uri := "https://o.example.com/v/seg1.ts?token=T"
          duration := 4
          title := ""
          byteRange := ""
          discontinuity := false
          programDateTime := ""
          key := none
          segMap := none }]
        endList := true
        discontinuitySeq := 0
        allowCache := true
        playlistType := ""
        iFramesOnly := false
        hasIndependentSegments := false } }
    "T" (by decide) (by decide)
    (by
      intro s hs hne
      rw [List.mem_singleton.mp hs]
      exact ⟨{ scheme := "https", opaquePart := "", host := "o.example.com",
               path := "/v/seg1.ts", rawQuery := "", fragment := "" },
             by decide, by decide⟩)
    (by rfl) 0
    { uri := "seg1.ts"
      duration := 4
      title := ""
      byteRange := ""
      discontinuity := false
      programDateTime := ""
      key := none
      segMap := none }
    { uri := "https://o.example.com/v/seg1.ts?token=T"
      duration := 4
      title := ""
      byteRange := ""
      discontinuity := false
      programDateTime := ""
      key := none
      segMap := none }
    (by rfl) (by rfl) (by decide)


theorem strAssoc (a b c : String) : a ++ b ++ c = a ++ (b ++ c) := by
  apply String.ext
  simp [String.data_append, List.append_assoc]

theorem findIdx_go_split (c : Char) (l₁ l₂ : List Char) (h : ∀ x ∈ l₁, ¬ x = c) :
    ∀ i : Nat, List.findIdx? (fun x => decide (x = c)) (l₁ ++ c :: l₂) i = some (l₁.length + i) := by
  induction l₁ with
  | nil =>
    intro i
    simp [List.findIdx?_cons]
  | cons a l ih =>
    intro i
    have ha : ¬ a = c := h a (List.mem_cons_self _ _)
    have hl : ∀ x ∈ l, ¬ x = c := fun x hx => h x (List.mem_cons_of_mem _ hx)
    rw [List.cons_append, List.findIdx?_cons, if_neg (by simpa using ha),
      ih hl (i + 1)]
    exact congrArg some (by simp; omega)

theorem findIdx_split (c : Char) (l₁ l₂ : List Char) (h : ∀ x ∈ l₁, ¬ x = c) :
    List.findIdx? (fun x => decide (x = c)) (l₁ ++ c :: l₂) = some l₁.length := by
  have := findIdx_go_split c l₁ l₂ h 0
  simpa using this

theorem findIdx_none (c : Char) (l : List Char) (h : ∀ x ∈ l, ¬ x = c) :
    List.findIdx? (fun x => decide (x = c)) l = none := by
  rw [List.findIdx?_eq_none_iff]
  intro x hx
  simpa using h x hx

theorem mem_ne_of_noChar {s : String} {c : Char} (h : noChar s c = true) :
    ∀ x ∈ s.data, ¬ x = c := by
  intro x hx hxc
  exact (not_mem_of_noChar h) (hxc ▸ hx)

theorem data_append_colon (n v : String) (c : Char) :
    (n ++ (⟨[c]⟩ : String) ++ v).data = n.data ++ c :: v.data := by
  simp [String.data_append]

theorem parseTag_split (n v : String) (h : noChar n ':' = true) :
    parseTag (n ++ ":" ++ v) =
      { name := n, value := v,
        attributes :=
          if n = tagStreamInf ∨ n = tagMediaGroup ∨ n = tagIFrameStreamInf ∨
             n = tagKey ∨ n = tagMap ∨ n = tagSessionData then parseAttributes v
          else [],
        rawLine := n ++ ":" ++ v } := by
  have hd : (n ++ ":" ++ v).data = n.data ++ ':' :: v.data := by
    simp [String.data_append]
  have hdrop : (n.data ++ ':' :: v.data).drop (n.data.length + 1) = v.data := by
    rw [List.append_cons]
    exact List.drop_left' (by simp)
  unfold parseTag
  rw [hd, findIdx_split ':' n.data v.data (mem_ne_of_noChar h)]
  simp only [List.take_left, hdrop]

theorem parseTag_nocolon (n : String) (h : noChar n ':' = true) :
    parseTag n = { name := n, value := "", attributes := [], rawLine := n } := by
  unfold parseTag
  rw [findIdx_none ':' n.data (mem_ne_of_noChar h)]

theorem tagToString_of_value_ne (t : Tag) (h : ¬ t.value = "") :
    tagToString t = t.name ++ ":" ++ t.value := by
  unfold tagToString
  rw [if_pos h]

theorem tagToString_of_value_empty (t : Tag) (h : t.value = "") :
    tagToString t = t.name := by
  unfold tagToString
  rw [if_neg (fun hc => hc h)]

theorem startsWithGo_hash_cons {s : String} (h : startsWithGo s "#" = true) :
    ∃ r, s.data = '#' :: r := by
  rw [startsWithGo, List.isPrefixOf_iff_prefix] at h
  rcases h with ⟨r, hr⟩
  exact ⟨r, hr.symm⟩

theorem startsWithGo_hash_append (n v : String) (h : startsWithGo n "#" = true) :
    startsWithGo (n ++ ":" ++ v) "#" = true := by
  rcases startsWithGo_hash_cons h with ⟨r, hr⟩
  apply startsWithGo_of_data_prefix _ _ (r ++ ':' :: v.data)
  rw [data_append_colon n v ':', hr]
  rfl

theorem trimSpace_hash_ne (s : String) (h : startsWithGo s "#" = true) :
    ¬ trimSpace s = "" := by
  rcases startsWithGo_hash_cons h with ⟨r, hr⟩
  unfold trimSpace
  rw [hr]
  intro hc
  have hnil : (((('#' :: r).dropWhile isSpaceChar).reverse.dropWhile isSpaceChar).reverse : List Char) = [] := by
    have := congrArg String.data hc
    simpa using this
  rw [List.reverse_eq_nil_iff, List.dropWhile_eq_nil_iff] at hnil
  have hmem : '#' ∈ (List.dropWhile isSpaceChar ('#' :: r)).reverse := by
    rw [List.dropWhile_cons, if_neg (by decide)]
    simp
  have := hnil '#' hmem
  simp [isSpaceChar] at this

theorem tagToString_hash (t : Tag) (h : startsWithGo t.name "#" = true) :
    startsWithGo (tagToString t) "#" = true := by
  by_cases hv : t.value = ""
  · rw [tagToString_of_value_empty t hv]; exact h
  · rw [tagToString_of_value_ne t hv]; exact startsWithGo_hash_append _ _ h

theorem parseLoop_cons_tag (line : String) (rest : List String) (q : Playlist)
    (lt : Option Tag) (n : Nat) (q' : Playlist)
    (hn : ¬ n + 1 = 1)
    (hb : ¬ trimSpace line = "")
    (hh : startsWithGo line "#" = true)
    (hp : processTag { q with rawLines := q.rawLines ++ [line] } (parseTag line) = Except.ok q') :
    parseLoop (line :: rest) q lt n = parseLoop rest q' (some (parseTag line)) (n + 1) := by
  rw [parseLoop.eq_def]
  dsimp only
  simp only [if_neg hb, if_neg hn, if_pos hh, hp]

theorem parseLoop_cons_uri_inf (line : String) (rest : List String) (q : Playlist)
    (t : Tag) (n : Nat) (d : Rat) (ttl : String)
    (hn : ¬ n + 1 = 1)
    (hb : ¬ trimSpace line = "")
    (hh : startsWithGo line "#" = false)
    (hti : t.name = tagInf)
    (hv : parseInfValue t.value = Except.ok (d, ttl)) :
    parseLoop (line :: rest) q (some t) n =
      parseLoop rest (addSegment { q with rawLines := q.rawLines ++ [line] } line d ttl) none (n + 1) := by
  rw [parseLoop]
  simp only [if_neg hb, if_neg hn, hh, Bool.false_eq_true, if_false]
  rw [if_neg (show ¬ t.name = tagStreamInf by rw [hti]; decide)]
  unfold processSegmentURI
  dsimp only
  rw [if_neg (fun hc => hc hti), hv]
  rfl

theorem parseLoop_cons_uri_variant (line : String) (rest : List String) (q : Playlist)
    (t : Tag) (n : Nat) (q'' : Playlist)
    (hn : ¬ n + 1 = 1)
    (hb : ¬ trimSpace line = "")
    (hh : startsWithGo line "#" = false)
    (hts : t.name = tagStreamInf)
    (hpv : processVariantURI { q with rawLines := q.rawLines ++ [line] } t line = Except.ok q'') :
    parseLoop (line :: rest) q (some t) n = parseLoop rest q'' none (n + 1) := by
  rw [parseLoop]
  simp only [if_neg hb, if_neg hn, hh, Bool.false_eq_true, if_false]
  rw [if_pos hts, hpv]

theorem parseLoop_header (rest : List String) (q : Playlist) (lt : Option Tag) :
    parseLoop (tagExtM3U :: rest) q lt 0 =
      parseLoop rest { q with rawLines := q.rawLines ++ [tagExtM3U], originalHeader := tagExtM3U } lt 1 := by
  rw [parseLoop.eq_def]
  dsimp only
  rw [if_neg (show ¬ trimSpace tagExtM3U = "" by decide)]
  rw [if_pos rfl]
  rw [if_neg (show ¬ tagExtM3U ≠ tagExtM3U from fun hc => hc rfl)]

theorem bool_or_decide_false {a : Bool} {p : Prop} [Decidable p] (h : ¬ p) :
    (a || decide p) = a := by
  simp [h]

theorem bool_or_decide_true {a : Bool} {p : Prop} [Decidable p] (h : p) :
    (a || decide p) = true := by
  simp [h]

theorem processTag_version (q : Playlist) (tg : Tag) (hname : tg.name = tagVersion)
    (k : Int) (hv : atoi tg.value = some k) :
    processTag q tg = Except.ok { q with version := k, tags := q.tags ++ [tg] } := by
  unfold processTag
  rw [hname, if_pos rfl, hv]
  rfl

theorem processTag_targetDuration (q : Playlist) (tg : Tag)
    (hname : tg.name = tagTargetDuration) (d : Rat) (hv : parseFloatQ tg.value = some d) :
    processTag q tg = Except.ok { q with media := { q.media with targetDuration := d }, type := PlaylistType.media, tags := q.tags ++ [tg] } := by
  unfold processTag
  rw [hname, if_neg (by decide), if_pos rfl, hv]
  rfl

theorem processTag_mediaSequence (q : Playlist) (tg : Tag)
    (hname : tg.name = tagMediaSequence) (m : Nat) (hv : parseUint64 tg.value = some m) :
    processTag q tg = Except.ok { q with media := { q.media with mediaSequence := m }, type := PlaylistType.media, tags := q.tags ++ [tg] } := by
  unfold processTag
  rw [hname, if_neg (by decide), if_neg (by decide), if_pos rfl, hv]
  rfl

theorem processTag_discontinuitySequence (q : Playlist) (tg : Tag)
    (hname : tg.name = tagDiscontinuitySequence) (m : Nat) (hv : parseUint64 tg.value = some m) :
    processTag q tg = Except.ok { q with media := { q.media with discontinuitySeq := m }, type := PlaylistType.media, tags := q.tags ++ [tg] } := by
  unfold processTag
  rw [hname, if_neg (by decide), if_neg (by decide), if_neg (by decide), if_pos rfl, hv]
  rfl

theorem processTag_endList (q : Playlist) (tg : Tag) (hname : tg.name = tagEndList) :
    processTag q tg = Except.ok { q with media := { q.media with endList := true }, type := PlaylistType.media, tags := q.tags ++ [tg] } := by
  unfold processTag
  rw [hname, if_neg (by decide), if_neg (by decide), if_neg (by decide),
    if_neg (by decide), if_pos rfl]
  rfl

theorem processTag_allowCache (q : Playlist) (tg : Tag) (hname : tg.name = tagAllowCache) :
    processTag q tg = Except.ok { q with media := { q.media with allowCache := decide (tg.value ≠ "NO") }, type := PlaylistType.media, tags := q.tags ++ [tg] } := by
  unfold processTag
  rw [hname, if_neg (by decide), if_neg (by decide), if_neg (by decide),
    if_neg (by decide), if_neg (by decide), if_pos rfl]
  rfl

theorem processTag_playlistType (q : Playlist) (tg : Tag) (hname : tg.name = tagPlaylistType) :
    processTag q tg = Except.ok { q with media := { q.media with playlistType := tg.value }, type := PlaylistType.media, tags := q.tags ++ [tg] } := by
  unfold processTag
  rw [hname, if_neg (by decide), if_neg (by decide), if_neg (by decide),
    if_neg (by decide), if_neg (by decide), if_neg (by decide), if_pos rfl]
  rfl

theorem processTag_iFramesOnly (q : Playlist) (tg : Tag) (hname : tg.name = tagIFramesOnly) :
    processTag q tg = Except.ok { q with media := { q.media with iFramesOnly := true }, type := PlaylistType.media, tags := q.tags ++ [tg] } := by
  unfold processTag
  rw [hname, if_neg (by decide), if_neg (by decide), if_neg (by decide),
    if_neg (by decide), if_neg (by decide), if_neg (by decide), if_neg (by decide),
    if_pos rfl]
  rfl

theorem processTag_indep (q : Playlist) (tg : Tag) (hname : tg.name = tagIndependentSegments) :
    processTag q tg = Except.ok
      (if q.type = PlaylistType.master ∨ q.type = PlaylistType.unknown then
        { q with master := { q.master with hasIndependentSegments := true }, tags := q.tags ++ [tg] }
      else
        { q with media := { q.media with hasIndependentSegments := true }, tags := q.tags ++ [tg] }) := by
  unfold processTag
  rw [hname, if_neg (by decide), if_neg (by decide), if_neg (by decide),
    if_neg (by decide), if_neg (by decide), if_neg (by decide), if_neg (by decide),
    if_neg (by decide), if_pos rfl]
  by_cases hty : q.type = PlaylistType.master ∨ q.type = PlaylistType.unknown
  · rw [if_pos hty, if_pos hty]
    rfl
  · rw [if_neg hty, if_neg hty]
    rfl

theorem processMediaGroup_run (q : Playlist) (tg : Tag) (tv gv : String)
    (hT : assocGet tg.attributes "TYPE" = some tv)
    (hG : assocGet tg.attributes "GROUP-ID" = some gv) :
    ∃ mg, processMediaGroup q tg = Except.ok { q with master := { q.master with mediaGroups := mg } } := by
  unfold processMediaGroup
  rw [hT, hG]
  exact ⟨_, rfl⟩

theorem processTag_mediaGroup (q : Playlist) (tg : Tag) (hname : tg.name = tagMediaGroup)
    (h1 : (assocGet tg.attributes "TYPE").isSome = true)
    (h2 : (assocGet tg.attributes "GROUP-ID").isSome = true) :
    ∃ q', processTag q tg = Except.ok q' ∧ q'.media = q.media ∧
      q'.master.variants = q.master.variants := by
  rcases hT : assocGet tg.attributes "TYPE" with _ | tv
  · rw [hT] at h1
    cases h1
  rcases hG : assocGet tg.attributes "GROUP-ID" with _ | gv
  · rw [hG] at h2
    cases h2
  obtain ⟨mg, hmg⟩ := processMediaGroup_run q tg tv gv hT hG
  refine ⟨{ q with master := { q.master with mediaGroups := mg }, type := PlaylistType.master, tags := q.tags ++ [tg] }, ?_, rfl, rfl⟩
  unfold processTag
  rw [hname, if_neg (by decide), if_neg (by decide), if_neg (by decide),
    if_neg (by decide), if_neg (by decide), if_neg (by decide), if_neg (by decide),
    if_neg (by decide), if_neg (by decide), if_pos rfl, hmg]
  rfl

theorem processIFrameStream_run (q : Playlist) (tg : Tag) (uv : String) (bw : Nat)
    (hU : assocGet tg.attributes "URI" = some uv)
    (hB : parseAttributeUint tg.attributes "BANDWIDTH" = Except.ok bw) :
    ∃ fs, processIFrameStream q tg = Except.ok { q with master := { q.master with iFrameStreams := fs } } := by
  unfold processIFrameStream
  rw [hU, hB]
  exact ⟨_, rfl⟩

theorem processTag_iFrameStream (q : Playlist) (tg : Tag) (hname : tg.name = tagIFrameStreamInf)
    (h1 : (assocGet tg.attributes "URI").isSome = true)
    (h2 : (parseAttributeUint tg.attributes "BANDWIDTH").isOk = true) :
    ∃ q', processTag q tg = Except.ok q' ∧ q'.media = q.media ∧
      q'.master.variants = q.master.variants := by
  rcases hU : assocGet tg.attributes "URI" with _ | uv
  · rw [hU] at h1
    cases h1
  rcases hB : parseAttributeUint tg.attributes "BANDWIDTH" with e | bw
  · rw [hB] at h2
    cases h2
  obtain ⟨fs, hfs⟩ := processIFrameStream_run q tg uv bw hU hB
  refine ⟨{ q with master := { q.master with iFrameStreams := fs }, type := PlaylistType.master, tags := q.tags ++ [tg] }, ?_, rfl, rfl⟩
  unfold processTag
  rw [hname, if_neg (by decide), if_neg (by decide), if_neg (by decide),
    if_neg (by decide), if_neg (by decide), if_neg (by decide), if_neg (by decide),
    if_neg (by decide), if_neg (by decide), if_neg (by decide), if_pos rfl, hfs]
  rfl

theorem processSessionData_run (q : Playlist) (tg : Tag) (dv : String)
    (hD : assocGet tg.attributes "DATA-ID" = some dv) :
    ∃ sd, processSessionData q tg = Except.ok { q with master := { q.master with sessionData := sd } } := by
  unfold processSessionData
  rw [hD]
  exact ⟨_, rfl⟩

theorem processTag_sessionData (q : Playlist) (tg : Tag) (hname : tg.name = tagSessionData)
    (h1 : (assocGet tg.attributes "DATA-ID").isSome = true) :
    ∃ q', processTag q tg = Except.ok q' ∧ q'.media = q.media ∧
      q'.master.variants = q.master.variants := by
  rcases hD : assocGet tg.attributes "DATA-ID" with _ | dv
  · rw [hD] at h1
    cases h1
  obtain ⟨sd, hsd⟩ := processSessionData_run q tg dv hD
  refine ⟨{ q with master := { q.master with sessionData := sd }, type := PlaylistType.master, tags := q.tags ++ [tg] }, ?_, rfl, rfl⟩
  unfold processTag
  rw [hname, if_neg (by decide), if_neg (by decide), if_neg (by decide),
    if_neg (by decide), if_neg (by decide), if_neg (by decide), if_neg (by decide),
    if_neg (by decide), if_neg (by decide), if_neg (by decide), if_neg (by decide),
    if_pos rfl, hsd]
  rfl

theorem processTag_streamInf (q : Playlist) (tg : Tag) (hname : tg.name = tagStreamInf) :
    processTag q tg = Except.ok { q with type := PlaylistType.master, tags := q.tags ++ [tg] } := by
  unfold processTag
  rw [hname, if_neg (by decide), if_neg (by decide), if_neg (by decide),
    if_neg (by decide), if_neg (by decide), if_neg (by decide), if_neg (by decide),
    if_neg (by decide), if_neg (by decide), if_neg (by decide), if_neg (by decide),
    if_neg (by decide), if_pos rfl]
  rfl

theorem processTag_inf (q : Playlist) (tg : Tag) (hname : tg.name = tagInf) :
    processTag q tg = Except.ok { q with type := PlaylistType.media, tags := q.tags ++ [tg] } := by
  unfold processTag
  rw [hname, if_neg (by decide), if_neg (by decide), if_neg (by decide),
    if_neg (by decide), if_neg (by decide), if_neg (by decide), if_neg (by decide),
    if_neg (by decide), if_neg (by decide), if_neg (by decide), if_neg (by decide),
    if_neg (by decide), if_neg (by decide), if_pos rfl]
  rfl

theorem processTag_misc (q : Playlist) (tg : Tag)
    (hname : tg.name = tagDiscontinuity ∨ tg.name = tagKey ∨ tg.name = tagByteRange ∨
      tg.name = tagProgramDateTime ∨ tg.name = tagMap) :
    processTag q tg = Except.ok { q with type := PlaylistType.media, tags := q.tags ++ [tg] } := by
  have hne : ∀ s : String, noChar s 'Z' = true → True := fun _ _ => trivial
  rcases hname with h | h | h | h | h <;>
  · unfold processTag
    rw [h, if_neg (by decide), if_neg (by decide), if_neg (by decide),
      if_neg (by decide), if_neg (by decide), if_neg (by decide), if_neg (by decide),
      if_neg (by decide), if_neg (by decide), if_neg (by decide), if_neg (by decide),
      if_neg (by decide), if_neg (by decide), if_neg (by decide), if_pos (by decide)]
    rfl

theorem processTag_other (q : Playlist) (tg : Tag)
    (h1 : ¬ tg.name = tagVersion) (h2 : ¬ tg.name = tagTargetDuration)
    (h3 : ¬ tg.name = tagMediaSequence) (h4 : ¬ tg.name = tagDiscontinuitySequence)
    (h5 : ¬ tg.name = tagEndList) (h6 : ¬ tg.name = tagAllowCache)
    (h7 : ¬ tg.name = tagPlaylistType) (h8 : ¬ tg.name = tagIFramesOnly)
    (h9 : ¬ tg.name = tagIndependentSegments) (h10 : ¬ tg.name = tagMediaGroup)
    (h11 : ¬ tg.name = tagIFrameStreamInf) (h12 : ¬ tg.name = tagSessionData)
    (h13 : ¬ tg.name = tagStreamInf) (h14 : ¬ tg.name = tagInf)
    (h15 : ¬ (tg.name = tagDiscontinuity ∨ tg.name = tagKey ∨ tg.name = tagByteRange ∨
      tg.name = tagProgramDateTime ∨ tg.name = tagMap)) :
    processTag q tg = Except.ok { q with tags := q.tags ++ [tg] } := by
  unfold processTag
  rw [if_neg h1, if_neg h2, if_neg h3, if_neg h4, if_neg h5, if_neg h6, if_neg h7,
    if_neg h8, if_neg h9, if_neg h10, if_neg h11, if_neg h12, if_neg h13, if_neg h14,
    if_neg h15]
  rfl

theorem processTag_cases (p q : Playlist) (tg : Tag)
    (hver : ¬ tg.name = tagVersion)
    (hTD : tg.name = tagTargetDuration → parseFloatQ tg.value = some p.media.targetDuration)
    (hMS : tg.name = tagMediaSequence → parseUint64 tg.value = some p.media.mediaSequence)
    (hDS : tg.name = tagDiscontinuitySequence → parseUint64 tg.value = some p.media.discontinuitySeq)
    (hAC : tg.name = tagAllowCache → decide (tg.value ≠ "NO") = p.media.allowCache)
    (hPT : tg.name = tagPlaylistType → tg.value = p.media.playlistType)
    (hMG : tg.name = tagMediaGroup → (assocGet tg.attributes "TYPE").isSome = true ∧
      (assocGet tg.attributes "GROUP-ID").isSome = true)
    (hIF : tg.name = tagIFrameStreamInf → (assocGet tg.attributes "URI").isSome = true ∧
      (parseAttributeUint tg.attributes "BANDWIDTH").isOk = true)
    (hSD : tg.name = tagSessionData → (assocGet tg.attributes "DATA-ID").isSome = true) :
    ∃ q', processTag q tg = Except.ok q' ∧
      q'.master.variants = q.master.variants ∧
      q'.media.segments = q.media.segments ∧
      q'.media.targetDuration =
        (if tg.name = tagTargetDuration then p.media.targetDuration else q.media.targetDuration) ∧
      q'.media.mediaSequence =
        (if tg.name = tagMediaSequence then p.media.mediaSequence else q.media.mediaSequence) ∧
      q'.media.discontinuitySeq =
        (if tg.name = tagDiscontinuitySequence then p.media.discontinuitySeq else q.media.discontinuitySeq) ∧
      q'.media.endList = (q.media.endList || decide (tg.name = tagEndList)) ∧
      q'.media.allowCache =
        (if tg.name = tagAllowCache then p.media.allowCache else q.media.allowCache) ∧
      q'.media.playlistType =
        (if tg.name = tagPlaylistType then p.media.playlistType else q.media.playlistType) := by
  by_cases h2 : tg.name = tagTargetDuration
  · refine ⟨_, processTag_targetDuration q tg h2 p.media.targetDuration (hTD h2),
      rfl, rfl, ?_, ?_, ?_, ?_, ?_, ?_⟩
    · rw [if_pos h2]
    · rw [if_neg (show ¬ tg.name = tagMediaSequence by rw [h2]; decide)]
    · rw [if_neg (show ¬ tg.name = tagDiscontinuitySequence by rw [h2]; decide)]
    · rw [bool_or_decide_false (show ¬ tg.name = tagEndList by rw [h2]; decide)]
    · rw [if_neg (show ¬ tg.name = tagAllowCache by rw [h2]; decide)]
    · rw [if_neg (show ¬ tg.name = tagPlaylistType by rw [h2]; decide)]
  by_cases h3 : tg.name = tagMediaSequence
  · refine ⟨_, processTag_mediaSequence q tg h3 p.media.mediaSequence (hMS h3),
      rfl, rfl, ?_, ?_, ?_, ?_, ?_, ?_⟩
    · rw [if_neg h2]
    · rw [if_pos h3]
    · rw [if_neg (show ¬ tg.name = tagDiscontinuitySequence by rw [h3]; decide)]
    · rw [bool_or_decide_false (show ¬ tg.name = tagEndList by rw [h3]; decide)]
    · rw [if_neg (show ¬ tg.name = tagAllowCache by rw [h3]; decide)]
    · rw [if_neg (show ¬ tg.name = tagPlaylistType by rw [h3]; decide)]
  by_cases h4 : tg.name = tagDiscontinuitySequence
  · refine ⟨_, processTag_discontinuitySequence q tg h4 p.media.discontinuitySeq (hDS h4),
      rfl, rfl, ?_, ?_, ?_, ?_, ?_, ?_⟩
    · rw [if_neg h2]
    · rw [if_neg h3]
    · rw [if_pos h4]
    · rw [bool_or_decide_false (show ¬ tg.name = tagEndList by rw [h4]; decide)]
    · rw [if_neg (show ¬ tg.name = tagAllowCache by rw [h4]; decide)]
    · rw [if_neg (show ¬ tg.name = tagPlaylistType by rw [h4]; decide)]
  by_cases h5 : tg.name = tagEndList
  · refine ⟨_, processTag_endList q tg h5, rfl, rfl, ?_, ?_, ?_, ?_, ?_, ?_⟩
    · rw [if_neg h2]
    · rw [if_neg h3]
    · rw [if_neg h4]
    · rw [bool_or_decide_true h5]
    · rw [if_neg (show ¬ tg.name = tagAllowCache by rw [h5]; decide)]
    · rw [if_neg (show ¬ tg.name = tagPlaylistType by rw [h5]; decide)]
  by_cases h6 : tg.name = tagAllowCache
  · refine ⟨_, processTag_allowCache q tg h6, rfl, rfl, ?_, ?_, ?_, ?_, ?_, ?_⟩
    · rw [if_neg h2]
    · rw [if_neg h3]
    · rw [if_neg h4]
    · rw [bool_or_decide_false h5]
    · rw [if_pos h6]
      exact hAC h6
    · rw [if_neg (show ¬ tg.name = tagPlaylistType by rw [h6]; decide)]
  by_cases h7 : tg.name = tagPlaylistType
  · refine ⟨_, processTag_playlistType q tg h7, rfl, rfl, ?_, ?_, ?_, ?_, ?_, ?_⟩
    · rw [if_neg h2]
    · rw [if_neg h3]
    · rw [if_neg h4]
    · rw [bool_or_decide_false h5]
    · rw [if_neg h6]
    · rw [if_pos h7]
      exact hPT h7
  by_cases h8 : tg.name = tagIFramesOnly
  · refine ⟨_, processTag_iFramesOnly q tg h8, rfl, rfl, ?_, ?_, ?_, ?_, ?_, ?_⟩
    · rw [if_neg h2]
    · rw [if_neg h3]
    · rw [if_neg h4]
    · rw [bool_or_decide_false h5]
    · rw [if_neg h6]
    · rw [if_neg h7]
  by_cases h9 : tg.name = tagIndependentSegments
  · have hrun := processTag_indep q tg h9
    by_cases hty : q.type = PlaylistType.master ∨ q.type = PlaylistType.unknown
    · rw [if_pos hty] at hrun
      refine ⟨_, hrun, rfl, rfl, ?_, ?_, ?_, ?_, ?_, ?_⟩
      · rw [if_neg h2]
      · rw [if_neg h3]
      · rw [if_neg h4]
      · rw [bool_or_decide_false h5]
      · rw [if_neg h6]
      · rw [if_neg h7]
    · rw [if_neg hty] at hrun
      refine ⟨_, hrun, rfl, rfl, ?_, ?_, ?_, ?_, ?_, ?_⟩
      · rw [if_neg h2]
      · rw [if_neg h3]
      · rw [if_neg h4]
      · rw [bool_or_decide_false h5]
      · rw [if_neg h6]
      · rw [if_neg h7]
  by_cases h10 : tg.name = tagMediaGroup
  · obtain ⟨q', hq', hm, hv⟩ := processTag_mediaGroup q tg h10 (hMG h10).1 (hMG h10).2
    refine ⟨q', hq', hv, ?_, ?_, ?_, ?_, ?_, ?_, ?_⟩
    · rw [hm]
    · rw [hm, if_neg h2]
    · rw [hm, if_neg h3]
    · rw [hm, if_neg h4]
    · rw [hm, bool_or_decide_false h5]
    · rw [hm, if_neg h6]
    · rw [hm, if_neg h7]
  by_cases h11 : tg.name = tagIFrameStreamInf
  · obtain ⟨q', hq', hm, hv⟩ := processTag_iFrameStream q tg h11 (hIF h11).1 (hIF h11).2
    refine ⟨q', hq', hv, ?_, ?_, ?_, ?_, ?_, ?_, ?_⟩
    · rw [hm]
    · rw [hm, if_neg h2]
    · rw [hm, if_neg h3]
    · rw [hm, if_neg h4]
    · rw [hm, bool_or_decide_false h5]
    · rw [hm, if_neg h6]
    · rw [hm, if_neg h7]
  by_cases h12 : tg.name = tagSessionData
  · obtain ⟨q', hq', hm, hv⟩ := processTag_sessionData q tg h12 (hSD h12)
    refine ⟨q', hq', hv, ?_, ?_, ?_, ?_, ?_, ?_, ?_⟩
    · rw [hm]
    · rw [hm, if_neg h2]
    · rw [hm, if_neg h3]
    · rw [hm, if_neg h4]
    · rw [hm, bool_or_decide_false h5]
    · rw [hm, if_neg h6]
    · rw [hm, if_neg h7]
  by_cases h13 : tg.name = tagStreamInf
  · refine ⟨_, processTag_streamInf q tg h13, rfl, rfl, ?_, ?_, ?_, ?_, ?_, ?_⟩
    · rw [if_neg h2]
    · rw [if_neg h3]
    · rw [if_neg h4]
    · rw [bool_or_decide_false h5]
    · rw [if_neg h6]
    · rw [if_neg h7]
  by_cases h14 : tg.name = tagInf
  · refine ⟨_, processTag_inf q tg h14, rfl, rfl, ?_, ?_, ?_, ?_, ?_, ?_⟩
    · rw [if_neg h2]
    · rw [if_neg h3]
    · rw [if_neg h4]
    · rw [bool_or_decide_false h5]
    · rw [if_neg h6]
    · rw [if_neg h7]
  by_cases h15 : tg.name = tagDiscontinuity ∨ tg.name = tagKey ∨ tg.name = tagByteRange ∨
      tg.name = tagProgramDateTime ∨ tg.name = tagMap
  · refine ⟨_, processTag_misc q tg h15, rfl, rfl, ?_, ?_, ?_, ?_, ?_, ?_⟩
    · rw [if_neg h2]
    · rw [if_neg h3]
    · rw [if_neg h4]
    · rw [bool_or_decide_false h5]
    · rw [if_neg h6]
    · rw [if_neg h7]
  · refine ⟨_, processTag_other q tg hver h2 h3 h4 h5 h6 h7 h8 h9 h10 h11 h12 h13 h14 h15,
      rfl, rfl, ?_, ?_, ?_, ?_, ?_, ?_⟩
    · rw [if_neg h2]
    · rw [if_neg h3]
    · rw [if_neg h4]
    · rw [bool_or_decide_false h5]
    · rw [if_neg h6]
    · rw [if_neg h7]

theorem processTag_stored (p q : Playlist) (t : Tag) (h : storedTagOK p t) :
    ∃ q', processTag q (parseTag (tagToString t)) = Except.ok q' ∧
      q'.master.variants = q.master.variants ∧
      q'.media.segments = q.media.segments ∧
      q'.media.targetDuration =
        (if t.name = tagTargetDuration then p.media.targetDuration else q.media.targetDuration) ∧
      q'.media.mediaSequence =
        (if t.name = tagMediaSequence then p.media.mediaSequence else q.media.mediaSequence) ∧
      q'.media.discontinuitySeq =
        (if t.name = tagDiscontinuitySequence then p.media.discontinuitySeq else q.media.discontinuitySeq) ∧
      q'.media.endList = (q.media.endList || decide (t.name = tagEndList)) ∧
      q'.media.allowCache =
        (if t.name = tagAllowCache then p.media.allowCache else q.media.allowCache) ∧
      q'.media.playlistType =
        (if t.name = tagPlaylistType then p.media.playlistType else q.media.playlistType) := by
  obtain ⟨hhash, hcolon, hver, hTD, hMS, hDS, hEL, hAC, hPT, hMG, hIF, hSD⟩ := h
  by_cases hv : t.value = ""
  · rw [hv] at hTD hMS hDS hAC hPT hMG hIF hSD
    rw [tagToString_of_value_empty t hv, parseTag_nocolon t.name hcolon]
    exact processTag_cases p q _ hver hTD hMS hDS hAC hPT hMG hIF hSD
  · rw [tagToString_of_value_ne t hv, parseTag_split t.name t.value hcolon]
    refine processTag_cases p q _ hver hTD hMS hDS hAC hPT ?_ ?_ ?_
    · intro hh
      rw [if_pos (Or.inr (Or.inl hh))]
      exact hMG hh
    · intro hh
      rw [if_pos (Or.inr (Or.inr (Or.inl hh)))]
      exact hIF hh
    · intro hh
      rw [if_pos (Or.inr (Or.inr (Or.inr (Or.inr (Or.inr hh)))))]
      exact hSD hh

theorem if_fold_or {α : Type} (c1 : Prop) [Decidable c1] (c2 : Bool) (A B : α) :
    (if c2 = true then A else if c1 then A else B) =
    (if (decide c1 || c2) = true then A else B) := by
  by_cases h1 : c1 <;> cases c2 <;> simp [h1]

theorem parseLoop_storedSection (p : Playlist) (ts : List Tag)
    (h : ∀ t ∈ ts, storedTagOK p t) (rest : List String) :
    ∀ (q : Playlist) (lt : Option Tag) (n : Nat), 1 ≤ n →
    ∃ q' lt' n', parseLoop (ts.map tagToString ++ rest) q lt n = parseLoop rest q' lt' n' ∧
      1 ≤ n' ∧
      q'.master.variants = q.master.variants ∧
      q'.media.segments = q.media.segments ∧
      q'.media.targetDuration =
        (if (ts.any (fun t => t.name = tagTargetDuration)) = true then p.media.targetDuration else q.media.targetDuration) ∧
      q'.media.mediaSequence =
        (if (ts.any (fun t => t.name = tagMediaSequence)) = true then p.media.mediaSequence else q.media.mediaSequence) ∧
      q'.media.discontinuitySeq =
        (if (ts.any (fun t => t.name = tagDiscontinuitySequence)) = true then p.media.discontinuitySeq else q.media.discontinuitySeq) ∧
      q'.media.endList = (q.media.endList || ts.any (fun t => t.name = tagEndList)) ∧
      q'.media.allowCache =
        (if (ts.any (fun t => t.name = tagAllowCache)) = true then p.media.allowCache else q.media.allowCache) ∧
      q'.media.playlistType =
        (if (ts.any (fun t => t.name = tagPlaylistType)) = true then p.media.playlistType else q.media.playlistType) := by
  induction ts with
  | nil =>
    intro q lt n hn
    refine ⟨q, lt, n, rfl, hn, rfl, rfl, ?_, ?_, ?_, ?_, ?_, ?_⟩ <;> simp
  | cons t ts ih =>
    intro q lt n hn
    have ht := h t (List.mem_cons_self _ _)
    have hhash := ht.1
    have hts : ∀ x ∈ ts, storedTagOK p x := fun x hx => h x (List.mem_cons_of_mem _ hx)
    obtain ⟨q1, hq1, hvar1, hseg1, hTD1, hMS1, hDS1, hEL1, hAC1, hPT1⟩ :=
      processTag_stored p { q with rawLines := q.rawLines ++ [tagToString t] } t ht
    have hstep := parseLoop_cons_tag (tagToString t) (ts.map tagToString ++ rest) q lt n q1
      (by omega) (trimSpace_hash_ne _ (tagToString_hash t hhash)) (tagToString_hash t hhash) hq1
    obtain ⟨q2, lt2, n2, hrun2, hn2, hvar2, hseg2, hTD2, hMS2, hDS2, hEL2, hAC2, hPT2⟩ :=
      ih hts q1 (some (parseTag (tagToString t))) (n + 1) (by omega)
    refine ⟨q2, lt2, n2, ?_, hn2, ?_, ?_, ?_, ?_, ?_, ?_, ?_, ?_⟩
    · rw [List.map_cons, List.cons_append, hstep, hrun2]
    · exact hvar2.trans hvar1
    · exact hseg2.trans hseg1
    · rw [hTD2, hTD1, if_fold_or]
      simp only [List.any_cons]
    · rw [hMS2, hMS1, if_fold_or]
      simp only [List.any_cons]
    · rw [hDS2, hDS1, if_fold_or]
      simp only [List.any_cons]
    · rw [hEL2, hEL1]
      simp only [List.any_cons, Bool.or_assoc]
    · rw [hAC2, hAC1, if_fold_or]
      simp only [List.any_cons]
    · rw [hPT2, hPT1, if_fold_or]
      simp only [List.any_cons]

theorem parseInfValue_comma (a ttl : String) (d : Rat) (hnc : noChar a ',' = true)
    (hp : parseFloatQ a = some d) :
    parseInfValue (a ++ "," ++ ttl) = Except.ok (d, ttl) := by
  have hd : (a ++ "," ++ ttl).data = a.data ++ ',' :: ttl.data := by
    simp [String.data_append]
  have hdrop : (a.data ++ ',' :: ttl.data).drop (a.data.length + 1) = ttl.data := by
    rw [List.append_cons]
    exact List.drop_left' (by simp)
  have ha : (⟨a.data⟩ : String) = a := rfl
  unfold parseInfValue
  rw [hd, findIdx_split ',' a.data ttl.data (mem_ne_of_noChar hnc)]
  simp only [List.take_left, hdrop, ha, hp]

theorem parseInfValue_nocomma (a : String) (d : Rat) (hnc : noChar a ',' = true)
    (hp : parseFloatQ a = some d) :
    parseInfValue a = Except.ok (d, "") := by
  unfold parseInfValue
  rw [findIdx_none ',' a.data (mem_ne_of_noChar hnc)]
  simp only [hp]

theorem segmentOutLines_noTitle (s : Segment) (hbr : s.byteRange = "")
    (hdi : s.discontinuity = false) (hpd : s.programDateTime = "")
    (hk : s.key = none) (hm : s.segMap = none) (hti : s.title = "") :
    segmentOutLines s = [tagInf ++ ":" ++ fmtF3 s.duration, s.uri] := by
  unfold segmentOutLines
  rw [hk, hm, hdi]
  rw [if_neg (fun hc => hc hpd)]
  rw [if_neg (show ¬ (false = true) by decide)]
  rw [if_neg (fun hc => hc hbr)]
  rw [if_neg (fun hc => hc hti)]
  simp

theorem segmentOutLines_title (s : Segment) (hbr : s.byteRange = "")
    (hdi : s.discontinuity = false) (hpd : s.programDateTime = "")
    (hk : s.key = none) (hm : s.segMap = none) (hti : ¬ s.title = "") :
    segmentOutLines s = [tagInf ++ ":" ++ fmtF3 s.duration ++ "," ++ s.title, s.uri] := by
  unfold segmentOutLines
  rw [hk, hm, hdi]
  rw [if_neg (fun hc => hc hpd)]
  rw [if_neg (show ¬ (false = true) by decide)]
  rw [if_neg (fun hc => hc hbr)]
  rw [if_pos hti]
  simp

theorem parseLoop_segStep (s : Segment) (V : String) (rest2 : List String) (q : Playlist)
    (lt : Option Tag) (n : Nat) (hn : 1 ≤ n)
    (hu1 : ¬ trimSpace s.uri = "") (hu2 : startsWithGo s.uri "#" = false)
    (hV : parseInfValue V = Except.ok (s.duration, s.title))
    (hbr : s.byteRange = "") (hdi : s.discontinuity = false) (hpd : s.programDateTime = "")
    (hk : s.key = none) (hm : s.segMap = none) :
    ∃ q', parseLoop ((tagInf ++ ":" ++ V) :: s.uri :: rest2) q lt n = parseLoop rest2 q' none (n + 2) ∧
      q'.master.variants = q.master.variants ∧
      q'.media.segments = q.media.segments ++ [s] ∧
      q'.media.targetDuration = q.media.targetDuration ∧
      q'.media.mediaSequence = q.media.mediaSequence ∧
      q'.media.discontinuitySeq = q.media.discontinuitySeq ∧
      q'.media.endList = q.media.endList ∧
      q'.media.allowCache = q.media.allowCache ∧
      q'.media.playlistType = q.media.playlistType := by
  have hsplit := parseTag_split tagInf V (by decide)
  have hname : (parseTag (tagInf ++ ":" ++ V)).name = tagInf := by rw [hsplit]
  have hvalue : (parseTag (tagInf ++ ":" ++ V)).value = V := by rw [hsplit]
  have hstep1 := parseLoop_cons_tag (tagInf ++ ":" ++ V) (s.uri :: rest2) q lt n _
    (by omega) (trimSpace_hash_ne _ (startsWithGo_hash_append tagInf V (by decide)))
    (startsWithGo_hash_append tagInf V (by decide))
    (processTag_inf { q with rawLines := q.rawLines ++ [tagInf ++ ":" ++ V] } _ hname)
  refine ⟨addSegment { q with type := PlaylistType.media, tags := q.tags ++ [parseTag (tagInf ++ ":" ++ V)], rawLines := q.rawLines ++ [tagInf ++ ":" ++ V] ++ [s.uri] } s.uri s.duration s.title, ?_, ?_, ?_, ?_, ?_, ?_, ?_, ?_, ?_⟩
  · rw [hstep1]
    rw [parseLoop_cons_uri_inf s.uri rest2 _ _ (n + 1) s.duration s.title (by omega) hu1 hu2
      hname (by rw [hvalue]; exact hV)]
  · rfl
  · show q.media.segments ++ [({ uri := s.uri, duration := s.duration, title := s.title, byteRange := "", discontinuity := false, programDateTime := "", key := none, segMap := none } : Segment)] = q.media.segments ++ [s]
    obtain ⟨su, sd, st, sbr, sdi, spd, sk, sm⟩ := s
    dsimp only at hbr hdi hpd hk hm ⊢
    rw [hbr, hdi, hpd, hk, hm]
  · rfl
  · rfl
  · rfl
  · rfl
  · rfl
  · rfl

theorem parseLoop_segSection (segs : List Segment)
    (h : ∀ s ∈ segs, segmentRT s) (rest : List String) :
    ∀ (q : Playlist) (lt : Option Tag) (n : Nat), 1 ≤ n →
    ∃ q' lt' n', parseLoop (segs.flatMap segmentOutLines ++ rest) q lt n = parseLoop rest q' lt' n' ∧
      1 ≤ n' ∧
      q'.master.variants = q.master.variants ∧
      q'.media.segments = q.media.segments ++ segs ∧
      q'.media.targetDuration = q.media.targetDuration ∧
      q'.media.mediaSequence = q.media.mediaSequence ∧
      q'.media.discontinuitySeq = q.media.discontinuitySeq ∧
      q'.media.endList = q.media.endList ∧
      q'.media.allowCache = q.media.allowCache ∧
      q'.media.playlistType = q.media.playlistType := by
  induction segs with
  | nil =>
    intro q lt n hn
    exact ⟨q, lt, n, rfl, hn, rfl, by simp, rfl, rfl, rfl, rfl, rfl, rfl⟩
  | cons s segs ihs =>
    intro q lt n hn
    obtain ⟨hu1, hu2, hpf, hnc, hbr, hdi, hpd, hk, hm⟩ := h s (List.mem_cons_self _ _)
    have hsegs : ∀ x ∈ segs, segmentRT x := fun x hx => h x (List.mem_cons_of_mem _ hx)
    by_cases hti : s.title = ""
    · obtain ⟨q1, hrun1, hv1, hs1, h11, h12, h13, h14, h15, h16⟩ :=
        parseLoop_segStep s (fmtF3 s.duration) (segs.flatMap segmentOutLines ++ rest) q lt n hn
          hu1 hu2 (by rw [hti]; exact parseInfValue_nocomma _ s.duration hnc hpf)
          hbr hdi hpd hk hm
      obtain ⟨q2, lt2, n2, hrun2, hn2, hvar2, hseg2, hTD2, hMS2, hDS2, hEL2, hAC2, hPT2⟩ :=
        ihs hsegs q1 none (n + 2) (by omega)
      refine ⟨q2, lt2, n2, ?_, hn2, hvar2.trans hv1, ?_, hTD2.trans h11, hMS2.trans h12,
        hDS2.trans h13, hEL2.trans h14, hAC2.trans h15, hPT2.trans h16⟩
      · rw [List.flatMap_cons, segmentOutLines_noTitle s hbr hdi hpd hk hm hti,
          List.append_assoc, List.cons_append, List.cons_append, List.nil_append,
          hrun1, hrun2]
      · rw [hseg2, hs1, List.append_assoc]
        rfl
    · have hline : tagInf ++ ":" ++ fmtF3 s.duration ++ "," ++ s.title =
          tagInf ++ ":" ++ (fmtF3 s.duration ++ "," ++ s.title) := by
        apply String.ext
        simp [String.data_append]
      obtain ⟨q1, hrun1, hv1, hs1, h11, h12, h13, h14, h15, h16⟩ :=
        parseLoop_segStep s (fmtF3 s.duration ++ "," ++ s.title)
          (segs.flatMap segmentOutLines ++ rest) q lt n hn
          hu1 hu2 (parseInfValue_comma _ s.title s.duration hnc hpf)
          hbr hdi hpd hk hm
      obtain ⟨q2, lt2, n2, hrun2, hn2, hvar2, hseg2, hTD2, hMS2, hDS2, hEL2, hAC2, hPT2⟩ :=
        ihs hsegs q1 none (n + 2) (by omega)
      refine ⟨q2, lt2, n2, ?_, hn2, hvar2.trans hv1, ?_, hTD2.trans h11, hMS2.trans h12,
        hDS2.trans h13, hEL2.trans h14, hAC2.trans h15, hPT2.trans h16⟩
      · rw [List.flatMap_cons, segmentOutLines_title s hbr hdi hpd hk hm hti,
          List.append_assoc, List.cons_append, List.cons_append, List.nil_append,
          hline, hrun1, hrun2]
      · rw [hseg2, hs1, List.append_assoc]
        rfl

theorem processVariantURI_ok (q : Playlist) (t : Tag) (u : String) (bw : Nat)
    (hbw : parseAttributeUint t.attributes "BANDWIDTH" = Except.ok bw) :
    processVariantURI q t u = Except.ok (addVariant q u bw t.attributes) := by
  unfold processVariantURI
  rw [hbw]
  rfl

theorem addVariant_variants (q : Playlist) (u : String) (b : Nat) (a : List (String × String)) :
    (addVariant q u b a).master.variants =
      q.master.variants ++ (addVariant newPlaylist u b a).master.variants := by
  simp [addVariant, newPlaylist]

theorem addVariant_media (q : Playlist) (u : String) (b : Nat) (a : List (String × String)) :
    (addVariant q u b a).media = q.media := rfl

theorem parseLoop_variantStep (v : Variant) (rest2 : List String) (q : Playlist)
    (lt : Option Tag) (n : Nat) (hn : 1 ≤ n)
    (hu1 : ¬ trimSpace v.uri = "") (hu2 : startsWithGo v.uri "#" = false)
    (bw : Nat)
    (hbw : parseAttributeUint (parseAttributes v.rawAttributes) "BANDWIDTH" = Except.ok bw)
    (hone : (addVariant newPlaylist v.uri bw (parseAttributes v.rawAttributes)).master.variants = [v]) :
    ∃ q', parseLoop ((tagStreamInf ++ ":" ++ v.rawAttributes) :: v.uri :: rest2) q lt n =
        parseLoop rest2 q' none (n + 2) ∧
      q'.master.variants = q.master.variants ++ [v] ∧
      q'.media = q.media := by
  have hsplit := parseTag_split tagStreamInf v.rawAttributes (by decide)
  have hname : (parseTag (tagStreamInf ++ ":" ++ v.rawAttributes)).name = tagStreamInf := by
    rw [hsplit]
  have hattr : (parseTag (tagStreamInf ++ ":" ++ v.rawAttributes)).attributes =
      parseAttributes v.rawAttributes := by
    rw [hsplit, if_pos (Or.inl rfl)]
  have hstep1 := parseLoop_cons_tag (tagStreamInf ++ ":" ++ v.rawAttributes) (v.uri :: rest2)
    q lt n _
    (by omega)
    (trimSpace_hash_ne _ (startsWithGo_hash_append tagStreamInf v.rawAttributes (by decide)))
    (startsWithGo_hash_append tagStreamInf v.rawAttributes (by decide))
    (processTag_streamInf { q with rawLines := q.rawLines ++ [tagStreamInf ++ ":" ++ v.rawAttributes] } _ hname)
  refine ⟨addVariant { q with type := PlaylistType.master, tags := q.tags ++ [parseTag (tagStreamInf ++ ":" ++ v.rawAttributes)], rawLines := q.rawLines ++ [tagStreamInf ++ ":" ++ v.rawAttributes] ++ [v.uri] } v.uri bw (parseTag (tagStreamInf ++ ":" ++ v.rawAttributes)).attributes, ?_, ?_, ?_⟩
  · rw [hstep1]
    rw [parseLoop_cons_uri_variant v.uri rest2 _ _ (n + 1) _ (by omega) hu1 hu2 hname
      (processVariantURI_ok _ _ v.uri bw (by rw [hattr]; exact hbw))]
  · rw [addVariant_variants, hattr, hone]
  · rw [addVariant_media]

theorem parseLoop_variantSection (vs : List Variant)
    (h : ∀ v ∈ vs, ¬ trimSpace v.uri = "" ∧ startsWithGo v.uri "#" = false ∧
      ∃ bw, parseAttributeUint (parseAttributes v.rawAttributes) "BANDWIDTH" = Except.ok bw ∧
        (addVariant newPlaylist v.uri bw (parseAttributes v.rawAttributes)).master.variants = [v])
    (rest : List String) :
    ∀ (q : Playlist) (lt : Option Tag) (n : Nat), 1 ≤ n →
    ∃ q' lt' n', parseLoop (vs.flatMap (fun v => [tagStreamInf ++ ":" ++ v.rawAttributes, v.uri]) ++ rest) q lt n =
        parseLoop rest q' lt' n' ∧ 1 ≤ n' ∧
      q'.master.variants = q.master.variants ++ vs ∧
      q'.media = q.media := by
  induction vs with
  | nil =>
    intro q lt n hn
    exact ⟨q, lt, n, rfl, hn, by simp, rfl⟩
  | cons v vs ihv =>
    intro q lt n hn
    obtain ⟨hu1, hu2, bw, hbw, hone⟩ := h v (List.mem_cons_self _ _)
    have hvs : ∀ x ∈ vs, _ := fun x hx => h x (List.mem_cons_of_mem _ hx)
    obtain ⟨q1, hrun1, hvar1, hmed1⟩ :=
      parseLoop_variantStep v (vs.flatMap (fun v => [tagStreamInf ++ ":" ++ v.rawAttributes, v.uri]) ++ rest)
        q lt n hn hu1 hu2 bw hbw hone
    obtain ⟨q2, lt2, n2, hrun2, hn2, hvar2, hmed2⟩ := ihv hvs q1 none (n + 2) (by omega)
    refine ⟨q2, lt2, n2, ?_, hn2, ?_, hmed2.trans hmed1⟩
    · rw [List.flatMap_cons, List.append_assoc, List.cons_append, List.cons_append,
        List.nil_append, hrun1, hrun2]
    · rw [hvar2, hvar1, List.append_assoc]
      rfl

theorem map_ite_singleton {α β : Type} (b : Prop) [Decidable b] (t : α) (f : α → β) :
    (if b then [t] else []).map f = (if b then [f t] else []) := by
  by_cases hb : b <;> simp [hb]

theorem any_ite_singleton {α : Type} (b : Prop) [Decidable b] (t : α) (f : α → Bool) :
    (if b then [t] else []).any f = (decide b && f t) := by
  by_cases hb : b <;> simp [hb]

theorem forall_mem_ite_singleton {α : Type} (b : Prop) [Decidable b] (t : α) (P : α → Prop)
    (h : b → P t) : ∀ x ∈ (if b then [t] else []), P x := by
  by_cases hb : b
  · rw [if_pos hb]
    intro x hx
    rw [List.mem_singleton] at hx
    rw [hx]
    exact h hb
  · rw [if_neg hb]
    intro x hx
    cases hx

theorem forall_mem_singleton {α : Type} (t : α) (P : α → Prop) (h : P t) :
    ∀ x ∈ [t], P x := by
  intro x hx
  rw [List.mem_singleton] at hx
  rw [hx]
  exact h

theorem parseFloatQ_ne_empty {v : String} {d : Rat} (h : parseFloatQ v = some d) :
    ¬ v = "" := by
  intro hc
  rw [hc, show parseFloatQ "" = none from rfl] at h
  cases h

theorem parseUint64_ne_empty {v : String} {k : Nat} (h : parseUint64 v = some k) :
    ¬ v = "" := by
  intro hc
  rw [hc, show parseUint64 "" = none from rfl] at h
  cases h

theorem storedTagOK_named (p : Playlist) (nm val : String)
    (hh : startsWithGo nm "#" = true) (hc : noChar nm ':' = true)
    (h1 : ¬ nm = tagVersion)
    (hTD : nm = tagTargetDuration → parseFloatQ val = some p.media.targetDuration)
    (hMS : nm = tagMediaSequence → parseUint64 val = some p.media.mediaSequence)
    (hDS : nm = tagDiscontinuitySequence → parseUint64 val = some p.media.discontinuitySeq)
    (hEL : nm = tagEndList → p.media.endList = true)
    (hAC : nm = tagAllowCache → decide (¬ val = "NO") = p.media.allowCache)
    (hPT : nm = tagPlaylistType → val = p.media.playlistType)
    (hMG : nm = tagMediaGroup → (assocGet (parseAttributes val) "TYPE").isSome = true ∧
      (assocGet (parseAttributes val) "GROUP-ID").isSome = true)
    (hIF : nm = tagIFrameStreamInf → (assocGet (parseAttributes val) "URI").isSome = true ∧
      (parseAttributeUint (parseAttributes val) "BANDWIDTH").isOk = true)
    (hSD : nm = tagSessionData → (assocGet (parseAttributes val) "DATA-ID").isSome = true) :
    storedTagOK p { name := nm, value := val, attributes := [], rawLine := "" } :=
  ⟨hh, hc, h1, hTD, hMS, hDS, hEL, hAC, hPT, hMG, hIF, hSD⟩

theorem parseLoop_prefix (p : Playlist)
    (hstored : ∀ t ∈ p.tags, ¬ t.name = tagExtM3U → ¬ t.name = tagVersion → storedTagOK p t)
    (hver : atoi (toString p.version) = some p.version)
    (rest : List String) :
    ∃ q lt' n', parseLoop (tagExtM3U :: (tagVersion ++ ":" ++ toString p.version) ::
        ((p.tags.filter (fun t => t.name ≠ tagExtM3U ∧ t.name ≠ tagVersion)).map tagToString ++ rest))
        newPlaylist none 0 = parseLoop rest q lt' n' ∧ 1 ≤ n' ∧
      q.master.variants = [] ∧
      q.media.segments = [] ∧
      q.media.targetDuration =
        (if ((p.tags.filter (fun t => t.name ≠ tagExtM3U ∧ t.name ≠ tagVersion)).any
          (fun t => t.name = tagTargetDuration)) = true then p.media.targetDuration else 0) ∧
      q.media.mediaSequence =
        (if ((p.tags.filter (fun t => t.name ≠ tagExtM3U ∧ t.name ≠ tagVersion)).any
          (fun t => t.name = tagMediaSequence)) = true then p.media.mediaSequence else 0) ∧
      q.media.discontinuitySeq =
        (if ((p.tags.filter (fun t => t.name ≠ tagExtM3U ∧ t.name ≠ tagVersion)).any
          (fun t => t.name = tagDiscontinuitySequence)) = true then p.media.discontinuitySeq else 0) ∧
      q.media.endList = (p.tags.filter (fun t => t.name ≠ tagExtM3U ∧ t.name ≠ tagVersion)).any
        (fun t => t.name = tagEndList) ∧
      q.media.allowCache =
        (if ((p.tags.filter (fun t => t.name ≠ tagExtM3U ∧ t.name ≠ tagVersion)).any
          (fun t => t.name = tagAllowCache)) = true then p.media.allowCache else false) ∧
      q.media.playlistType =
        (if ((p.tags.filter (fun t => t.name ≠ tagExtM3U ∧ t.name ≠ tagVersion)).any
          (fun t => t.name = tagPlaylistType)) = true then p.media.playlistType else "") := by
  have hsplitv := parseTag_split tagVersion (toString p.version) (by decide)
  have hnamev : (parseTag (tagVersion ++ ":" ++ toString p.version)).name = tagVersion := by
    rw [hsplitv]
  have hvaluev : (parseTag (tagVersion ++ ":" ++ toString p.version)).value = toString p.version := by
    rw [hsplitv]
  have hb : ∀ t ∈ p.tags.filter (fun t => t.name ≠ tagExtM3U ∧ t.name ≠ tagVersion),
      storedTagOK p t := by
    intro t ht
    rw [List.mem_filter] at ht
    obtain ⟨hm, hpred⟩ := ht
    have hp2 := of_decide_eq_true hpred
    exact hstored t hm hp2.1 hp2.2
  have e1 := parseLoop_header ((tagVersion ++ ":" ++ toString p.version) ::
    ((p.tags.filter (fun t => t.name ≠ tagExtM3U ∧ t.name ≠ tagVersion)).map tagToString ++ rest))
    newPlaylist none
  have e2 : parseLoop ((tagVersion ++ ":" ++ toString p.version) ::
      ((p.tags.filter (fun t => t.name ≠ tagExtM3U ∧ t.name ≠ tagVersion)).map tagToString ++ rest))
      { newPlaylist with rawLines := newPlaylist.rawLines ++ [tagExtM3U], originalHeader := tagExtM3U }
      none 1 =
      parseLoop ((p.tags.filter (fun t => t.name ≠ tagExtM3U ∧ t.name ≠ tagVersion)).map tagToString ++ rest)
      { newPlaylist with originalHeader := tagExtM3U, version := p.version, tags := newPlaylist.tags ++ [parseTag (tagVersion ++ ":" ++ toString p.version)], rawLines := newPlaylist.rawLines ++ [tagExtM3U] ++ [tagVersion ++ ":" ++ toString p.version] }
      (some (parseTag (tagVersion ++ ":" ++ toString p.version))) 2 :=
    parseLoop_cons_tag _ _ _ _ _ _ (by omega)
      (trimSpace_hash_ne _ (startsWithGo_hash_append tagVersion _ (by decide)))
      (startsWithGo_hash_append tagVersion _ (by decide))
      (processTag_version _ _ hnamev p.version (by rw [hvaluev]; exact hver))
  obtain ⟨q2, lt2, n2, hrun2, hn2, hv2, hs2, hTD2, hMS2, hDS2, hEL2, hAC2, hPT2⟩ :=
    parseLoop_storedSection p
      (p.tags.filter (fun t => t.name ≠ tagExtM3U ∧ t.name ≠ tagVersion)) hb rest
      { newPlaylist with originalHeader := tagExtM3U, version := p.version, tags := newPlaylist.tags ++ [parseTag (tagVersion ++ ":" ++ toString p.version)], rawLines := newPlaylist.rawLines ++ [tagExtM3U] ++ [tagVersion ++ ":" ++ toString p.version] }
      (some (parseTag (tagVersion ++ ":" ++ toString p.version))) 2 (by omega)
  exact ⟨q2, lt2, n2, (e1.trans e2).trans hrun2, hn2, hv2, hs2, hTD2, hMS2, hDS2, hEL2,
    hAC2, hPT2⟩

theorem parseLoop_oneTagChunk (p : Playlist) (t : Tag) (hok : storedTagOK p t)
    (rest : List String) (q : Playlist) (lt : Option Tag) (n : Nat) (hn : 1 ≤ n) :
    ∃ q' lt' n', parseLoop (tagToString t :: rest) q lt n = parseLoop rest q' lt' n' ∧ 1 ≤ n' ∧
      q'.master.variants = q.master.variants ∧
      q'.media.segments = q.media.segments ∧
      q'.media.targetDuration =
        (if t.name = tagTargetDuration then p.media.targetDuration else q.media.targetDuration) ∧
      q'.media.mediaSequence =
        (if t.name = tagMediaSequence then p.media.mediaSequence else q.media.mediaSequence) ∧
      q'.media.discontinuitySeq =
        (if t.name = tagDiscontinuitySequence then p.media.discontinuitySeq else q.media.discontinuitySeq) ∧
      q'.media.endList = (q.media.endList || decide (t.name = tagEndList)) ∧
      q'.media.allowCache =
        (if t.name = tagAllowCache then p.media.allowCache else q.media.allowCache) ∧
      q'.media.playlistType =
        (if t.name = tagPlaylistType then p.media.playlistType else q.media.playlistType) := by
  obtain ⟨q1, hq1, hvar, hseg, hTD, hMS, hDS, hEL, hAC, hPT⟩ :=
    processTag_stored p { q with rawLines := q.rawLines ++ [tagToString t] } t hok
  exact ⟨q1, some (parseTag (tagToString t)), n + 1,
    parseLoop_cons_tag _ _ _ _ _ _ (by omega)
      (trimSpace_hash_ne _ (tagToString_hash t hok.1)) (tagToString_hash t hok.1) hq1,
    by omega, hvar, hseg, hTD, hMS, hDS, hEL, hAC, hPT⟩

theorem parseLoop_iteChunk (p : Playlist) (b : Prop) [Decidable b] (t : Tag)
    (hok : b → storedTagOK p t)
    (rest : List String) (q : Playlist) (lt : Option Tag) (n : Nat) (hn : 1 ≤ n) :
    ∃ q' lt' n', parseLoop ((if b then [tagToString t] else []) ++ rest) q lt n =
        parseLoop rest q' lt' n' ∧ 1 ≤ n' ∧
      q'.master.variants = q.master.variants ∧
      q'.media.segments = q.media.segments ∧
      q'.media.targetDuration =
        (if b ∧ t.name = tagTargetDuration then p.media.targetDuration else q.media.targetDuration) ∧
      q'.media.mediaSequence =
        (if b ∧ t.name = tagMediaSequence then p.media.mediaSequence else q.media.mediaSequence) ∧
      q'.media.discontinuitySeq =
        (if b ∧ t.name = tagDiscontinuitySequence then p.media.discontinuitySeq else q.media.discontinuitySeq) ∧
      q'.media.endList = (q.media.endList || (decide b && decide (t.name = tagEndList))) ∧
      q'.media.allowCache =
        (if b ∧ t.name = tagAllowCache then p.media.allowCache else q.media.allowCache) ∧
      q'.media.playlistType =
        (if b ∧ t.name = tagPlaylistType then p.media.playlistType else q.media.playlistType) := by
  by_cases hb : b
  · rw [if_pos hb]
    obtain ⟨q1, lt1, n1, hrun, hn1, hvar, hseg, hTD, hMS, hDS, hEL, hAC, hPT⟩ :=
      parseLoop_oneTagChunk p t (hok hb) rest q lt n hn
    refine ⟨q1, lt1, n1, hrun, hn1, hvar, hseg, ?_, ?_, ?_, ?_, ?_, ?_⟩
    · rw [hTD]
      by_cases hx : t.name = tagTargetDuration <;> simp [hx, hb]
    · rw [hMS]
      by_cases hx : t.name = tagMediaSequence <;> simp [hx, hb]
    · rw [hDS]
      by_cases hx : t.name = tagDiscontinuitySequence <;> simp [hx, hb]
    · rw [hEL]
      simp [hb]
    · rw [hAC]
      by_cases hx : t.name = tagAllowCache <;> simp [hx, hb]
    · rw [hPT]
      by_cases hx : t.name = tagPlaylistType <;> simp [hx, hb]
  · rw [if_neg hb]
    refine ⟨q, lt, n, rfl, hn, rfl, rfl, ?_, ?_, ?_, ?_, ?_, ?_⟩
    · rw [if_neg (fun hc => hb hc.1)]
    · rw [if_neg (fun hc => hb hc.1)]
    · rw [if_neg (fun hc => hb hc.1)]
    · simp [hb]
    · rw [if_neg (fun hc => hb hc.1)]
    · rw [if_neg (fun hc => hb hc.1)]

theorem bool_or_and_decide_false {a c : Bool} {p : Prop} [Decidable p] (h : ¬ p) :
    (a || (c && decide p)) = a := by
  simp [h]

theorem bool_and_decide_true {c : Bool} {p : Prop} [Decidable p] (h : p) :
    (c && decide p) = c := by
  simp [h]

theorem parseLoop_nil (q : Playlist) (lt : Option Tag) (n : Nat) :
    parseLoop [] q lt n =
      (if q.master.variants ≠ [] then Except.ok { q with type := PlaylistType.master }
       else if q.media.segments ≠ [] then Except.ok { q with type := PlaylistType.media }
       else Except.ok q) := by
  rw [parseLoop.eq_def]

theorem roundTrip_media (p : Playlist)
    (hstored : ∀ t ∈ p.tags, ¬ t.name = tagExtM3U → ¬ t.name = tagVersion → storedTagOK p t)
    (hver : atoi (toString p.version) = some p.version)
    (hty : p.type = PlaylistType.media) (hm : mediaRT p) :
    ∃ p', parse (playlistOutLines p) = Except.ok p' ∧
      p'.master.variants = p.master.variants ∧
      p'.media.segments = p.media.segments ∧
      p'.media.targetDuration = p.media.targetDuration ∧
      p'.media.mediaSequence = p.media.mediaSequence ∧
      p'.media.discontinuitySeq = p.media.discontinuitySeq ∧
      p'.media.endList = p.media.endList ∧
      p'.media.allowCache = p.media.allowCache ∧
      p'.media.playlistType = p.media.playlistType := by
  obtain ⟨hvarnil, hTDq, hMSq, hDSq, hACany, hsegsRT⟩ := hm
  have hout : playlistOutLines p = tagExtM3U :: (tagVersion ++ ":" ++ toString p.version) ::
      ((p.tags.filter (fun t => t.name ≠ tagExtM3U ∧ t.name ≠ tagVersion)).map tagToString ++
       ((if p.media.hasIndependentSegments then [tagIndependentSegments] else []) ++
        ((tagTargetDuration ++ ":" ++ toString (qTruncInt p.media.targetDuration)) ::
         (tagMediaSequence ++ ":" ++ toString p.media.mediaSequence) ::
         ((if p.media.discontinuitySeq > 0 then
             [tagDiscontinuitySequence ++ ":" ++ toString p.media.discontinuitySeq] else []) ++
          ((if ¬p.media.allowCache then [tagAllowCache ++ ":NO"] else []) ++
           ((if p.media.playlistType ≠ "" then [tagPlaylistType ++ ":" ++ p.media.playlistType] else []) ++
            ((if p.media.iFramesOnly then [tagIFramesOnly] else []) ++
             (p.media.segments.flatMap segmentOutLines ++
              (if p.media.endList then [tagEndList] else []))))))))) := by
    unfold playlistOutLines
    rw [if_neg (show ¬ p.type = PlaylistType.master by rw [hty]; decide), if_pos hty]
    simp [List.append_assoc]
  have hparse : parse (playlistOutLines p) =
      parseLoop (tagExtM3U :: (tagVersion ++ ":" ++ toString p.version) ::
      ((p.tags.filter (fun t => t.name ≠ tagExtM3U ∧ t.name ≠ tagVersion)).map tagToString ++
       ((if p.media.hasIndependentSegments then [tagIndependentSegments] else []) ++
        ((tagTargetDuration ++ ":" ++ toString (qTruncInt p.media.targetDuration)) ::
         (tagMediaSequence ++ ":" ++ toString p.media.mediaSequence) ::
         ((if p.media.discontinuitySeq > 0 then
             [tagDiscontinuitySequence ++ ":" ++ toString p.media.discontinuitySeq] else []) ++
          ((if ¬p.media.allowCache then [tagAllowCache ++ ":NO"] else []) ++
           ((if p.media.playlistType ≠ "" then [tagPlaylistType ++ ":" ++ p.media.playlistType] else []) ++
            ((if p.media.iFramesOnly then [tagIFramesOnly] else []) ++
             (p.media.segments.flatMap segmentOutLines ++
              (if p.media.endList then [tagEndList] else []))))))))))
      newPlaylist none 0 :=
    congrArg (fun l => parseLoop l newPlaylist none 0) hout
  obtain ⟨q2, lt2, n2, e2, hn2, v2, s2, td2, ms2, ds2, el2, ac2, pt2⟩ :=
    parseLoop_prefix p hstored hver
      ((if p.media.hasIndependentSegments then [tagIndependentSegments] else []) ++
        ((tagTargetDuration ++ ":" ++ toString (qTruncInt p.media.targetDuration)) ::
         (tagMediaSequence ++ ":" ++ toString p.media.mediaSequence) ::
         ((if p.media.discontinuitySeq > 0 then
             [tagDiscontinuitySequence ++ ":" ++ toString p.media.discontinuitySeq] else []) ++
          ((if ¬p.media.allowCache then [tagAllowCache ++ ":NO"] else []) ++
           ((if p.media.playlistType ≠ "" then [tagPlaylistType ++ ":" ++ p.media.playlistType] else []) ++
            ((if p.media.iFramesOnly then [tagIFramesOnly] else []) ++
             (p.media.segments.flatMap segmentOutLines ++
              (if p.media.endList then [tagEndList] else []))))))))
  obtain ⟨q3, lt3, n3, e3, hn3, v3, s3, td3, ms3, ds3, el3, ac3, pt3⟩ :=
    parseLoop_iteChunk p p.media.hasIndependentSegments
      { name := tagIndependentSegments, value := "", attributes := [], rawLine := "" }
      (fun hb => storedTagOK_named p tagIndependentSegments "" (by decide) (by decide)
        (by decide) (fun k => absurd k (by decide)) (fun k => absurd k (by decide))
        (fun k => absurd k (by decide)) (fun k => absurd k (by decide))
        (fun k => absurd k (by decide)) (fun k => absurd k (by decide))
        (fun k => absurd k (by decide)) (fun k => absurd k (by decide))
        (fun k => absurd k (by decide)))
      ((tagTargetDuration ++ ":" ++ toString (qTruncInt p.media.targetDuration)) ::
         (tagMediaSequence ++ ":" ++ toString p.media.mediaSequence) ::
         ((if p.media.discontinuitySeq > 0 then
             [tagDiscontinuitySequence ++ ":" ++ toString p.media.discontinuitySeq] else []) ++
          ((if ¬p.media.allowCache then [tagAllowCache ++ ":NO"] else []) ++
           ((if p.media.playlistType ≠ "" then [tagPlaylistType ++ ":" ++ p.media.playlistType] else []) ++
            ((if p.media.iFramesOnly then [tagIFramesOnly] else []) ++
             (p.media.segments.flatMap segmentOutLines ++
              (if p.media.endList then [tagEndList] else [])))))))
      q2 lt2 n2 hn2
  obtain ⟨q4, lt4, n4, e4, hn4, v4, s4, td4, ms4, ds4, el4, ac4, pt4⟩ :=
    parseLoop_oneTagChunk p
      { name := tagTargetDuration, value := toString (qTruncInt p.media.targetDuration), attributes := [], rawLine := "" }
      (storedTagOK_named p tagTargetDuration _ (by decide) (by decide) (by decide)
        (fun k => hTDq) (fun k => absurd k (by decide)) (fun k => absurd k (by decide))
        (fun k => absurd k (by decide)) (fun k => absurd k (by decide))
        (fun k => absurd k (by decide)) (fun k => absurd k (by decide))
        (fun k => absurd k (by decide)) (fun k => absurd k (by decide)))
      ((tagMediaSequence ++ ":" ++ toString p.media.mediaSequence) ::
         ((if p.media.discontinuitySeq > 0 then
             [tagDiscontinuitySequence ++ ":" ++ toString p.media.discontinuitySeq] else []) ++
          ((if ¬p.media.allowCache then [tagAllowCache ++ ":NO"] else []) ++
           ((if p.media.playlistType ≠ "" then [tagPlaylistType ++ ":" ++ p.media.playlistType] else []) ++
            ((if p.media.iFramesOnly then [tagIFramesOnly] else []) ++
             (p.media.segments.flatMap segmentOutLines ++
              (if p.media.endList then [tagEndList] else [])))))))
      q3 lt3 n3 hn3
  rw [tagToString_of_value_ne _ (parseFloatQ_ne_empty hTDq)] at e4
  obtain ⟨q5, lt5, n5, e5, hn5, v5, s5, td5, ms5, ds5, el5, ac5, pt5⟩ :=
    parseLoop_oneTagChunk p
      { name := tagMediaSequence, value := toString p.media.mediaSequence, attributes := [], rawLine := "" }
      (storedTagOK_named p tagMediaSequence _ (by decide) (by decide) (by decide)
        (fun k => absurd k (by decide)) (fun k => hMSq) (fun k => absurd k (by decide))
        (fun k => absurd k (by decide)) (fun k => absurd k (by decide))
        (fun k => absurd k (by decide)) (fun k => absurd k (by decide))
        (fun k => absurd k (by decide)) (fun k => absurd k (by decide)))
      ((if p.media.discontinuitySeq > 0 then
             [tagDiscontinuitySequence ++ ":" ++ toString p.media.discontinuitySeq] else []) ++
          ((if ¬p.media.allowCache then [tagAllowCache ++ ":NO"] else []) ++
           ((if p.media.playlistType ≠ "" then [tagPlaylistType ++ ":" ++ p.media.playlistType] else []) ++
            ((if p.media.iFramesOnly then [tagIFramesOnly] else []) ++
             (p.media.segments.flatMap segmentOutLines ++
              (if p.media.endList then [tagEndList] else []))))))
      q4 lt4 n4 hn4
  rw [tagToString_of_value_ne _ (parseUint64_ne_empty hMSq)] at e5
  obtain ⟨q6, lt6, n6, e6, hn6, v6, s6, td6, ms6, ds6, el6, ac6, pt6⟩ :=
    parseLoop_iteChunk p (p.media.discontinuitySeq > 0)
      { name := tagDiscontinuitySequence, value := toString p.media.discontinuitySeq, attributes := [], rawLine := "" }
      (fun hb => storedTagOK_named p tagDiscontinuitySequence _ (by decide) (by decide)
        (by decide) (fun k => absurd k (by decide)) (fun k => absurd k (by decide))
        (fun k => hDSq hb) (fun k => absurd k (by decide)) (fun k => absurd k (by decide))
        (fun k => absurd k (by decide)) (fun k => absurd k (by decide))
        (fun k => absurd k (by decide)) (fun k => absurd k (by decide)))
      ((if ¬p.media.allowCache then [tagAllowCache ++ ":NO"] else []) ++
           ((if p.media.playlistType ≠ "" then [tagPlaylistType ++ ":" ++ p.media.playlistType] else []) ++
            ((if p.media.iFramesOnly then [tagIFramesOnly] else []) ++
             (p.media.segments.flatMap segmentOutLines ++
              (if p.media.endList then [tagEndList] else [])))))
      q5 lt5 n5 hn5
  have hdsline : (if p.media.discontinuitySeq > 0 then
      [tagToString { name := tagDiscontinuitySequence, value := toString p.media.discontinuitySeq, attributes := [], rawLine := "" }] else []) =
      (if p.media.discontinuitySeq > 0 then
      [tagDiscontinuitySequence ++ ":" ++ toString p.media.discontinuitySeq] else []) := by
    by_cases hb : p.media.discontinuitySeq > 0
    · rw [if_pos hb, if_pos hb, tagToString_of_value_ne _ (parseUint64_ne_empty (hDSq hb))]
    · rw [if_neg hb, if_neg hb]
  rw [hdsline] at e6
  obtain ⟨q7, lt7, n7, e7, hn7, v7, s7, td7, ms7, ds7, el7, ac7, pt7⟩ :=
    parseLoop_iteChunk p (¬p.media.allowCache)
      { name := tagAllowCache, value := "NO", attributes := [], rawLine := "" }
      (fun hb => storedTagOK_named p tagAllowCache "NO" (by decide) (by decide)
        (by decide) (fun k => absurd k (by decide)) (fun k => absurd k (by decide))
        (fun k => absurd k (by decide)) (fun k => absurd k (by decide))
        (fun k => by simp at hb ⊢; rw [hb]) (fun k => absurd k (by decide))
        (fun k => absurd k (by decide)) (fun k => absurd k (by decide))
        (fun k => absurd k (by decide)))
      ((if p.media.playlistType ≠ "" then [tagPlaylistType ++ ":" ++ p.media.playlistType] else []) ++
            ((if p.media.iFramesOnly then [tagIFramesOnly] else []) ++
             (p.media.segments.flatMap segmentOutLines ++
              (if p.media.endList then [tagEndList] else []))))
      q6 lt6 n6 hn6
  obtain ⟨q8, lt8, n8, e8, hn8, v8, s8, td8, ms8, ds8, el8, ac8, pt8⟩ :=
    parseLoop_iteChunk p (p.media.playlistType ≠ "")
      { name := tagPlaylistType, value := p.media.playlistType, attributes := [], rawLine := "" }
      (fun hb => storedTagOK_named p tagPlaylistType _ (by decide) (by decide)
        (by decide) (fun k => absurd k (by decide)) (fun k => absurd k (by decide))
        (fun k => absurd k (by decide)) (fun k => absurd k (by decide))
        (fun k => absurd k (by decide)) (fun k => rfl)
        (fun k => absurd k (by decide)) (fun k => absurd k (by decide))
        (fun k => absurd k (by decide)))
      ((if p.media.iFramesOnly then [tagIFramesOnly] else []) ++
             (p.media.segments.flatMap segmentOutLines ++
              (if p.media.endList then [tagEndList] else [])))
      q7 lt7 n7 hn7
  have hptline : (if p.media.playlistType ≠ "" then
      [tagToString { name := tagPlaylistType, value := p.media.playlistType, attributes := [], rawLine := "" }] else []) =
      (if p.media.playlistType ≠ "" then [tagPlaylistType ++ ":" ++ p.media.playlistType] else []) := by
    by_cases hb : p.media.playlistType ≠ ""
    · rw [if_pos hb, if_pos hb, tagToString_of_value_ne _ hb]
    · rw [if_neg hb, if_neg hb]
  rw [hptline] at e8
  obtain ⟨q9, lt9, n9, e9, hn9, v9, s9, td9, ms9, ds9, el9, ac9, pt9⟩ :=
    parseLoop_iteChunk p p.media.iFramesOnly
      { name := tagIFramesOnly, value := "", attributes := [], rawLine := "" }
      (fun hb => storedTagOK_named p tagIFramesOnly "" (by decide) (by decide)
        (by decide) (fun k => absurd k (by decide)) (fun k => absurd k (by decide))
        (fun k => absurd k (by decide)) (fun k => absurd k (by decide))
        (fun k => absurd k (by decide)) (fun k => absurd k (by decide))
        (fun k => absurd k (by decide)) (fun k => absurd k (by decide))
        (fun k => absurd k (by decide)))
      (p.media.segments.flatMap segmentOutLines ++
        (if p.media.endList then [tagEndList] else []))
      q8 lt8 n8 hn8
  obtain ⟨q10, lt10, n10, e10, hn10, v10, s10, td10, ms10, ds10, el10, ac10, pt10⟩ :=
    parseLoop_segSection p.media.segments hsegsRT
      (if p.media.endList then [tagEndList] else []) q9 lt9 n9 hn9
  obtain ⟨q11, lt11, n11, e11, hn11, v11, s11, td11, ms11, ds11, el11, ac11, pt11⟩ :=
    parseLoop_iteChunk p p.media.endList
      { name := tagEndList, value := "", attributes := [], rawLine := "" }
      (fun hb => storedTagOK_named p tagEndList "" (by decide) (by decide)
        (by decide) (fun k => absurd k (by decide)) (fun k => absurd k (by decide))
        (fun k => absurd k (by decide)) (fun k => hb) (fun k => absurd k (by decide))
        (fun k => absurd k (by decide)) (fun k => absurd k (by decide))
        (fun k => absurd k (by decide)) (fun k => absurd k (by decide)))
      [] q10 lt10 n10 hn10
  rw [List.append_nil] at e11
  have echain : parse (playlistOutLines p) = parseLoop [] q11 lt11 n11 :=
    ((((((((((hparse.trans e2).trans e3).trans e4).trans e5).trans e6).trans e7).trans
      e8).trans e9).trans e10).trans e11)
  -- final field values
  have fvar : q11.master.variants = [] :=
    ((((((((v11.trans v10).trans v9).trans v8).trans v7).trans v6).trans v5).trans
      v4).trans v3).trans v2
  have fseg : q11.media.segments = p.media.segments := by
    have h9 : q9.media.segments = [] :=
      (((((((s9.trans s8).trans s7).trans s6).trans s5).trans s4).trans s3).trans s2)
    rw [s11, s10, h9, List.nil_append]
  have ftd : q11.media.targetDuration = p.media.targetDuration := by
    rw [td11.trans (if_neg (fun hc => absurd hc.2 (show ¬ tagEndList = tagTargetDuration by decide))),
      td10, td9.trans (if_neg (fun hc => absurd hc.2 (show ¬ tagIFramesOnly = tagTargetDuration by decide))),
      td8.trans (if_neg (fun hc => absurd hc.2 (show ¬ tagPlaylistType = tagTargetDuration by decide))),
      td7.trans (if_neg (fun hc => absurd hc.2 (show ¬ tagAllowCache = tagTargetDuration by decide))),
      td6.trans (if_neg (fun hc => absurd hc.2 (show ¬ tagDiscontinuitySequence = tagTargetDuration by decide))),
      td5.trans (if_neg (show ¬ tagMediaSequence = tagTargetDuration by decide)),
      td4.trans (if_pos rfl)]
  have fms : q11.media.mediaSequence = p.media.mediaSequence := by
    rw [ms11.trans (if_neg (fun hc => absurd hc.2 (show ¬ tagEndList = tagMediaSequence by decide))),
      ms10, ms9.trans (if_neg (fun hc => absurd hc.2 (show ¬ tagIFramesOnly = tagMediaSequence by decide))),
      ms8.trans (if_neg (fun hc => absurd hc.2 (show ¬ tagPlaylistType = tagMediaSequence by decide))),
      ms7.trans (if_neg (fun hc => absurd hc.2 (show ¬ tagAllowCache = tagMediaSequence by decide))),
      ms6.trans (if_neg (fun hc => absurd hc.2 (show ¬ tagDiscontinuitySequence = tagMediaSequence by decide))),
      ms5.trans (if_pos rfl)]
  have fds : q11.media.discontinuitySeq = p.media.discontinuitySeq := by
    rw [ds11.trans (if_neg (fun hc => absurd hc.2 (show ¬ tagEndList = tagDiscontinuitySequence by decide))),
      ds10, ds9.trans (if_neg (fun hc => absurd hc.2 (show ¬ tagIFramesOnly = tagDiscontinuitySequence by decide))),
      ds8.trans (if_neg (fun hc => absurd hc.2 (show ¬ tagPlaylistType = tagDiscontinuitySequence by decide))),
      ds7.trans (if_neg (fun hc => absurd hc.2 (show ¬ tagAllowCache = tagDiscontinuitySequence by decide)))]
    by_cases hb : p.media.discontinuitySeq > 0
    · rw [ds6.trans (if_pos ⟨hb, rfl⟩)]
    · rw [ds6.trans (if_neg (fun hc => hb hc.1)),
        ds5.trans (if_neg (show ¬ tagMediaSequence = tagDiscontinuitySequence by decide)),
        ds4.trans (if_neg (show ¬ tagTargetDuration = tagDiscontinuitySequence by decide)),
        ds3.trans (if_neg (fun hc => absurd hc.2 (show ¬ tagIndependentSegments = tagDiscontinuitySequence by decide))), ds2]
      have hz : p.media.discontinuitySeq = 0 := by omega
      rw [hz]
      by_cases ha : ((p.tags.filter (fun t => t.name ≠ tagExtM3U ∧ t.name ≠ tagVersion)).any
          (fun t => t.name = tagDiscontinuitySequence)) = true
      · rw [if_pos ha]
      · rw [if_neg ha]
  have fel : q11.media.endList = p.media.endList := by
    have h10 : q10.media.endList =
        ((p.tags.filter (fun t => t.name ≠ tagExtM3U ∧ t.name ≠ tagVersion)).any
          (fun t => t.name = tagEndList)) := by
      rw [el10,
        el9.trans (bool_or_and_decide_false (show ¬ tagIFramesOnly = tagEndList by decide)),
        el8.trans (bool_or_and_decide_false (show ¬ tagPlaylistType = tagEndList by decide)),
        el7.trans (bool_or_and_decide_false (show ¬ tagAllowCache = tagEndList by decide)),
        el6.trans (bool_or_and_decide_false (show ¬ tagDiscontinuitySequence = tagEndList by decide)),
        el5.trans (bool_or_decide_false (show ¬ tagMediaSequence = tagEndList by decide)),
        el4.trans (bool_or_decide_false (show ¬ tagTargetDuration = tagEndList by decide)),
        el3.trans (bool_or_and_decide_false (show ¬ tagIndependentSegments = tagEndList by decide)),
        el2]
    have h11b := el11.trans (congrArg (fun z => q10.media.endList || z)
      (bool_and_decide_true (show tagEndList = tagEndList from rfl)))
    rw [h11b, h10]
    cases hEL : p.media.endList
    · have hnone : ((p.tags.filter (fun t => t.name ≠ tagExtM3U ∧ t.name ≠ tagVersion)).any
          (fun t => t.name = tagEndList)) = false := by
        cases hany : ((p.tags.filter (fun t => t.name ≠ tagExtM3U ∧ t.name ≠ tagVersion)).any
            (fun t => t.name = tagEndList))
        · rfl
        · rw [List.any_eq_true] at hany
          obtain ⟨t, ht, hname⟩ := hany
          rw [List.mem_filter] at ht
          have h2 := of_decide_eq_true ht.2
          have hok := hstored t ht.1 h2.1 h2.2
          have hcon := hok.2.2.2.2.2.2.1 (of_decide_eq_true hname)
          rw [hEL] at hcon
          cases hcon
      rw [hnone]
      simp
    · simp
  have fac : q11.media.allowCache = p.media.allowCache := by
    rw [ac11.trans (if_neg (fun hc => absurd hc.2 (show ¬ tagEndList = tagAllowCache by decide))), ac10,
      ac9.trans (if_neg (fun hc => absurd hc.2 (show ¬ tagIFramesOnly = tagAllowCache by decide))),
      ac8.trans (if_neg (fun hc => absurd hc.2 (show ¬ tagPlaylistType = tagAllowCache by decide)))]
    by_cases hac : p.media.allowCache = true
    · rw [ac7.trans (if_neg (fun hc => hc.1 hac)),
        ac6.trans (if_neg (fun hc => absurd hc.2 (show ¬ tagDiscontinuitySequence = tagAllowCache by decide))),
        ac5.trans (if_neg (show ¬ tagMediaSequence = tagAllowCache by decide)),
        ac4.trans (if_neg (show ¬ tagTargetDuration = tagAllowCache by decide)),
        ac3.trans (if_neg (fun hc => absurd hc.2 (show ¬ tagIndependentSegments = tagAllowCache by decide))), ac2]
      have hany := hACany hac
      rw [List.any_eq_true] at hany
      obtain ⟨t, ht, hname⟩ := hany
      have hnm := of_decide_eq_true hname
      have hmem2 : t ∈ p.tags.filter (fun t => t.name ≠ tagExtM3U ∧ t.name ≠ tagVersion) := by
        rw [List.mem_filter]
        refine ⟨ht, ?_⟩
        apply decide_eq_true
        rw [hnm]
        exact ⟨by decide, by decide⟩
      rw [if_pos (List.any_eq_true.mpr ⟨t, hmem2, hname⟩)]
    · rw [ac7.trans (if_pos ⟨fun hc => hac hc, rfl⟩)]
  have fpt : q11.media.playlistType = p.media.playlistType := by
    rw [pt11.trans (if_neg (fun hc => absurd hc.2 (show ¬ tagEndList = tagPlaylistType by decide))), pt10,
      pt9.trans (if_neg (fun hc => absurd hc.2 (show ¬ tagIFramesOnly = tagPlaylistType by decide)))]
    by_cases hpt : p.media.playlistType ≠ ""
    · rw [pt8.trans (if_pos ⟨hpt, rfl⟩)]
    · rw [pt8.trans (if_neg (fun hc => hpt hc.1)),
        pt7.trans (if_neg (fun hc => absurd hc.2 (show ¬ tagAllowCache = tagPlaylistType by decide))),
        pt6.trans (if_neg (fun hc => absurd hc.2 (show ¬ tagDiscontinuitySequence = tagPlaylistType by decide))),
        pt5.trans (if_neg (show ¬ tagMediaSequence = tagPlaylistType by decide)),
        pt4.trans (if_neg (show ¬ tagTargetDuration = tagPlaylistType by decide)),
        pt3.trans (if_neg (fun hc => absurd hc.2 (show ¬ tagIndependentSegments = tagPlaylistType by decide))), pt2]
      have hz : p.media.playlistType = "" := by
        by_contra hc
        exact hpt hc
      rw [hz]
      by_cases ha : ((p.tags.filter (fun t => t.name ≠ tagExtM3U ∧ t.name ≠ tagVersion)).any
          (fun t => t.name = tagPlaylistType)) = true
      · rw [if_pos ha]
      · rw [if_neg ha]
  have efinal := echain.trans (parseLoop_nil q11 lt11 n11)
  rw [if_neg (fun hc => hc fvar)] at efinal
  by_cases hs : q11.media.segments ≠ []
  · rw [if_pos hs] at efinal
    exact ⟨{ q11 with type := PlaylistType.media }, efinal, fvar.trans hvarnil.symm, fseg,
      ftd, fms, fds, fel, fac, fpt⟩
  · rw [if_neg hs] at efinal
    exact ⟨q11, efinal, fvar.trans hvarnil.symm, fseg, ftd, fms, fds, fel, fac, fpt⟩

theorem any_name_false_of_all (ts : List Tag) (nm target : String)
    (h : ∀ t ∈ ts, t.name = nm) (hne : ¬ nm = target) :
    (ts.any (fun t => t.name = target)) = false := by
  cases hany : ts.any (fun t => t.name = target)
  · rfl
  · rw [List.any_eq_true] at hany
    obtain ⟨t, ht, hx⟩ := hany
    exact absurd ((h t ht).symm.trans (of_decide_eq_true hx)) hne

theorem raw_ne_empty_of_type_isSome {raw : String}
    (h : (assocGet (parseAttributes raw) "TYPE").isSome = true) : ¬ raw = "" := by
  intro hc
  rw [hc] at h
  exact Bool.noConfusion h

theorem raw_ne_empty_of_uri_isSome {raw : String}
    (h : (assocGet (parseAttributes raw) "URI").isSome = true) : ¬ raw = "" := by
  intro hc
  rw [hc] at h
  exact Bool.noConfusion h

theorem raw_ne_empty_of_dataid_isSome {raw : String}
    (h : (assocGet (parseAttributes raw) "DATA-ID").isSome = true) : ¬ raw = "" := by
  intro hc
  rw [hc] at h
  exact Bool.noConfusion h

/-- A uniform-name benign tag section: the effect of a `storedSection` whose
tags all bear one fixed non-tracked name. -/
theorem parseLoop_inertSection (p : Playlist) (ts : List Tag) (nm : String)
    (h : ∀ t ∈ ts, storedTagOK p t)
    (hnm : ∀ t ∈ ts, t.name = nm)
    (h2 : ¬ nm = tagTargetDuration) (h3 : ¬ nm = tagMediaSequence)
    (h4 : ¬ nm = tagDiscontinuitySequence) (h5 : ¬ nm = tagEndList)
    (h6 : ¬ nm = tagAllowCache) (h7 : ¬ nm = tagPlaylistType)
    (rest : List String) (q : Playlist) (lt : Option Tag) (n : Nat) (hn : 1 ≤ n) :
    ∃ q' lt' n', parseLoop (ts.map tagToString ++ rest) q lt n = parseLoop rest q' lt' n' ∧
      1 ≤ n' ∧
      q'.master.variants = q.master.variants ∧
      q'.media.segments = q.media.segments ∧
      q'.media.targetDuration = q.media.targetDuration ∧
      q'.media.mediaSequence = q.media.mediaSequence ∧
      q'.media.discontinuitySeq = q.media.discontinuitySeq ∧
      q'.media.endList = q.media.endList ∧
      q'.media.allowCache = q.media.allowCache ∧
      q'.media.playlistType = q.media.playlistType := by
  obtain ⟨q', lt', n', hrun, hn', hv, hs, hTD, hMS, hDS, hEL, hAC, hPT⟩ :=
    parseLoop_storedSection p ts h rest q lt n hn
  refine ⟨q', lt', n', hrun, hn', hv, hs, ?_, ?_, ?_, ?_, ?_, ?_⟩
  · rw [hTD, any_name_false_of_all ts nm _ hnm h2]
    rw [if_neg (show ¬ (false = true) by decide)]
  · rw [hMS, any_name_false_of_all ts nm _ hnm h3]
    rw [if_neg (show ¬ (false = true) by decide)]
  · rw [hDS, any_name_false_of_all ts nm _ hnm h4]
    rw [if_neg (show ¬ (false = true) by decide)]
  · rw [hEL, any_name_false_of_all ts nm _ hnm h5]
    exact Bool.or_false _
  · rw [hAC, any_name_false_of_all ts nm _ hnm h6]
    rw [if_neg (show ¬ (false = true) by decide)]
  · rw [hPT, any_name_false_of_all ts nm _ hnm h7]
    rw [if_neg (show ¬ (false = true) by decide)]

theorem roundTrip_master (p : Playlist)
    (hstored : ∀ t ∈ p.tags, ¬ t.name = tagExtM3U → ¬ t.name = tagVersion → storedTagOK p t)
    (hver : atoi (toString p.version) = some p.version)
    (hty : p.type = PlaylistType.master) (hm : masterRT p) :
    ∃ p', parse (playlistOutLines p) = Except.ok p' ∧
      p'.master.variants = p.master.variants ∧
      p'.media.segments = p.media.segments ∧
      p'.media.targetDuration = p.media.targetDuration ∧
      p'.media.mediaSequence = p.media.mediaSequence ∧
      p'.media.discontinuitySeq = p.media.discontinuitySeq ∧
      p'.media.endList = p.media.endList ∧
      p'.media.allowCache = p.media.allowCache ∧
      p'.media.playlistType = p.media.playlistType := by
  obtain ⟨hseg0, hTD0, hMS0, hDS0, hEL0, hAC0, hPT0, hMG, hSD, hIF, hVar⟩ := hm
  have hout : playlistOutLines p = tagExtM3U :: (tagVersion ++ ":" ++ toString p.version) ::
      ((p.tags.filter (fun t => t.name ≠ tagExtM3U ∧ t.name ≠ tagVersion)).map tagToString ++
       ((if p.master.hasIndependentSegments then [tagIndependentSegments] else []) ++
        (p.master.mediaGroups.flatMap (fun kv =>
            kv.2.map (fun g => tagMediaGroup ++ ":" ++ g.rawAttributes)) ++
         (p.master.sessionData.map (fun d => tagSessionData ++ ":" ++ d.rawAttributes) ++
          (p.master.variants.flatMap (fun v => [tagStreamInf ++ ":" ++ v.rawAttributes, v.uri]) ++
           p.master.iFrameStreams.map (fun f => tagIFrameStreamInf ++ ":" ++ f.rawAttributes)))))) := by
    unfold playlistOutLines
    rw [if_pos hty]
    simp [List.append_assoc]
  have hparse : parse (playlistOutLines p) =
      parseLoop (tagExtM3U :: (tagVersion ++ ":" ++ toString p.version) ::
      ((p.tags.filter (fun t => t.name ≠ tagExtM3U ∧ t.name ≠ tagVersion)).map tagToString ++
       ((if p.master.hasIndependentSegments then [tagIndependentSegments] else []) ++
        (p.master.mediaGroups.flatMap (fun kv =>
            kv.2.map (fun g => tagMediaGroup ++ ":" ++ g.rawAttributes)) ++
         (p.master.sessionData.map (fun d => tagSessionData ++ ":" ++ d.rawAttributes) ++
          (p.master.variants.flatMap (fun v => [tagStreamInf ++ ":" ++ v.rawAttributes, v.uri]) ++
           p.master.iFrameStreams.map (fun f => tagIFrameStreamInf ++ ":" ++ f.rawAttributes)))))))
      newPlaylist none 0 :=
    congrArg (fun l => parseLoop l newPlaylist none 0) hout
  obtain ⟨q2, lt2, n2, e2, hn2, v2, s2, td2, ms2, ds2, el2, ac2, pt2⟩ :=
    parseLoop_prefix p hstored hver
      ((if p.master.hasIndependentSegments then [tagIndependentSegments] else []) ++
        (p.master.mediaGroups.flatMap (fun kv =>
            kv.2.map (fun g => tagMediaGroup ++ ":" ++ g.rawAttributes)) ++
         (p.master.sessionData.map (fun d => tagSessionData ++ ":" ++ d.rawAttributes) ++
          (p.master.variants.flatMap (fun v => [tagStreamInf ++ ":" ++ v.rawAttributes, v.uri]) ++
           p.master.iFrameStreams.map (fun f => tagIFrameStreamInf ++ ":" ++ f.rawAttributes)))))
  obtain ⟨q3, lt3, n3, e3, hn3, v3, s3, td3, ms3, ds3, el3, ac3, pt3⟩ :=
    parseLoop_iteChunk p p.master.hasIndependentSegments
      { name := tagIndependentSegments, value := "", attributes := [], rawLine := "" }
      (fun hb => storedTagOK_named p tagIndependentSegments "" (by decide) (by decide)
        (by decide) (fun k => absurd k (by decide)) (fun k => absurd k (by decide))
        (fun k => absurd k (by decide)) (fun k => absurd k (by decide))
        (fun k => absurd k (by decide)) (fun k => absurd k (by decide))
        (fun k => absurd k (by decide)) (fun k => absurd k (by decide))
        (fun k => absurd k (by decide)))
      (p.master.mediaGroups.flatMap (fun kv =>
            kv.2.map (fun g => tagMediaGroup ++ ":" ++ g.rawAttributes)) ++
         (p.master.sessionData.map (fun d => tagSessionData ++ ":" ++ d.rawAttributes) ++
          (p.master.variants.flatMap (fun v => [tagStreamInf ++ ":" ++ v.rawAttributes, v.uri]) ++
           p.master.iFrameStreams.map (fun f => tagIFrameStreamInf ++ ":" ++ f.rawAttributes))))
      q2 lt2 n2 hn2
  have hbMG : ∀ t ∈ p.master.mediaGroups.flatMap (fun kv =>
      kv.2.map (fun g => ({ name := tagMediaGroup, value := g.rawAttributes, attributes := [], rawLine := "" } : Tag))),
      storedTagOK p t := by
    intro t ht
    rw [List.mem_flatMap] at ht
    obtain ⟨kv, hkv, ht2⟩ := ht
    rw [List.mem_map] at ht2
    obtain ⟨g, hg, rfl⟩ := ht2
    exact storedTagOK_named p tagMediaGroup g.rawAttributes (by decide) (by decide) (by decide)
      (fun k => absurd k (by decide)) (fun k => absurd k (by decide))
      (fun k => absurd k (by decide)) (fun k => absurd k (by decide))
      (fun k => absurd k (by decide)) (fun k => absurd k (by decide))
      (fun k => hMG kv hkv g hg) (fun k => absurd k (by decide))
      (fun k => absurd k (by decide))
  have hnMG : ∀ t ∈ p.master.mediaGroups.flatMap (fun kv =>
      kv.2.map (fun g => ({ name := tagMediaGroup, value := g.rawAttributes, attributes := [], rawLine := "" } : Tag))),
      t.name = tagMediaGroup := by
    intro t ht
    rw [List.mem_flatMap] at ht
    obtain ⟨kv, hkv, ht2⟩ := ht
    rw [List.mem_map] at ht2
    obtain ⟨g, hg, rfl⟩ := ht2
    rfl
  have hMGlines : (p.master.mediaGroups.flatMap (fun kv =>
      kv.2.map (fun g => ({ name := tagMediaGroup, value := g.rawAttributes, attributes := [], rawLine := "" } : Tag)))).map tagToString =
      p.master.mediaGroups.flatMap (fun kv =>
        kv.2.map (fun g => tagMediaGroup ++ ":" ++ g.rawAttributes)) := by
    rw [List.map_flatMap]
    apply List.flatMap_congr
    intro kv hkv
    rw [List.map_map]
    apply List.map_congr_left
    intro g hg
    exact tagToString_of_value_ne _ (raw_ne_empty_of_type_isSome (hMG kv hkv g hg).1)
  obtain ⟨q4, lt4, n4, e4, hn4, v4, s4, td4, ms4, ds4, el4, ac4, pt4⟩ :=
    parseLoop_inertSection p
      (p.master.mediaGroups.flatMap (fun kv =>
        kv.2.map (fun g => ({ name := tagMediaGroup, value := g.rawAttributes, attributes := [], rawLine := "" } : Tag))))
      tagMediaGroup hbMG hnMG (by decide) (by decide) (by decide) (by decide) (by decide)
      (by decide)
      (p.master.sessionData.map (fun d => tagSessionData ++ ":" ++ d.rawAttributes) ++
          (p.master.variants.flatMap (fun v => [tagStreamInf ++ ":" ++ v.rawAttributes, v.uri]) ++
           p.master.iFrameStreams.map (fun f => tagIFrameStreamInf ++ ":" ++ f.rawAttributes)))
      q3 lt3 n3 hn3
  rw [hMGlines] at e4
  have hbSD : ∀ t ∈ p.master.sessionData.map (fun d =>
      ({ name := tagSessionData, value := d.rawAttributes, attributes := [], rawLine := "" } : Tag)),
      storedTagOK p t := by
    intro t ht
    rw [List.mem_map] at ht
    obtain ⟨d, hd, rfl⟩ := ht
    exact storedTagOK_named p tagSessionData d.rawAttributes (by decide) (by decide) (by decide)
      (fun k => absurd k (by decide)) (fun k => absurd k (by decide))
      (fun k => absurd k (by decide)) (fun k => absurd k (by decide))
      (fun k => absurd k (by decide)) (fun k => absurd k (by decide))
      (fun k => absurd k (by decide)) (fun k => absurd k (by decide))
      (fun k => hSD d hd)
  have hnSD : ∀ t ∈ p.master.sessionData.map (fun d =>
      ({ name := tagSessionData, value := d.rawAttributes, attributes := [], rawLine := "" } : Tag)),
      t.name = tagSessionData := by
    intro t ht
    rw [List.mem_map] at ht
    obtain ⟨d, hd, rfl⟩ := ht
    rfl
  have hSDlines : (p.master.sessionData.map (fun d =>
      ({ name := tagSessionData, value := d.rawAttributes, attributes := [], rawLine := "" } : Tag))).map tagToString =
      p.master.sessionData.map (fun d => tagSessionData ++ ":" ++ d.rawAttributes) := by
    rw [List.map_map]
    apply List.map_congr_left
    intro d hd
    exact tagToString_of_value_ne _ (raw_ne_empty_of_dataid_isSome (hSD d hd))
  obtain ⟨q5, lt5, n5, e5, hn5, v5, s5, td5, ms5, ds5, el5, ac5, pt5⟩ :=
    parseLoop_inertSection p
      (p.master.sessionData.map (fun d =>
        ({ name := tagSessionData, value := d.rawAttributes, attributes := [], rawLine := "" } : Tag)))
      tagSessionData hbSD hnSD (by decide) (by decide) (by decide) (by decide) (by decide)
      (by decide)
      (p.master.variants.flatMap (fun v => [tagStreamInf ++ ":" ++ v.rawAttributes, v.uri]) ++
           p.master.iFrameStreams.map (fun f => tagIFrameStreamInf ++ ":" ++ f.rawAttributes))
      q4 lt4 n4 hn4
  rw [hSDlines] at e5
  obtain ⟨q6, lt6, n6, e6, hn6, v6, med6⟩ :=
    parseLoop_variantSection p.master.variants hVar
      (p.master.iFrameStreams.map (fun f => tagIFrameStreamInf ++ ":" ++ f.rawAttributes))
      q5 lt5 n5 hn5
  have hbIF : ∀ t ∈ p.master.iFrameStreams.map (fun f =>
      ({ name := tagIFrameStreamInf, value := f.rawAttributes, attributes := [], rawLine := "" } : Tag)),
      storedTagOK p t := by
    intro t ht
    rw [List.mem_map] at ht
    obtain ⟨f, hf, rfl⟩ := ht
    exact storedTagOK_named p tagIFrameStreamInf f.rawAttributes (by decide) (by decide)
      (by decide)
      (fun k => absurd k (by decide)) (fun k => absurd k (by decide))
      (fun k => absurd k (by decide)) (fun k => absurd k (by decide))
      (fun k => absurd k (by decide)) (fun k => absurd k (by decide))
      (fun k => absurd k (by decide)) (fun k => hIF f hf)
      (fun k => absurd k (by decide))
  have hnIF : ∀ t ∈ p.master.iFrameStreams.map (fun f =>
      ({ name := tagIFrameStreamInf, value := f.rawAttributes, attributes := [], rawLine := "" } : Tag)),
      t.name = tagIFrameStreamInf := by
    intro t ht
    rw [List.mem_map] at ht
    obtain ⟨f, hf, rfl⟩ := ht
    rfl
  have hIFlines : (p.master.iFrameStreams.map (fun f =>
      ({ name := tagIFrameStreamInf, value := f.rawAttributes, attributes := [], rawLine := "" } : Tag))).map tagToString =
      p.master.iFrameStreams.map (fun f => tagIFrameStreamInf ++ ":" ++ f.rawAttributes) := by
    rw [List.map_map]
    apply List.map_congr_left
    intro f hf
    exact tagToString_of_value_ne _ (raw_ne_empty_of_uri_isSome (hIF f hf).1)
  obtain ⟨q7, lt7, n7, e7, hn7, v7, s7, td7, ms7, ds7, el7, ac7, pt7⟩ :=
    parseLoop_inertSection p
      (p.master.iFrameStreams.map (fun f =>
        ({ name := tagIFrameStreamInf, value := f.rawAttributes, attributes := [], rawLine := "" } : Tag)))
      tagIFrameStreamInf hbIF hnIF (by decide) (by decide) (by decide) (by decide) (by decide)
      (by decide) [] q6 lt6 n6 hn6
  rw [hIFlines, List.append_nil] at e7
  have echain : parse (playlistOutLines p) = parseLoop [] q7 lt7 n7 :=
    ((((((hparse.trans e2).trans e3).trans e4).trans e5).trans e6).trans e7)
  have fvar : q7.master.variants = p.master.variants := by
    rw [v7, v6]
    have h5v : q5.master.variants = [] := (((v5.trans v4).trans v3).trans v2)
    rw [h5v, List.nil_append]
  have fseg : q7.media.segments = p.media.segments := by
    have : q7.media.segments = [] := by
      rw [s7, congrArg MediaPlaylist.segments med6]
      exact (((s5.trans s4).trans s3).trans s2)
    rw [this, hseg0]
  have ftd : q7.media.targetDuration = p.media.targetDuration := by
    rw [td7, congrArg MediaPlaylist.targetDuration med6, td5, td4,
      td3.trans (if_neg (fun hc => absurd hc.2 (show ¬ tagIndependentSegments = tagTargetDuration by decide))),
      td2, hTD0, ite_self]
  have fms : q7.media.mediaSequence = p.media.mediaSequence := by
    rw [ms7, congrArg MediaPlaylist.mediaSequence med6, ms5, ms4,
      ms3.trans (if_neg (fun hc => absurd hc.2 (show ¬ tagIndependentSegments = tagMediaSequence by decide))),
      ms2, hMS0, ite_self]
  have fds : q7.media.discontinuitySeq = p.media.discontinuitySeq := by
    rw [ds7, congrArg MediaPlaylist.discontinuitySeq med6, ds5, ds4,
      ds3.trans (if_neg (fun hc => absurd hc.2 (show ¬ tagIndependentSegments = tagDiscontinuitySequence by decide))),
      ds2, hDS0, ite_self]
  have fac : q7.media.allowCache = p.media.allowCache := by
    rw [ac7, congrArg MediaPlaylist.allowCache med6, ac5, ac4,
      ac3.trans (if_neg (fun hc => absurd hc.2 (show ¬ tagIndependentSegments = tagAllowCache by decide))),
      ac2, hAC0, ite_self]
  have fpt : q7.media.playlistType = p.media.playlistType := by
    rw [pt7, congrArg MediaPlaylist.playlistType med6, pt5, pt4,
      pt3.trans (if_neg (fun hc => absurd hc.2 (show ¬ tagIndependentSegments = tagPlaylistType by decide))),
      pt2, hPT0, ite_self]
  have fel : q7.media.endList = p.media.endList := by
    rw [el7, congrArg MediaPlaylist.endList med6, el5, el4,
      el3.trans (bool_or_and_decide_false (show ¬ tagIndependentSegments = tagEndList by decide)),
      el2, hEL0]
    cases hany : ((p.tags.filter (fun t => t.name ≠ tagExtM3U ∧ t.name ≠ tagVersion)).any
        (fun t => t.name = tagEndList))
    · rfl
    · rw [List.any_eq_true] at hany
      obtain ⟨t, ht, hname⟩ := hany
      rw [List.mem_filter] at ht
      have h2 := of_decide_eq_true ht.2
      have hok := hstored t ht.1 h2.1 h2.2
      have hcon := hok.2.2.2.2.2.2.1 (of_decide_eq_true hname)
      rw [hEL0] at hcon
      cases hcon
  have efinal := echain.trans (parseLoop_nil q7 lt7 n7)
  by_cases hvnil : p.master.variants = []
  · rw [if_neg (fun hc => hc (fvar.trans hvnil)),
      if_neg (fun hc => hc (fseg.trans hseg0))] at efinal
    exact ⟨q7, efinal, fvar, fseg, ftd, fms, fds, fel, fac, fpt⟩
  · rw [if_pos (fun hc => hvnil (fvar.symm.trans hc))] at efinal
    exact ⟨{ q7 with type := PlaylistType.master }, efinal, fvar, fseg, ftd, fms, fds, fel,
      fac, fpt⟩


/-- C5, counterexample: the serializer emits the target duration with `%d`,
so the non-integral target duration 6.5 parses back as 6 after one
serialize-reparse round trip. -/
theorem roundTripTargetDurationCounterexample :
    (parse ["#EXTM3U", "#EXT-X-TARGETDURATION:6.5", "#EXTINF:4.0,", "s.ts"]).map
        (fun p => p.media.targetDuration) = Except.ok (mkRat 13 2) ∧
    ((parse ["#EXTM3U", "#EXT-X-TARGETDURATION:6.5", "#EXTINF:4.0,", "s.ts"]).bind
        (fun p => parse (playlistOutLines p))).map
        (fun p => p.media.targetDuration) = Except.ok (mkRat 6 1) ∧
    ¬ mkRat 6 1 = mkRat 13 2 := by
  refine ⟨by decide, by decide, by decide⟩

/-- C5, amended: for every playlist whose stored global tags are benign
(colon-free `#` names whose reprocessing reproduces the very field values the
playlist holds), whose version numeral round-trips through `Atoi`, and which
satisfies the media-side conditions (integral target duration and numeric
fields that round-trip through their decimal renderings, at most
three-decimal segment durations, parser-shaped segments) or the master-side
conditions (zero-valued media fields and variant/group/session/I-frame
attribute strings that reparse to the recorded records), reparsing the
serialized output yields a playlist equal to the original in variants (in
order), segments (in order and all fields), target duration, media and
discontinuity sequence numbers, and the end-list, allow-cache and
playlist-type flags. -/
theorem roundTripPreservesFields (p : Playlist)
    (hstored : ∀ t ∈ p.tags, ¬ t.name = tagExtM3U → ¬ t.name = tagVersion → storedTagOK p t)
    (hver : atoi (toString p.version) = some p.version)
    (hcase : (p.type = PlaylistType.media ∧ mediaRT p) ∨
      (p.type = PlaylistType.master ∧ masterRT p)) :
    ∃ p', parse (playlistOutLines p) = Except.ok p' ∧
      p'.master.variants = p.master.variants ∧
      p'.media.segments = p.media.segments ∧
      p'.media.targetDuration = p.media.targetDuration ∧
      p'.media.mediaSequence = p.media.mediaSequence ∧
      p'.media.discontinuitySeq = p.media.discontinuitySeq ∧
      p'.media.endList = p.media.endList ∧
      p'.media.allowCache = p.media.allowCache ∧
      p'.media.playlistType = p.media.playlistType := by
  rcases hcase with ⟨hty, hm⟩ | ⟨hty, hm⟩
  · exact roundTrip_media p hstored hver hty hm
  · exact roundTrip_master p hstored hver hty hm

/-- C5, witness: a concrete one-segment media playlist satisfying every
hypothesis of the amended round-trip theorem. -/
theorem roundTripPreservesFieldsWitness :
    ((∀ t ∈ rtWitnessPlaylist.tags, ¬ t.name = tagExtM3U → ¬ t.name = tagVersion →
      storedTagOK rtWitnessPlaylist t) ∧
     atoi (toString rtWitnessPlaylist.version) = some rtWitnessPlaylist.version ∧
     rtWitnessPlaylist.type = PlaylistType.media ∧ mediaRT rtWitnessPlaylist) ∧
    ∃ p', parse (playlistOutLines rtWitnessPlaylist) = Except.ok p' ∧
      p'.master.variants = rtWitnessPlaylist.master.variants ∧
      p'.media.segments = rtWitnessPlaylist.media.segments ∧
      p'.media.targetDuration = rtWitnessPlaylist.media.targetDuration ∧
      p'.media.mediaSequence = rtWitnessPlaylist.media.mediaSequence ∧
      p'.media.discontinuitySeq = rtWitnessPlaylist.media.discontinuitySeq ∧
      p'.media.endList = rtWitnessPlaylist.media.endList ∧
      p'.media.allowCache = rtWitnessPlaylist.media.allowCache ∧
      p'.media.playlistType = rtWitnessPlaylist.media.playlistType :=
  ⟨⟨by decide, by decide, rfl, by decide⟩,
   roundTripPreservesFields rtWitnessPlaylist (by decide) (by decide)
     (Or.inl ⟨rfl, by decide⟩)⟩

end Ilinden
